import Mathlib

/-! # M-Network bankswitching cartridge (`CartridgeMNetwork`)

A shallow embedding of `src/emucore/CartMNetwork.cxx`.  The 4K cartridge window
`0x1000..0x1FFF` is split in two 2K segments.  Segment 0 (`0x1000..0x17FF`) shows a
switchable ROM slice or, when the fixed (last) slice index is selected, 1K of RAM
(write port `0x1000`, read port `0x1400`).  Segment 1 (`0x1800..0x1FFF`) shows a 256 byte
RAM bank (write port `0x1800`, read port `0x1900`) and the last ROM slice.

Machine integers are natural numbers; a 16-bit truncation is written `% 65536` where the
source stores a computed value into a `uInt16`.
-/

namespace Stella

/-! ## Constants and the page table -/

/-- Size of one ROM slice.  The constant is declared in `CartMNetwork.hxx`; its value is
the one the source relies on when it mixes `<< 11` with `& (BANK_SIZE-1)`. -/
abbrev BANK_SIZE : Nat := 2048

/-- Size of the cartridge RAM: 1K plus four banks of 256 bytes (`CartMNetwork.hxx`). -/
abbrev RAM_SIZE : Nat := 2048

/-- Address of a byte inside one of the two buffers owned by the cartridge
(`&myImage[index]` or `&myRAM[index]`). -/
inductive Ptr where
  | image (index : Nat)
  | ram (index : Nat)
deriving DecidableEq

/-- The `System::PageAccessType` tags used by the cartridge. -/
inductive PageAccessType where
  | PA_READ
  | PA_WRITE
  | PA_READWRITE
deriving DecidableEq

/-- The device a page descriptor routes to: this cartridge, or some other device. -/
inductive Device where
  | cartridge
  | other
deriving DecidableEq

/-- Modelled from the spec: the descriptor type `System::PageAccess` of `System.hxx`
(spec section 3, PageDescriptor): optional direct-read source, optional direct-write
target, code-tracking reference (an offset into `myCodeAccessBase`), owning device and
access type. -/
structure PageAccess where
  directPeekBase : Option Ptr
  directPokeBase : Option Ptr
  codeAccessBase : Option Nat
  device : Device
  type : PageAccessType
deriving DecidableEq

/-- Modelled from the spec: the constructor `PageAccess(Device*, PageAccessType)`, which
leaves the three pointers null. -/
def PageAccess.init (dev : Device) (access : PageAccessType) : PageAccess :=
  { directPeekBase := none, directPokeBase := none, codeAccessBase := none,
    device := dev, type := access }

/-- Modelled from the spec: the part of `System` (spec section 4.2, AddressSpace) that the
cartridge programs: a table of page descriptors indexed by page number, for a page size
`2 ^ PAGE_SHIFT`.  The page size is a 16-bit constant, so `PAGE_SHIFT ≤ 15`. -/
structure System where
  PAGE_SHIFT : Nat
  myPageAccessTable : Nat → PageAccess

/-- Page size `System::PAGE_SIZE`. -/
def System.PAGE_SIZE (sys : System) : Nat := 2 ^ sys.PAGE_SHIFT

/-- Page mask `System::PAGE_MASK`. -/
def System.PAGE_MASK (sys : System) : Nat := sys.PAGE_SIZE - 1

/-- Modelled from the spec: `System::setPageAccess(addr, access)`, keyed by the page that
holds `addr`. -/
def System.setPageAccess (sys : System) (addr : Nat) (access : PageAccess) : System :=
  { sys with myPageAccessTable :=
      fun page => if page = addr >>> sys.PAGE_SHIFT then access else sys.myPageAccessTable page }

/-- Modelled from the spec: `System::getPageAccess(addr)`. -/
def System.getPageAccess (sys : System) (addr : Nat) : PageAccess :=
  sys.myPageAccessTable (addr >>> sys.PAGE_SHIFT)

/-- The loop `for(uInt16 addr = start; addr < limit; addr += step) body`, with the loop
variable as second argument and `fuel` bounding the number of iterations.  All limits in
the cartridge are at most `0x2000`, so `addr + step` stays below `2 ^ 16` for every 16-bit
page size and the loop variable never wraps. -/
def pageLoop {σ : Type} (step limit : Nat) (body : Nat → σ → σ) : Nat → Nat → σ → σ
  | 0, _, st => st
  | fuel + 1, addr, st =>
    if addr < limit then pageLoop step limit body fuel (addr + step) (body addr st) else st

/-- A page-programming loop of the cartridge: every iteration updates the local
descriptor `access` by `f addr` and installs it with `setPageAccess(addr, access)`.
The result is the final `access` and the reprogrammed system.  The loop variable is a
`uInt16` below `limit`, so `0x10000` iterations suffice for the positive step
`PAGE_SIZE`. -/
def programPages (sys : System) (start limit : Nat) (f : Nat → PageAccess → PageAccess)
    (access : PageAccess) : PageAccess × System :=
  pageLoop sys.PAGE_SIZE limit
    (fun addr st => (f addr st.1, st.2.setPageAccess addr (f addr st.1)))
    0x10000 start (access, sys)

/-! ## The serializer -/

/-- Modelled from the spec: one field value of a save record (spec section 6, persisted
save format): a string, a fixed-width integer or a byte. -/
inductive Item where
  | string (s : String)
  | short (value : Nat)
  | byte (value : Nat)
deriving DecidableEq

/-- Modelled from the spec: the stream behind `Serializer.hxx`, as the sequence of items
written so far (for the `put` methods) or still unread (for the `get` methods).  A `get`
that finds no item of its kind throws; the `get` methods below report that by `none`
(scalars) or by the flag `false` (arrays). -/
structure Serializer where
  items : List Item
deriving DecidableEq

namespace Serializer

/-- Modelled from the spec: `Serializer::putString`. -/
def putString (out : Serializer) (s : String) : Serializer :=
  { items := out.items ++ [Item.string s] }

/-- Modelled from the spec: `Serializer::putShort`. -/
def putShort (out : Serializer) (value : Nat) : Serializer :=
  { items := out.items ++ [Item.short value] }

/-- Modelled from the spec: `Serializer::putShortArray(array, size)`. -/
def putShortArray (out : Serializer) (array : Nat → Nat) (size : Nat) : Serializer :=
  { items := out.items ++ (List.range size).map (fun i => Item.short (array i)) }

/-- Modelled from the spec: `Serializer::putByteArray(array, size)`. -/
def putByteArray (out : Serializer) (array : Nat → Nat) (size : Nat) : Serializer :=
  { items := out.items ++ (List.range size).map (fun i => Item.byte (array i)) }

/-- Modelled from the spec: `Serializer::getString`; `none` when it throws. -/
def getString (inp : Serializer) : Option (String × Serializer) :=
  match inp.items with
  | Item.string s :: rest => some (s, { items := rest })
  | _ => none

/-- Modelled from the spec: `Serializer::getShort`; `none` when it throws. -/
def getShort (inp : Serializer) : Option (Nat × Serializer) :=
  match inp.items with
  | Item.short v :: rest => some (v, { items := rest })
  | _ => none

/-- Read `size` integers into `array[index ..]`, one after the other, stopping at the
first item that is missing or of another kind.  The result is the array as far as it was
filled, the unread rest of the stream, and whether all `size` integers were read. -/
def getShortsFrom : Nat → Nat → List Item → (Nat → Nat) → (Nat → Nat) × List Item × Bool
  | 0, _, items, array => (array, items, true)
  | size + 1, index, Item.short v :: rest, array =>
    getShortsFrom size (index + 1) rest (fun i => if i = index then v else array i)
  | _ + 1, _, items, array => (array, items, false)

/-- Read `size` bytes into `array[index ..]`, like `getShortsFrom`. -/
def getBytesFrom : Nat → Nat → List Item → (Nat → Nat) → (Nat → Nat) × List Item × Bool
  | 0, _, items, array => (array, items, true)
  | size + 1, index, Item.byte v :: rest, array =>
    getBytesFrom size (index + 1) rest (fun i => if i = index then v else array i)
  | _ + 1, _, items, array => (array, items, false)

/-- Modelled from the spec: `Serializer::getShortArray(array, size)`, which reads straight
into the caller's array; the flag is `false` when it throws. -/
def getShortArray (inp : Serializer) (array : Nat → Nat) (size : Nat) :
    (Nat → Nat) × Serializer × Bool :=
  ((getShortsFrom size 0 inp.items array).1,
    { items := (getShortsFrom size 0 inp.items array).2.1 },
    (getShortsFrom size 0 inp.items array).2.2)

/-- Modelled from the spec: `Serializer::getByteArray(array, size)`, which reads straight
into the caller's array; the flag is `false` when it throws. -/
def getByteArray (inp : Serializer) (array : Nat → Nat) (size : Nat) :
    (Nat → Nat) × Serializer × Bool :=
  ((getBytesFrom size 0 inp.items array).1,
    { items := (getBytesFrom size 0 inp.items array).2.1 },
    (getBytesFrom size 0 inp.items array).2.2)

end Serializer

/-! ## Cartridge state -/

/-- A bank transition requested by a hotspot. -/
inductive HotspotAction where
  | bank (slice : Nat)
  | bankRAM (bank : Nat)
deriving DecidableEq

/-- Modelled from the spec: the scheme-specific part that `CartMNetwork.hxx` leaves to the
concrete schemes: `bankCount()` and the pure virtual `checkSwitchBank(address)`.  By spec
section 4.4 a hotspot access triggers a `bank()`/`bankRAM()` transition whose target is
derived from the hotspot offset; `none` means the address is no hotspot. -/
structure Scheme where
  bankCount : Nat
  checkSwitchBank : Nat → Option HotspotAction

/-- Overwrite one cell of a buffer. -/
def store (mem : Nat → Nat) (index value : Nat) : Nat → Nat :=
  fun i => if i = index then value else mem i

/-- The members of `CartridgeMNetwork` (with those inherited from `Cartridge`) that the
operations read or write.  `myReadFromWritePort` records the addresses passed to
`triggerReadFromWritePort`, which only notifies the debugger. -/
structure CartridgeMNetwork where
  myImage : Nat → Nat
  myRAM : Nat → Nat
  myCurrentSlice : Nat → Nat
  myCurrentRAM : Nat
  myFixedSlice : Nat
  myStartBank : Nat
  myCodeAccessSize : Nat
  myBankLocked : Bool
  myBankChanged : Bool
  myReadFromWritePort : List Nat
  mySystem : System

namespace CartridgeMNetwork

/-- The inherited `Cartridge::bankLocked()`. -/
def bankLocked (s : CartridgeMNetwork) : Bool := s.myBankLocked

/-- The inherited `Cartridge::lockBank()`. -/
def lockBank (s : CartridgeMNetwork) : CartridgeMNetwork := { s with myBankLocked := true }

/-- The inherited `Cartridge::unlockBank()`. -/
def unlockBank (s : CartridgeMNetwork) : CartridgeMNetwork := { s with myBankLocked := false }

/-- The method `CartridgeMNetwork::initialize` (spelled `initialise` because the source's
name is a reserved word here): copy at most `bankCount() * BANK_SIZE` bytes of the image,
size the code-access buffer, remember start bank and fixed slice. -/
def initialise (sch : Scheme) (s : CartridgeMNetwork) (image : Nat → Nat) (size : Nat) :
    CartridgeMNetwork :=
  { s with
    myImage := fun i => if i < min (sch.bankCount * BANK_SIZE) size then image i else s.myImage i
    myCodeAccessSize := sch.bankCount * BANK_SIZE + RAM_SIZE
    myStartBank := 0
    myFixedSlice := sch.bankCount - 1 }

/-- The method `CartridgeMNetwork::bankRAM`. -/
def bankRAM (s : CartridgeMNetwork) (bank : Nat) : CartridgeMNetwork :=
  if s.bankLocked then s else
  let offset := (bank <<< 8) % 65536
  let access := PageAccess.init Device.cartridge PageAccessType.PA_WRITE
  let w := programPages s.mySystem 0x1800 0x1900
    (fun addr a => { a with
      directPokeBase := some (Ptr.ram (1024 + offset + (addr &&& 0x00FF)))
      codeAccessBase := some (0x2000 + 1024 + offset + (addr &&& 0x00FF)) }) access
  let access := { w.1 with directPokeBase := none, type := PageAccessType.PA_READ }
  let r := programPages w.2 0x1900 0x1A00
    (fun addr a => { a with
      directPeekBase := some (Ptr.ram (1024 + offset + (addr &&& 0x00FF)))
      codeAccessBase := some (0x2000 + 1024 + offset + (addr &&& 0x00FF)) }) access
  { s with myCurrentRAM := bank, mySystem := r.2, myBankChanged := true }

/-- The method `CartridgeMNetwork::bank`; the result pairs the returned flag with the
new state. -/
def bank (s : CartridgeMNetwork) (slice : Nat) : Bool × CartridgeMNetwork :=
  if s.bankLocked then (false, s) else
  let offset := (slice <<< 11) % 65536
  let sys :=
    if slice ≠ s.myFixedSlice then
      (programPages s.mySystem 0x1000 0x1800
        (fun addr a => { a with
          directPeekBase := some (Ptr.image (offset + (addr &&& (BANK_SIZE - 1))))
          codeAccessBase := some (offset + (addr &&& (BANK_SIZE - 1))) })
        (PageAccess.init Device.cartridge PageAccessType.PA_READ)).2
    else
      let w := programPages s.mySystem 0x1000 0x1400
        (fun addr a => { a with
          directPokeBase := some (Ptr.ram (addr &&& 0x03FF))
          codeAccessBase := some (0x2000 + (addr &&& 0x03FF)) })
        (PageAccess.init Device.cartridge PageAccessType.PA_WRITE)
      let access := { w.1 with directPokeBase := none, type := PageAccessType.PA_READ }
      (programPages w.2 0x1400 0x1800
        (fun addr a => { a with
          directPeekBase := some (Ptr.ram (addr &&& 0x03FF))
          codeAccessBase := some (0x2000 + (addr &&& 0x03FF)) }) access).2
  (true, { s with myCurrentSlice := store s.myCurrentSlice 0 slice, mySystem := sys,
                  myBankChanged := true })

/-- The method `CartridgeMNetwork::getBank`. -/
def getBank (s : CartridgeMNetwork) : Nat := s.myCurrentSlice 0

/-- The start of the hot-spot pages, `0x1FE0 & ~System::PAGE_MASK`. -/
def hotspotPage (sys : System) : Nat := 0x1FE0 &&& (0xFFFF ^^^ sys.PAGE_MASK)

/-- The method `CartridgeMNetwork::install`. -/
def install (s : CartridgeMNetwork) (system : System) : CartridgeMNetwork :=
  let access := PageAccess.init Device.cartridge PageAccessType.PA_READ
  let h := programPages system (hotspotPage system) 0x2000
    (fun _ a => { a with codeAccessBase := some 0x1fc0 }) access
  let f := programPages h.2 0x1A00 (hotspotPage system)
    (fun addr a => { a with
      directPeekBase := some (Ptr.image (s.myFixedSlice * BANK_SIZE + (addr &&& (BANK_SIZE - 1))))
      codeAccessBase := some (s.myFixedSlice * BANK_SIZE + (addr &&& (BANK_SIZE - 1))) }) h.1
  let s1 := { s with mySystem := f.2, myCurrentSlice := store s.myCurrentSlice 1 s.myFixedSlice }
  let s2 := bankRAM s1 0
  (bank s2 s2.myStartBank).2

/-- The call `checkSwitchBank(address)`: perform the transition the scheme attaches to
the address, if any. -/
def checkSwitchBank (sch : Scheme) (s : CartridgeMNetwork) (address : Nat) : CartridgeMNetwork :=
  match sch.checkSwitchBank address with
  | none => s
  | some (HotspotAction.bank slice) => (bank s slice).2
  | some (HotspotAction.bankRAM b) => bankRAM s b

/-- The method `CartridgeMNetwork::peek`.  `dataBusState` is the value that
`mySystem->getDataBusState(0xFF)` returns for this access. -/
def peek (sch : Scheme) (s : CartridgeMNetwork) (dataBusState address : Nat) :
    Nat × CartridgeMNetwork :=
  let peekAddress := address
  let address := address &&& 0x0FFF
  let s := checkSwitchBank sch s address
  if s.myCurrentSlice 0 = s.myFixedSlice ∧ address < 0x0400 then
    let value := dataBusState
    if s.bankLocked then (value, s)
    else
      (value, { s with myReadFromWritePort := peekAddress :: s.myReadFromWritePort
                       myRAM := store s.myRAM (address &&& 0x03FF) value })
  else if 0x0800 ≤ address ∧ address ≤ 0x08FF then
    let value := dataBusState
    if s.bankLocked then (value, s)
    else
      (value, { s with myReadFromWritePort := peekAddress :: s.myReadFromWritePort
                       myRAM := store s.myRAM
                         (1024 + (s.myCurrentRAM <<< 8) + (address &&& 0x00FF)) value })
  else
    (s.myImage ((s.myCurrentSlice (address >>> 11) <<< 11) + (address &&& (BANK_SIZE - 1))), s)

/-- The method `CartridgeMNetwork::poke`. -/
def poke (sch : Scheme) (s : CartridgeMNetwork) (address : Nat) (_value : Nat) :
    Bool × CartridgeMNetwork :=
  let address := address &&& 0x0FFF
  (false, checkSwitchBank sch s address)

/-- The method `CartridgeMNetwork::patch`. -/
def patch (s : CartridgeMNetwork) (address value : Nat) : Bool × CartridgeMNetwork :=
  let address := address &&& 0x0FFF
  let s :=
    if address < 0x0800 then
      if s.myCurrentSlice 0 = s.myFixedSlice then
        { s with myRAM := store s.myRAM (address &&& 0x03FF) value }
      else
        { s with myImage := store s.myImage
                   ((s.myCurrentSlice 0 <<< 11) + (address &&& (BANK_SIZE - 1))) value }
    else if address < 0x0900 then
      { s with myRAM := store s.myRAM
                 (1024 + (s.myCurrentRAM <<< 8) + (address &&& 0x00FF)) value }
    else
      { s with myImage := store s.myImage
                 ((s.myCurrentSlice (address >>> 11) <<< 11) + (address &&& (BANK_SIZE - 1))) value }
  (true, { s with myBankChanged := true })

/-- The method `CartridgeMNetwork::save`.  `name` is the string the virtual `name()`
returns.  The `put` methods of the modelled stream never throw, so the `catch` branch
is not taken. -/
def save (name : String) (s : CartridgeMNetwork) (out : Serializer) : Bool × Serializer :=
  let out := out.putString name
  let out := out.putShortArray s.myCurrentSlice 2
  let out := out.putShort s.myCurrentRAM
  let out := out.putByteArray s.myRAM RAM_SIZE
  (true, out)

/-- The method `CartridgeMNetwork::load`.  `name` is the string the virtual `name()`
returns.  Every `get` stores straight into the member it is read into; a `get` that
throws ends the `try` block, and the `catch` branch returns false.  The result is the
returned flag, the cartridge and the stream. -/
def load (name : String) (s : CartridgeMNetwork) (inp : Serializer) :
    Bool × CartridgeMNetwork × Serializer :=
  match inp.getString with
  | none => (false, s, inp)
  | some (str, inp) =>
    if str ≠ name then (false, s, inp)
    else
      let slices := inp.getShortArray s.myCurrentSlice 2
      let s := { s with myCurrentSlice := slices.1 }
      if slices.2.2 = false then (false, s, slices.2.1)
      else
        match slices.2.1.getShort with
        | none => (false, s, slices.2.1)
        | some (ramBank, inp) =>
          let s := { s with myCurrentRAM := ramBank }
          let ram := inp.getByteArray s.myRAM RAM_SIZE
          let s := { s with myRAM := ram.1 }
          if ram.2.2 = false then (false, s, ram.2.1)
          else
            let s := bankRAM s s.myCurrentRAM
            let s := (bank s (s.myCurrentSlice 0)).2
            (true, s, ram.2.1)

/-- The method `CartridgeMNetwork::reset`.  `ramInit` holds the `RAM_SIZE` bytes that the
inherited `initializeRAM(myRAM, RAM_SIZE)` writes (zeros or random bytes, by a setting). -/
def reset (s : CartridgeMNetwork) (ramInit : Nat → Nat) : CartridgeMNetwork :=
  let s := { s with myRAM := fun i => if i < RAM_SIZE then ramInit i else s.myRAM i }
  let s := bankRAM s 0
  let s := (bank s s.myStartBank).2
  { s with myBankChanged := true }

end CartridgeMNetwork

/-- Modelled from the spec: the bus read `System::peek` of `System.cxx` (spec section 2):
a descriptor with a direct-read pointer completes the access from that pointer, any
other access falls through to the cartridge's `peek`. -/
def System.peek (sch : Scheme) (s : CartridgeMNetwork) (dataBusState addr : Nat) :
    Nat × CartridgeMNetwork :=
  match (s.mySystem.getPageAccess addr).directPeekBase with
  | some (Ptr.image i) => (s.myImage (i + (addr &&& s.mySystem.PAGE_MASK)), s)
  | some (Ptr.ram i) => (s.myRAM (i + (addr &&& s.mySystem.PAGE_MASK)), s)
  | none => CartridgeMNetwork.peek sch s dataBusState addr

/-! ## The page table a bank selection calls for -/

open CartridgeMNetwork

/-- The descriptor that `bank(slice)` installs for the page starting at `base`
(`0x1000 ≤ base < 0x1800`): a ROM read page, or a page of the 1K RAM write or read port
when `slice` is the fixed slice. -/
def segmentAccess (fixedSlice slice base : Nat) : PageAccess :=
  if slice ≠ fixedSlice then
    { directPeekBase := some (Ptr.image ((slice <<< 11) % 65536 + (base &&& (BANK_SIZE - 1))))
      directPokeBase := none
      codeAccessBase := some ((slice <<< 11) % 65536 + (base &&& (BANK_SIZE - 1)))
      device := Device.cartridge, type := PageAccessType.PA_READ }
  else if base < 0x1400 then
    { directPeekBase := none
      directPokeBase := some (Ptr.ram (base &&& 0x03FF))
      codeAccessBase := some (0x2000 + (base &&& 0x03FF))
      device := Device.cartridge, type := PageAccessType.PA_WRITE }
  else
    { directPeekBase := some (Ptr.ram (base &&& 0x03FF))
      directPokeBase := none
      codeAccessBase := some (0x2000 + (base &&& 0x03FF))
      device := Device.cartridge, type := PageAccessType.PA_READ }

/-- The descriptor that `bankRAM(bank)` installs for the page starting at `base`
(`0x1800 ≤ base < 0x1A00`): write port below `0x1900`, read port from `0x1900`. -/
def ramPortAccess (bank base : Nat) : PageAccess :=
  if base < 0x1900 then
    { directPeekBase := none
      directPokeBase := some (Ptr.ram (1024 + (bank <<< 8) % 65536 + (base &&& 0x00FF)))
      codeAccessBase := some (0x2000 + 1024 + (bank <<< 8) % 65536 + (base &&& 0x00FF))
      device := Device.cartridge, type := PageAccessType.PA_WRITE }
  else
    { directPeekBase := some (Ptr.ram (1024 + (bank <<< 8) % 65536 + (base &&& 0x00FF)))
      directPokeBase := none
      codeAccessBase := some (0x2000 + 1024 + (bank <<< 8) % 65536 + (base &&& 0x00FF))
      device := Device.cartridge, type := PageAccessType.PA_READ }

/-- The descriptor that `install` gives a page of the fixed segment. -/
def fixedAccess (fixedSlice base : Nat) : PageAccess :=
  { directPeekBase := some (Ptr.image (fixedSlice * BANK_SIZE + (base &&& (BANK_SIZE - 1))))
    directPokeBase := none
    codeAccessBase := some (fixedSlice * BANK_SIZE + (base &&& (BANK_SIZE - 1)))
    device := Device.cartridge, type := PageAccessType.PA_READ }

/-- The descriptor that `install` gives a hot-spot page. -/
def hotspotAccess : PageAccess :=
  { directPeekBase := none, directPokeBase := none, codeAccessBase := some 0x1fc0,
    device := Device.cartridge, type := PageAccessType.PA_READ }

/-- The descriptor the window page starting at `base` carries under the bank selection
of state `s`. -/
def windowAccess (s : CartridgeMNetwork) (base : Nat) : PageAccess :=
  if base < 0x1800 then segmentAccess s.myFixedSlice (s.myCurrentSlice 0) base
  else if base < 0x1A00 then ramPortAccess s.myCurrentRAM base
  else if base < hotspotPage s.mySystem then fixedAccess s.myFixedSlice base
  else hotspotAccess

/-- The page table agrees with the bank selection from address `lo` on: every page of
`lo..0x1FFF` carries the descriptor of `windowAccess`, and segment 1 holds the fixed
slice. -/
structure ProgrammedFrom (lo : Nat) (s : CartridgeMNetwork) : Prop where
  shift : s.mySystem.PAGE_SHIFT ≤ 8
  fixed : s.myCurrentSlice 1 = s.myFixedSlice
  table : ∀ page, lo ≤ page * s.mySystem.PAGE_SIZE → page * s.mySystem.PAGE_SIZE < 0x2000 →
    s.mySystem.myPageAccessTable page = windowAccess s (page * s.mySystem.PAGE_SIZE)

/-- The page table of the whole window `0x1000..0x1FFF` agrees with the bank selection. -/
def Programmed (s : CartridgeMNetwork) : Prop := ProgrammedFrom 0x1000 s

/-- The state `install` has reached when it calls `bankRAM(0)`: hot-spot pages and fixed
segment are programmed and segment 1 is recorded as holding the fixed slice. -/
def installSegment1 (s : CartridgeMNetwork) (system : System) : CartridgeMNetwork :=
  let access := PageAccess.init Device.cartridge PageAccessType.PA_READ
  let h := programPages system (hotspotPage system) 0x2000
    (fun _ a => { a with codeAccessBase := some 0x1fc0 }) access
  let f := programPages h.2 0x1A00 (hotspotPage system)
    (fun addr a => { a with
      directPeekBase := some (Ptr.image (s.myFixedSlice * BANK_SIZE + (addr &&& (BANK_SIZE - 1))))
      codeAccessBase := some (s.myFixedSlice * BANK_SIZE + (addr &&& (BANK_SIZE - 1))) }) h.1
  { s with mySystem := f.2, myCurrentSlice := store s.myCurrentSlice 1 s.myFixedSlice }

/-- The cartridge that `load` makes of `tgt` when it has read every field written from
`src`: slice indices, RAM bank and RAM bytes are those of `src`, and the page table has
gone through `bankRAM` and `bank`. -/
def loaded (src tgt : CartridgeMNetwork) : CartridgeMNetwork :=
  let s := { tgt with
    myCurrentSlice := fun i => if i < 2 then src.myCurrentSlice i else tgt.myCurrentSlice i
    myCurrentRAM := src.myCurrentRAM
    myRAM := fun i => if i < RAM_SIZE then src.myRAM i else tgt.myRAM i }
  let s := bankRAM s s.myCurrentRAM
  (bank s (s.myCurrentSlice 0)).2

/-- States reachable after `install` on an unlocked cartridge (page size a power of two
dividing `0x100`) by `bank`, `bankRAM`, `peek`, `poke`, `patch`, `lockBank` and
`unlockBank`, with arbitrary arguments. -/
inductive Reachable (sch : Scheme) : CartridgeMNetwork → Prop where
  | install (s : CartridgeMNetwork) (system : System) :
      s.myBankLocked = false → system.PAGE_SHIFT ≤ 8 → Reachable sch (install s system)
  | bank (s : CartridgeMNetwork) (slice : Nat) : Reachable sch s → Reachable sch (bank s slice).2
  | bankRAM (s : CartridgeMNetwork) (b : Nat) : Reachable sch s → Reachable sch (bankRAM s b)
  | peek (s : CartridgeMNetwork) (dataBusState address : Nat) :
      Reachable sch s → Reachable sch (peek sch s dataBusState address).2
  | poke (s : CartridgeMNetwork) (address value : Nat) :
      Reachable sch s → Reachable sch (poke sch s address value).2
  | patch (s : CartridgeMNetwork) (address value : Nat) :
      Reachable sch s → Reachable sch (patch s address value).2
  | lockBank (s : CartridgeMNetwork) : Reachable sch s → Reachable sch (lockBank s)
  | unlockBank (s : CartridgeMNetwork) : Reachable sch s → Reachable sch (unlockBank s)

/-- States reached from `s0` by any sequence of `reset`, `bank`, `bankRAM`, `peek`,
`poke`, `patch`, `lockBank` and `unlockBank` calls, with arbitrary arguments. -/
inductive Operated (sch : Scheme) (s0 : CartridgeMNetwork) : CartridgeMNetwork → Prop where
  | start : Operated sch s0 s0
  | reset (s : CartridgeMNetwork) (ramInit : Nat → Nat) :
      Operated sch s0 s → Operated sch s0 (reset s ramInit)
  | bank (s : CartridgeMNetwork) (slice : Nat) :
      Operated sch s0 s → Operated sch s0 (bank s slice).2
  | bankRAM (s : CartridgeMNetwork) (b : Nat) :
      Operated sch s0 s → Operated sch s0 (bankRAM s b)
  | peek (s : CartridgeMNetwork) (dataBusState address : Nat) :
      Operated sch s0 s → Operated sch s0 (peek sch s dataBusState address).2
  | poke (s : CartridgeMNetwork) (address value : Nat) :
      Operated sch s0 s → Operated sch s0 (poke sch s address value).2
  | patch (s : CartridgeMNetwork) (address value : Nat) :
      Operated sch s0 s → Operated sch s0 (patch s address value).2
  | lockBank (s : CartridgeMNetwork) : Operated sch s0 s → Operated sch s0 (lockBank s)
  | unlockBank (s : CartridgeMNetwork) : Operated sch s0 s → Operated sch s0 (unlockBank s)

/-- The fixed-segment invariant of a state `s` relative to a starting state `s0`, for a
cartridge of `N` slices: the second segment holds the last slice and the page-table
entries from `0x1A00` upwards are those of `s0`. -/
structure FixedKept (N : Nat) (s0 s : CartridgeMNetwork) : Prop where
  shift : s.mySystem.PAGE_SHIFT = s0.mySystem.PAGE_SHIFT
  slice : s.myCurrentSlice 1 = s.myFixedSlice
  fixed : s.myFixedSlice = N - 1
  table : ∀ page, 0x1A00 ≤ page * s0.mySystem.PAGE_SIZE →
    s.mySystem.myPageAccessTable page = s0.mySystem.myPageAccessTable page

/-- Modelled from the spec: the members of `CartridgeF4` (`CartF4.hxx` is absent) that its
bank operations touch: the selected bank, the lock inherited from `Cartridge`, and the
bank-changed flag. -/
structure CartridgeF4 where
  myCurrentBank : Nat
  myBankLocked : Bool
  myBankChanged : Bool
deriving DecidableEq

namespace CartridgeF4

/-- Modelled from the spec: the inherited `Cartridge::lockBank()` (spec section 4.4). -/
def lockBank (c : CartridgeF4) : CartridgeF4 := { c with myBankLocked := true }

/-- Modelled from the spec: the inherited `Cartridge::unlockBank()` (spec section 4.4). -/
def unlockBank (c : CartridgeF4) : CartridgeF4 := { c with myBankLocked := false }

/-- Modelled from the spec: `CartridgeF4::bank` (spec section 4.3): a no-op returning false
while locked; otherwise it selects the bank, an out-of-range index clamped to the eight
banks of the scheme, and marks the bank-changed flag.  The reprogramming of the page
table is left out. -/
def bank (c : CartridgeF4) (bank : Nat) : Bool × CartridgeF4 :=
  if c.myBankLocked then (false, c)
  else (true, { c with myCurrentBank := min bank 7, myBankChanged := true })

end CartridgeF4

/-- The widget `CartridgeF4Widget`: the cartridge `myCart` it refers to and the entry
selected in its pop-up `myBank` (`myBank->getSelected()`). -/
structure CartridgeF4Widget where
  myCart : CartridgeF4
  myBankSelected : Nat
deriving DecidableEq

/-- The method `CartridgeF4Widget::handleCommand(sender, cmd, data, id)`; `kBankChanged`
is the command id declared in the absent `CartF4Widget.hxx`.  The final `invalidate()`
only asks for a redraw. -/
def CartridgeF4Widget.handleCommand (kBankChanged : Int) (w : CartridgeF4Widget) (cmd : Int) :
    CartridgeF4Widget :=
  if cmd = kBankChanged then
    let c := w.myCart.unlockBank
    let c := (c.bank w.myBankSelected).2
    let c := c.lockBank
    { w with myCart := c }
  else w

/-! ## Concrete instances used as witnesses -/

/-- A scheme with eight slices whose hotspots are `0x0FE0..0x0FE7` (slice select) and
`0x0FE8..0x0FEB` (RAM bank select). -/
def e7Scheme : Scheme :=
  { bankCount := 8
    checkSwitchBank := fun address =>
      if 0x0FE0 ≤ address ∧ address ≤ 0x0FE7 then some (HotspotAction.bank (address &&& 0x0007))
      else if 0x0FE8 ≤ address ∧ address ≤ 0x0FEB then
        some (HotspotAction.bankRAM (address &&& 0x0003))
      else none }

/-- A system with 64-byte pages whose table routes every page to another device. -/
def system64 : System :=
  { PAGE_SHIFT := 6
    myPageAccessTable := fun _ => PageAccess.init Device.other PageAccessType.PA_READ }

/-- A cartridge before `initialize`: empty buffers, unlocked. -/
def blankCart : CartridgeMNetwork :=
  { myImage := fun _ => 0, myRAM := fun _ => 0, myCurrentSlice := fun _ => 0,
    myCurrentRAM := 0, myFixedSlice := 0, myStartBank := 0, myCodeAccessSize := 0,
    myBankLocked := false, myBankChanged := false, myReadFromWritePort := [],
    mySystem := system64 }

/-- An installed eight-slice cartridge in which every byte of slice `i` equals `i`. -/
def demoCart : CartridgeMNetwork :=
  CartridgeMNetwork.install
    (CartridgeMNetwork.initialise e7Scheme blankCart (fun i => i / 2048) 16384) system64

/-- A scheme of the same family with 64 slices and no hotspots. -/
def wideScheme : Scheme :=
  { bankCount := 64, checkSwitchBank := fun _ => none }

/-- An installed 64-slice cartridge in which every byte of slice `i` equals `i`. -/
def wideCart : CartridgeMNetwork :=
  CartridgeMNetwork.install
    (CartridgeMNetwork.initialise wideScheme blankCart (fun i => i / 2048) 131072) system64

/-- The eight-slice cartridge after `bank(3); patch(0x1000, 0xAA)`. -/
def patchedCart : CartridgeMNetwork :=
  (CartridgeMNetwork.patch (CartridgeMNetwork.bank demoCart 3).2 0x1000 0xAA).2

/-- A complete save record under the name `CartridgeE7` whose second slice index is 5,
not the last slice 7: slice 3 in segment 0, RAM bank 0, 2048 zero bytes. -/
def strayRecord : Serializer :=
  ⟨Item.string "CartridgeE7" :: Item.short 3 :: Item.short 5 :: Item.short 0 ::
    (List.range' 0 RAM_SIZE).map (fun _ => Item.byte 0)⟩

/-- A scheme of the same family with two slices and no hotspots. -/
def tinyScheme : Scheme :=
  { bankCount := 2, checkSwitchBank := fun _ => none }

/-- An installed two-slice cartridge in which every byte of slice `i` equals `i`. -/
def tinyCart : CartridgeMNetwork :=
  CartridgeMNetwork.install
    (CartridgeMNetwork.initialise tinyScheme blankCart (fun i => i / 2048) 4096) system64

theorem and_0FFF (a : Nat) : a &&& 0x0FFF = a % 4096 := Nat.and_pow_two_sub_one_eq_mod a 12

theorem and_bankMask (a : Nat) : a &&& (BANK_SIZE - 1) = a % 2048 :=
  Nat.and_pow_two_sub_one_eq_mod a 11

theorem and_07FF (a : Nat) : a &&& 0x07FF = a % 2048 := Nat.and_pow_two_sub_one_eq_mod a 11

theorem and_03FF (a : Nat) : a &&& 0x03FF = a % 1024 := Nat.and_pow_two_sub_one_eq_mod a 10

theorem and_00FF (a : Nat) : a &&& 0x00FF = a % 256 := Nat.and_pow_two_sub_one_eq_mod a 8

theorem shl_11 (a : Nat) : a <<< 11 = a * 2048 := by simp [Nat.shiftLeft_eq]

theorem shl_8 (a : Nat) : a <<< 8 = a * 256 := by simp [Nat.shiftLeft_eq]

theorem shr_11 (a : Nat) : a >>> 11 = a / 2048 := by simp [Nat.shiftRight_eq_div_pow]

/-! ## The page-programming loops -/

theorem pageLoop_fuel {σ : Type} (step limit : Nat) (body : Nat → σ → σ) (hstep : 0 < step) :
    ∀ (fuel fuel' addr : Nat) (st : σ), limit ≤ addr + fuel → limit ≤ addr + fuel' →
      pageLoop step limit body fuel addr st = pageLoop step limit body fuel' addr st := by
  intro fuel
  induction fuel with
  | zero =>
    intro fuel' addr st h _
    have hn : ¬ addr < limit := by omega
    cases fuel' with
    | zero => rfl
    | succ n => simp [pageLoop, hn]
  | succ fuel ih =>
    intro fuel' addr st h h'
    cases fuel' with
    | zero =>
      have hn : ¬ addr < limit := by omega
      simp [pageLoop, hn]
    | succ n =>
      by_cases hlt : addr < limit
      · simp only [pageLoop, hlt, if_true]
        exact ih n (addr + step) (body addr st) (by omega) (by omega)
      · simp [pageLoop, hlt]

theorem pageLoop_programs (sh limit : Nat) (f : Nat → PageAccess → PageAccess)
    (hf : ∀ a b acc, f a (f b acc) = f a acc) :
    ∀ (fuel m : Nat) (acc : PageAccess) (sys : System),
      sys.PAGE_SHIFT = sh → limit ≤ m * 2 ^ sh + fuel →
      (pageLoop (2 ^ sh) limit
        (fun addr st => (f addr st.1, st.2.setPageAccess addr (f addr st.1)))
        fuel (m * 2 ^ sh) (acc, sys)).2.PAGE_SHIFT = sh ∧
      ∀ page,
        (pageLoop (2 ^ sh) limit
          (fun addr st => (f addr st.1, st.2.setPageAccess addr (f addr st.1)))
          fuel (m * 2 ^ sh) (acc, sys)).2.myPageAccessTable page =
        if m ≤ page ∧ page * 2 ^ sh < limit then f (page * 2 ^ sh) acc
        else sys.myPageAccessTable page := by
  intro fuel
  induction fuel with
  | zero =>
    intro m acc sys hsh hfuel
    refine ⟨by simpa [pageLoop] using hsh, fun page => ?_⟩
    have hP : 0 < 2 ^ sh := Nat.pow_pos (by decide)
    have : ¬ (m ≤ page ∧ page * 2 ^ sh < limit) := by
      rintro ⟨h1, h2⟩
      have := Nat.mul_le_mul_right (2 ^ sh) h1
      omega
    simp [pageLoop, this]
  | succ fuel ih =>
    intro m acc sys hsh hfuel
    have hP : 0 < 2 ^ sh := Nat.pow_pos (by decide)
    by_cases hlt : m * 2 ^ sh < limit
    · have hstep : m * 2 ^ sh + 2 ^ sh = (m + 1) * 2 ^ sh := by ring
      have ih' := ih (m + 1) (f (m * 2 ^ sh) acc) (sys.setPageAccess (m * 2 ^ sh) (f (m * 2 ^ sh) acc))
        (by simpa [System.setPageAccess] using hsh) (by rw [← hstep]; omega)
      simp only [pageLoop, hlt, if_true, hstep]
      refine ⟨ih'.1, fun page => ?_⟩
      rw [ih'.2 page]
      have hidx : (m * 2 ^ sh) >>> sys.PAGE_SHIFT = m := by
        rw [hsh, Nat.shiftRight_eq_div_pow, Nat.mul_div_cancel _ hP]
      by_cases hpm : page = m
      · subst hpm
        simp [System.setPageAccess, hidx, hlt]
      · by_cases hle : m ≤ page
        · have h1 : m + 1 ≤ page := by omega
          simp [h1, hle, hf, System.setPageAccess, hidx, hpm]
        · have h1 : ¬ (m + 1 ≤ page) := by omega
          simp [h1, hle, System.setPageAccess, hidx, hpm]
    · have : ∀ page, ¬ (m ≤ page ∧ page * 2 ^ sh < limit) := by
        rintro page ⟨h1, h2⟩
        have := Nat.mul_le_mul_right (2 ^ sh) h1
        omega
      simp only [pageLoop, hlt, if_false]
      exact ⟨hsh, fun page => by simp [this]⟩

theorem pageLoop_access (step limit : Nat) (f : Nat → PageAccess → PageAccess)
    (Q : PageAccess → Prop) (hQ : ∀ a acc, Q acc → Q (f a acc)) :
    ∀ (fuel addr : Nat) (acc : PageAccess) (sys : System), Q acc →
      Q (pageLoop step limit
        (fun addr st => (f addr st.1, st.2.setPageAccess addr (f addr st.1)))
        fuel addr (acc, sys)).1 := by
  intro fuel
  induction fuel with
  | zero => intro addr acc sys h; simpa [pageLoop] using h
  | succ fuel ih =>
    intro addr acc sys h
    by_cases hlt : addr < limit
    · simp only [pageLoop, hlt, if_true]
      exact ih _ _ _ (hQ _ _ h)
    · simpa [pageLoop, hlt] using h

theorem programPages_table (sys : System) (start limit : Nat)
    (f : Nat → PageAccess → PageAccess) (access : PageAccess)
    (hf : ∀ a b acc, f a (f b acc) = f a acc) (hdvd : sys.PAGE_SIZE ∣ start)
    (hlim : limit ≤ 0x10000) :
    (programPages sys start limit f access).2.PAGE_SHIFT = sys.PAGE_SHIFT ∧
    ∀ page, (programPages sys start limit f access).2.myPageAccessTable page =
      if start ≤ page * sys.PAGE_SIZE ∧ page * sys.PAGE_SIZE < limit
      then f (page * sys.PAGE_SIZE) access else sys.myPageAccessTable page := by
  obtain ⟨m, hm⟩ := hdvd
  have hP : 0 < 2 ^ sys.PAGE_SHIFT := Nat.pow_pos (by decide)
  have hm' : start = m * 2 ^ sys.PAGE_SHIFT := by rw [hm, System.PAGE_SIZE, Nat.mul_comm]
  subst hm'
  have key := pageLoop_programs sys.PAGE_SHIFT limit f hf 0x10000 m access sys rfl (by omega)
  unfold programPages System.PAGE_SIZE
  refine ⟨key.1, fun page => ?_⟩
  rw [key.2 page]
  have : m * 2 ^ sys.PAGE_SHIFT ≤ page * 2 ^ sys.PAGE_SHIFT ↔ m ≤ page :=
    ⟨fun h => Nat.le_of_mul_le_mul_right h hP, fun h => Nat.mul_le_mul_right _ h⟩
  simp only [this]

theorem programPages_access (sys : System) (start limit : Nat)
    (f : Nat → PageAccess → PageAccess) (access : PageAccess)
    (Q : PageAccess → Prop) (hQ : ∀ a acc, Q acc → Q (f a acc)) (h : Q access) :
    Q (programPages sys start limit f access).1 :=
  pageLoop_access _ _ f Q hQ _ _ _ _ h

theorem pageSize_dvd (sys : System) (n : Nat) (hsh : sys.PAGE_SHIFT ≤ 8) (h : 256 ∣ n) :
    sys.PAGE_SIZE ∣ n :=
  (pow_dvd_pow 2 hsh).trans h

/-! ## What the bank operations program -/

theorem bank_system (s : CartridgeMNetwork) (k : Nat) (hu : s.myBankLocked = false)
    (hsh : s.mySystem.PAGE_SHIFT ≤ 8) :
    (bank s k).2.mySystem.PAGE_SHIFT = s.mySystem.PAGE_SHIFT ∧
    ∀ page, (bank s k).2.mySystem.myPageAccessTable page =
      if 0x1000 ≤ page * s.mySystem.PAGE_SIZE ∧ page * s.mySystem.PAGE_SIZE < 0x1800
      then segmentAccess s.myFixedSlice k (page * s.mySystem.PAGE_SIZE)
      else s.mySystem.myPageAccessTable page := by
  by_cases hk : k = s.myFixedSlice
  · have w := programPages_table s.mySystem 0x1000 0x1400
      (fun addr a => { a with
          directPokeBase := some (Ptr.ram (addr &&& 0x03FF))
          codeAccessBase := some (0x2000 + (addr &&& 0x03FF)) })
      (PageAccess.init Device.cartridge PageAccessType.PA_WRITE)
      (fun _ _ _ => rfl) (pageSize_dvd _ _ hsh (by decide)) (by decide)
    have wa := programPages_access s.mySystem 0x1000 0x1400
      (fun addr a => { a with
          directPokeBase := some (Ptr.ram (addr &&& 0x03FF))
          codeAccessBase := some (0x2000 + (addr &&& 0x03FF)) })
      (PageAccess.init Device.cartridge PageAccessType.PA_WRITE)
      (fun a => a.device = Device.cartridge) (fun _ _ h => h) rfl
    have hsz : (programPages s.mySystem 0x1000 0x1400
      (fun addr a => { a with
          directPokeBase := some (Ptr.ram (addr &&& 0x03FF))
          codeAccessBase := some (0x2000 + (addr &&& 0x03FF)) })
      (PageAccess.init Device.cartridge PageAccessType.PA_WRITE)).2.PAGE_SIZE
        = s.mySystem.PAGE_SIZE := by
      simp only [System.PAGE_SIZE, w.1]
    have r := programPages_table (programPages s.mySystem 0x1000 0x1400
      (fun addr a => { a with
          directPokeBase := some (Ptr.ram (addr &&& 0x03FF))
          codeAccessBase := some (0x2000 + (addr &&& 0x03FF)) })
      (PageAccess.init Device.cartridge PageAccessType.PA_WRITE)).2 0x1400 0x1800
      (fun addr a => { a with
          directPeekBase := some (Ptr.ram (addr &&& 0x03FF))
          codeAccessBase := some (0x2000 + (addr &&& 0x03FF)) })
      { (programPages s.mySystem 0x1000 0x1400
          (fun addr a => { a with
            directPokeBase := some (Ptr.ram (addr &&& 0x03FF))
            codeAccessBase := some (0x2000 + (addr &&& 0x03FF)) })
          (PageAccess.init Device.cartridge PageAccessType.PA_WRITE)).1 with
        directPokeBase := none, type := PageAccessType.PA_READ }
      (fun _ _ _ => rfl) (by rw [hsz]; exact pageSize_dvd _ _ hsh (by decide)) (by decide)
    rw [hsz] at r
    simp only [bank, bankLocked, hu, hk, ne_eq, not_true_eq_false, if_false, Bool.false_eq_true]
    refine ⟨r.1.trans w.1, fun page => ?_⟩
    rw [r.2 page]
    by_cases h1 : 0x1400 ≤ page * s.mySystem.PAGE_SIZE ∧ page * s.mySystem.PAGE_SIZE < 0x1800
    · have h2 : 0x1000 ≤ page * s.mySystem.PAGE_SIZE ∧ page * s.mySystem.PAGE_SIZE < 0x1800 :=
        ⟨by omega, h1.2⟩
      have h3 : ¬ page * s.mySystem.PAGE_SIZE < 0x1400 := by omega
      have wa' := wa
      simp only at wa'
      rw [if_pos h1, if_pos h2]
      simp only [segmentAccess, ne_eq, not_true_eq_false, if_false, h3, wa']
    · rw [if_neg h1, w.2 page]
      by_cases h2 : 0x1000 ≤ page * s.mySystem.PAGE_SIZE ∧ page * s.mySystem.PAGE_SIZE < 0x1400
      · have h3 : 0x1000 ≤ page * s.mySystem.PAGE_SIZE ∧ page * s.mySystem.PAGE_SIZE < 0x1800 :=
          ⟨h2.1, by omega⟩
        rw [if_pos h2, if_pos h3]
        simp only [h2.2, if_true, segmentAccess, ne_eq, not_true_eq_false, if_false,
          PageAccess.init]
      · have h3 : ¬ (0x1000 ≤ page * s.mySystem.PAGE_SIZE ∧
            page * s.mySystem.PAGE_SIZE < 0x1800) := by omega
        rw [if_neg h2, if_neg h3]
  · have w := programPages_table s.mySystem 0x1000 0x1800
      (fun addr a => { a with
          directPeekBase := some (Ptr.image ((k <<< 11) % 65536 + (addr &&& (BANK_SIZE - 1))))
          codeAccessBase := some ((k <<< 11) % 65536 + (addr &&& (BANK_SIZE - 1))) })
      (PageAccess.init Device.cartridge PageAccessType.PA_READ)
      (fun _ _ _ => rfl) (pageSize_dvd _ _ hsh (by decide)) (by decide)
    simp only [bank, bankLocked, hu, hk, ne_eq, not_false_eq_true, if_true, if_false,
      Bool.false_eq_true]
    refine ⟨w.1, fun page => ?_⟩
    rw [w.2 page]
    simp only [segmentAccess, ne_eq, hk, not_false_eq_true, if_true, PageAccess.init]

theorem bankRAM_system (s : CartridgeMNetwork) (b : Nat) (hu : s.myBankLocked = false)
    (hsh : s.mySystem.PAGE_SHIFT ≤ 8) :
    (bankRAM s b).mySystem.PAGE_SHIFT = s.mySystem.PAGE_SHIFT ∧
    ∀ page, (bankRAM s b).mySystem.myPageAccessTable page =
      if 0x1800 ≤ page * s.mySystem.PAGE_SIZE ∧ page * s.mySystem.PAGE_SIZE < 0x1A00
      then ramPortAccess b (page * s.mySystem.PAGE_SIZE)
      else s.mySystem.myPageAccessTable page := by
  have w := programPages_table s.mySystem 0x1800 0x1900
    (fun addr a => { a with
      directPokeBase := some (Ptr.ram (1024 + (b <<< 8) % 65536 + (addr &&& 0x00FF)))
      codeAccessBase := some (0x2000 + 1024 + (b <<< 8) % 65536 + (addr &&& 0x00FF)) })
    (PageAccess.init Device.cartridge PageAccessType.PA_WRITE)
    (fun _ _ _ => rfl) (pageSize_dvd _ _ hsh (by decide)) (by decide)
  have wa := programPages_access s.mySystem 0x1800 0x1900
    (fun addr a => { a with
      directPokeBase := some (Ptr.ram (1024 + (b <<< 8) % 65536 + (addr &&& 0x00FF)))
      codeAccessBase := some (0x2000 + 1024 + (b <<< 8) % 65536 + (addr &&& 0x00FF)) })
    (PageAccess.init Device.cartridge PageAccessType.PA_WRITE)
    (fun a => a.device = Device.cartridge) (fun _ _ h => h) rfl
  have hsz : (programPages s.mySystem 0x1800 0x1900
    (fun addr a => { a with
      directPokeBase := some (Ptr.ram (1024 + (b <<< 8) % 65536 + (addr &&& 0x00FF)))
      codeAccessBase := some (0x2000 + 1024 + (b <<< 8) % 65536 + (addr &&& 0x00FF)) })
    (PageAccess.init Device.cartridge PageAccessType.PA_WRITE)).2.PAGE_SIZE
      = s.mySystem.PAGE_SIZE := by
    simp only [System.PAGE_SIZE, w.1]
  have r := programPages_table (programPages s.mySystem 0x1800 0x1900
    (fun addr a => { a with
      directPokeBase := some (Ptr.ram (1024 + (b <<< 8) % 65536 + (addr &&& 0x00FF)))
      codeAccessBase := some (0x2000 + 1024 + (b <<< 8) % 65536 + (addr &&& 0x00FF)) })
    (PageAccess.init Device.cartridge PageAccessType.PA_WRITE)).2 0x1900 0x1A00
    (fun addr a => { a with
      directPeekBase := some (Ptr.ram (1024 + (b <<< 8) % 65536 + (addr &&& 0x00FF)))
      codeAccessBase := some (0x2000 + 1024 + (b <<< 8) % 65536 + (addr &&& 0x00FF)) })
    { (programPages s.mySystem 0x1800 0x1900
        (fun addr a => { a with
          directPokeBase := some (Ptr.ram (1024 + (b <<< 8) % 65536 + (addr &&& 0x00FF)))
          codeAccessBase := some (0x2000 + 1024 + (b <<< 8) % 65536 + (addr &&& 0x00FF)) })
        (PageAccess.init Device.cartridge PageAccessType.PA_WRITE)).1 with
      directPokeBase := none, type := PageAccessType.PA_READ }
    (fun _ _ _ => rfl) (by rw [hsz]; exact pageSize_dvd _ _ hsh (by decide)) (by decide)
  rw [hsz] at r
  simp only [bankRAM, bankLocked, hu, if_false, Bool.false_eq_true]
  refine ⟨r.1.trans w.1, fun page => ?_⟩
  rw [r.2 page]
  by_cases h1 : 0x1900 ≤ page * s.mySystem.PAGE_SIZE ∧ page * s.mySystem.PAGE_SIZE < 0x1A00
  · have h2 : 0x1800 ≤ page * s.mySystem.PAGE_SIZE ∧ page * s.mySystem.PAGE_SIZE < 0x1A00 :=
      ⟨by omega, h1.2⟩
    have h3 : ¬ page * s.mySystem.PAGE_SIZE < 0x1900 := by omega
    have wa' := wa
    simp only at wa'
    rw [if_pos h1, if_pos h2]
    simp only [ramPortAccess, if_false, h3, wa']
  · rw [if_neg h1, w.2 page]
    by_cases h2 : 0x1800 ≤ page * s.mySystem.PAGE_SIZE ∧ page * s.mySystem.PAGE_SIZE < 0x1900
    · have h3 : 0x1800 ≤ page * s.mySystem.PAGE_SIZE ∧ page * s.mySystem.PAGE_SIZE < 0x1A00 :=
        ⟨h2.1, by omega⟩
      rw [if_pos h2, if_pos h3]
      simp only [h2.2, if_true, ramPortAccess, PageAccess.init]
    · have h3 : ¬ (0x1800 ≤ page * s.mySystem.PAGE_SIZE ∧
          page * s.mySystem.PAGE_SIZE < 0x1A00) := by omega
      rw [if_neg h2, if_neg h3]

theorem hotspotPage_eq (sys : System) (hsh : sys.PAGE_SHIFT ≤ 8) :
    hotspotPage sys = 0x1FE0 / sys.PAGE_SIZE * sys.PAGE_SIZE := by
  unfold hotspotPage System.PAGE_MASK System.PAGE_SIZE
  generalize sys.PAGE_SHIFT = sh at hsh
  interval_cases sh <;> decide

theorem install_fixed_system (fixedSlice : Nat) (system : System) (hsh : system.PAGE_SHIFT ≤ 8) :
    (programPages (programPages system (hotspotPage system) 0x2000
        (fun _ a => { a with codeAccessBase := some 0x1fc0 })
        (PageAccess.init Device.cartridge PageAccessType.PA_READ)).2 0x1A00 (hotspotPage system)
      (fun addr a => { a with
        directPeekBase := some (Ptr.image (fixedSlice * BANK_SIZE + (addr &&& (BANK_SIZE - 1))))
        codeAccessBase := some (fixedSlice * BANK_SIZE + (addr &&& (BANK_SIZE - 1))) })
      (programPages system (hotspotPage system) 0x2000
        (fun _ a => { a with codeAccessBase := some 0x1fc0 })
        (PageAccess.init Device.cartridge PageAccessType.PA_READ)).1).2.PAGE_SHIFT
      = system.PAGE_SHIFT ∧
    ∀ page,
      (programPages (programPages system (hotspotPage system) 0x2000
          (fun _ a => { a with codeAccessBase := some 0x1fc0 })
          (PageAccess.init Device.cartridge PageAccessType.PA_READ)).2 0x1A00 (hotspotPage system)
        (fun addr a => { a with
          directPeekBase := some (Ptr.image (fixedSlice * BANK_SIZE + (addr &&& (BANK_SIZE - 1))))
          codeAccessBase := some (fixedSlice * BANK_SIZE + (addr &&& (BANK_SIZE - 1))) })
        (programPages system (hotspotPage system) 0x2000
          (fun _ a => { a with codeAccessBase := some 0x1fc0 })
          (PageAccess.init Device.cartridge PageAccessType.PA_READ)).1).2.myPageAccessTable page =
      if 0x1A00 ≤ page * system.PAGE_SIZE ∧ page * system.PAGE_SIZE < 0x2000 then
        (if page * system.PAGE_SIZE < hotspotPage system
          then fixedAccess fixedSlice (page * system.PAGE_SIZE) else hotspotAccess)
      else system.myPageAccessTable page := by
  have hdvd : system.PAGE_SIZE ∣ hotspotPage system := by
    rw [hotspotPage_eq system hsh]; exact Nat.dvd_mul_left _ _
  have hhs : 0x1A00 ≤ hotspotPage system ∧ hotspotPage system < 0x2000 := by
    unfold hotspotPage System.PAGE_MASK System.PAGE_SIZE
    generalize system.PAGE_SHIFT = sh at hsh
    interval_cases sh <;> decide
  have h := programPages_table system (hotspotPage system) 0x2000
    (fun _ a => { a with codeAccessBase := some 0x1fc0 })
    (PageAccess.init Device.cartridge PageAccessType.PA_READ) (fun _ _ _ => rfl) hdvd
    (by decide)
  have ha := programPages_access system (hotspotPage system) 0x2000
    (fun _ a => { a with codeAccessBase := some 0x1fc0 })
    (PageAccess.init Device.cartridge PageAccessType.PA_READ)
    (fun a => a.directPokeBase = none ∧ a.device = Device.cartridge ∧
      a.type = PageAccessType.PA_READ) (fun _ _ h => h) ⟨rfl, rfl, rfl⟩
  have hsz : (programPages system (hotspotPage system) 0x2000
      (fun _ a => { a with codeAccessBase := some 0x1fc0 })
      (PageAccess.init Device.cartridge PageAccessType.PA_READ)).2.PAGE_SIZE
        = system.PAGE_SIZE := by
    simp only [System.PAGE_SIZE, h.1]
  have f := programPages_table (programPages system (hotspotPage system) 0x2000
      (fun _ a => { a with codeAccessBase := some 0x1fc0 })
      (PageAccess.init Device.cartridge PageAccessType.PA_READ)).2 0x1A00 (hotspotPage system)
    (fun addr a => { a with
      directPeekBase := some (Ptr.image (fixedSlice * BANK_SIZE + (addr &&& (BANK_SIZE - 1))))
      codeAccessBase := some (fixedSlice * BANK_SIZE + (addr &&& (BANK_SIZE - 1))) })
    (programPages system (hotspotPage system) 0x2000
      (fun _ a => { a with codeAccessBase := some 0x1fc0 })
      (PageAccess.init Device.cartridge PageAccessType.PA_READ)).1
    (fun _ _ _ => rfl) (by rw [hsz]; exact pageSize_dvd _ _ hsh (by decide)) (by omega)
  rw [hsz] at f
  refine ⟨f.1.trans h.1, fun page => ?_⟩
  rw [f.2 page]
  by_cases h1 : 0x1A00 ≤ page * system.PAGE_SIZE ∧ page * system.PAGE_SIZE < hotspotPage system
  · have h2 : 0x1A00 ≤ page * system.PAGE_SIZE ∧ page * system.PAGE_SIZE < 0x2000 :=
      ⟨h1.1, by omega⟩
    have ha' := ha
    simp only at ha'
    rw [if_pos h1, if_pos h2, if_pos h1.2]
    simp only [fixedAccess, ha'.1, ha'.2.1, ha'.2.2]
  · rw [if_neg h1, h.2 page]
    by_cases h2 : hotspotPage system ≤ page * system.PAGE_SIZE ∧ page * system.PAGE_SIZE < 0x2000
    · have h3 : 0x1A00 ≤ page * system.PAGE_SIZE ∧ page * system.PAGE_SIZE < 0x2000 :=
        ⟨by omega, h2.2⟩
      have h4 : ¬ page * system.PAGE_SIZE < hotspotPage system := by omega
      rw [if_pos h2, if_pos h3, if_neg h4]
      simp only [hotspotAccess, PageAccess.init]
    · have h3 : ¬ (0x1A00 ≤ page * system.PAGE_SIZE ∧ page * system.PAGE_SIZE < 0x2000) := by
        omega
      rw [if_neg h2, if_neg h3]

/-! ## The page table follows the bank selection -/

theorem bank_frame (s : CartridgeMNetwork) (k : Nat) :
    (bank s k).2.myFixedSlice = s.myFixedSlice ∧ (bank s k).2.myBankLocked = s.myBankLocked ∧
    (bank s k).2.myImage = s.myImage ∧ (bank s k).2.myRAM = s.myRAM ∧
    (bank s k).2.myCurrentRAM = s.myCurrentRAM ∧ (bank s k).2.myStartBank = s.myStartBank ∧
    (bank s k).2.myCurrentSlice 1 = s.myCurrentSlice 1 := by
  unfold bank
  by_cases hl : s.bankLocked = true
  · simp [hl]
  · simp [hl, store]

theorem bank_slice (s : CartridgeMNetwork) (k : Nat) (hu : s.myBankLocked = false) :
    (bank s k).2.myCurrentSlice 0 = k := by
  simp [bank, bankLocked, hu, store]

theorem bankRAM_frame (s : CartridgeMNetwork) (b : Nat) :
    (bankRAM s b).myFixedSlice = s.myFixedSlice ∧ (bankRAM s b).myBankLocked = s.myBankLocked ∧
    (bankRAM s b).myImage = s.myImage ∧ (bankRAM s b).myRAM = s.myRAM ∧
    (bankRAM s b).myCurrentSlice = s.myCurrentSlice ∧
    (bankRAM s b).myStartBank = s.myStartBank := by
  unfold bankRAM
  by_cases hl : s.bankLocked = true
  · simp [hl]
  · simp [hl]

theorem bankRAM_bank (s : CartridgeMNetwork) (b : Nat) (hu : s.myBankLocked = false) :
    (bankRAM s b).myCurrentRAM = b := by
  simp [bankRAM, bankLocked, hu]

theorem hotspotPage_congr (sys sys' : System) (h : sys'.PAGE_SHIFT = sys.PAGE_SHIFT) :
    hotspotPage sys' = hotspotPage sys := by
  simp [hotspotPage, System.PAGE_MASK, System.PAGE_SIZE, h]

theorem ProgrammedFrom.mono (lo lo' : Nat) (s : CartridgeMNetwork) (h : ProgrammedFrom lo s)
    (hle : lo ≤ lo') : ProgrammedFrom lo' s :=
  ⟨h.shift, h.fixed, fun page h1 h2 => h.table page (Nat.le_trans hle h1) h2⟩

theorem ProgrammedFrom.bank_unlocked (s : CartridgeMNetwork) (k : Nat)
    (hu : s.myBankLocked = false) (h : ProgrammedFrom 0x1800 s) :
    ProgrammedFrom 0x1000 (bank s k).2 := by
  obtain ⟨hsh, htab⟩ := bank_system s k hu h.shift
  obtain ⟨hfix, -, -, -, hram, -, hs1⟩ := bank_frame s k
  have hsz : (bank s k).2.mySystem.PAGE_SIZE = s.mySystem.PAGE_SIZE := by
    simp only [System.PAGE_SIZE, hsh]
  refine ⟨hsh ▸ h.shift, by rw [hs1, hfix]; exact h.fixed, fun page h1 h2 => ?_⟩
  rw [hsz] at h1 h2 ⊢
  rw [htab page]
  unfold windowAccess
  rw [hfix, hram, bank_slice s k hu, hotspotPage_congr _ _ hsh]
  by_cases h3 : page * s.mySystem.PAGE_SIZE < 0x1800
  · rw [if_pos ⟨h1, h3⟩, if_pos h3]
  · have h4 : ¬ (0x1000 ≤ page * s.mySystem.PAGE_SIZE ∧ page * s.mySystem.PAGE_SIZE < 0x1800) :=
      fun h => h3 h.2
    rw [if_neg h4, if_neg h3, h.table page (by omega) h2]
    simp only [windowAccess, h3, if_false]

theorem ProgrammedFrom.bankRAM_unlocked (lo : Nat) (s : CartridgeMNetwork) (b : Nat)
    (hu : s.myBankLocked = false) (hlo : lo ≤ 0x1800) (h : ProgrammedFrom (max lo 0x1A00) s)
    (hseg : ∀ page, lo ≤ page * s.mySystem.PAGE_SIZE → page * s.mySystem.PAGE_SIZE < 0x1800 →
      s.mySystem.myPageAccessTable page = windowAccess s (page * s.mySystem.PAGE_SIZE)) :
    ProgrammedFrom lo (bankRAM s b) := by
  obtain ⟨hsh, htab⟩ := bankRAM_system s b hu h.shift
  obtain ⟨hfix, -, -, -, hsl, -⟩ := bankRAM_frame s b
  have hsz : (bankRAM s b).mySystem.PAGE_SIZE = s.mySystem.PAGE_SIZE := by
    simp only [System.PAGE_SIZE, hsh]
  refine ⟨hsh ▸ h.shift, by rw [hsl, hfix]; exact h.fixed, fun page h1 h2 => ?_⟩
  rw [hsz] at h1 h2 ⊢
  rw [htab page]
  unfold windowAccess
  rw [hfix, hsl, bankRAM_bank s b hu, hotspotPage_congr _ _ hsh]
  by_cases h3 : page * s.mySystem.PAGE_SIZE < 0x1800
  · have h4 : ¬ (0x1800 ≤ page * s.mySystem.PAGE_SIZE ∧ page * s.mySystem.PAGE_SIZE < 0x1A00) :=
      fun h => by omega
    rw [if_neg h4, if_pos h3, hseg page h1 h3]
    simp only [windowAccess, h3, if_true]
  · by_cases h5 : page * s.mySystem.PAGE_SIZE < 0x1A00
    · rw [if_pos ⟨by omega, h5⟩, if_neg h3, if_pos h5]
    · have h4 : ¬ (0x1800 ≤ page * s.mySystem.PAGE_SIZE ∧
          page * s.mySystem.PAGE_SIZE < 0x1A00) := fun h => h5 h.2
      rw [if_neg h4, if_neg h3, if_neg h5, h.table page (by omega) h2]
      simp only [windowAccess, h3, h5, if_false]

theorem Programmed.of_bank (s : CartridgeMNetwork) (k : Nat) (h : Programmed s) :
    Programmed (bank s k).2 := by
  by_cases hl : s.myBankLocked = true
  · have : bank s k = (false, s) := by simp [bank, bankLocked, hl]
    rw [this]; exact h
  · exact ProgrammedFrom.bank_unlocked s k (by simpa using hl)
      (ProgrammedFrom.mono _ _ s h (by decide))

theorem Programmed.of_bankRAM (s : CartridgeMNetwork) (b : Nat) (h : Programmed s) :
    Programmed (bankRAM s b) := by
  by_cases hl : s.myBankLocked = true
  · have : bankRAM s b = s := by simp [bankRAM, bankLocked, hl]
    rw [this]; exact h
  · exact ProgrammedFrom.bankRAM_unlocked 0x1000 s b (by simpa using hl) (by decide)
      (ProgrammedFrom.mono _ _ s h (by decide)) (fun page h1 h2 => h.table page h1 (by omega))

theorem Programmed.congr (s s' : CartridgeMNetwork) (h : Programmed s)
    (hsys : s'.mySystem = s.mySystem) (hsl : s'.myCurrentSlice = s.myCurrentSlice)
    (hfix : s'.myFixedSlice = s.myFixedSlice) (hram : s'.myCurrentRAM = s.myCurrentRAM) :
    Programmed s' := by
  refine ⟨hsys ▸ h.shift, by rw [hsl, hfix]; exact h.fixed, fun page h1 h2 => ?_⟩
  rw [hsys] at h1 h2 ⊢
  rw [h.table page h1 h2]
  simp only [windowAccess, hsys, hsl, hfix, hram]

theorem Programmed.of_checkSwitchBank (sch : Scheme) (s : CartridgeMNetwork) (a : Nat)
    (h : Programmed s) : Programmed (checkSwitchBank sch s a) := by
  unfold checkSwitchBank
  cases hc : sch.checkSwitchBank a with
  | none => exact h
  | some act =>
    cases act with
    | bank k => exact Programmed.of_bank s k h
    | bankRAM b => exact Programmed.of_bankRAM s b h

theorem Programmed.of_peek (sch : Scheme) (s : CartridgeMNetwork) (v a : Nat)
    (h : Programmed s) : Programmed (peek sch s v a).2 := by
  have hc := Programmed.of_checkSwitchBank sch s (a &&& 0x0FFF) h
  unfold peek
  simp only
  split_ifs
  all_goals first
    | exact hc
    | exact Programmed.congr _ _ hc rfl rfl rfl rfl

theorem Programmed.of_poke (sch : Scheme) (s : CartridgeMNetwork) (a v : Nat)
    (h : Programmed s) : Programmed (poke sch s a v).2 :=
  Programmed.of_checkSwitchBank sch s (a &&& 0x0FFF) h

theorem Programmed.of_patch (s : CartridgeMNetwork) (a v : Nat)
    (h : Programmed s) : Programmed (patch s a v).2 := by
  unfold patch
  simp only
  split_ifs
  all_goals exact Programmed.congr _ _ h rfl rfl rfl rfl

theorem install_eq (s : CartridgeMNetwork) (system : System) :
    install s system =
      (bank (bankRAM (installSegment1 s system) 0)
        (bankRAM (installSegment1 s system) 0).myStartBank).2 := rfl

theorem installSegment1_system (s : CartridgeMNetwork) (system : System)
    (hsh : system.PAGE_SHIFT ≤ 8) :
    (installSegment1 s system).mySystem.PAGE_SHIFT = system.PAGE_SHIFT ∧
    ∀ page, (installSegment1 s system).mySystem.myPageAccessTable page =
      if 0x1A00 ≤ page * system.PAGE_SIZE ∧ page * system.PAGE_SIZE < 0x2000 then
        (if page * system.PAGE_SIZE < hotspotPage system
          then fixedAccess s.myFixedSlice (page * system.PAGE_SIZE) else hotspotAccess)
      else system.myPageAccessTable page := by
  simp only [installSegment1]
  exact install_fixed_system s.myFixedSlice system hsh

theorem installSegment1_frame (s : CartridgeMNetwork) (system : System) :
    (installSegment1 s system).myFixedSlice = s.myFixedSlice ∧
    (installSegment1 s system).myBankLocked = s.myBankLocked ∧
    (installSegment1 s system).myImage = s.myImage ∧
    (installSegment1 s system).myRAM = s.myRAM ∧
    (installSegment1 s system).myCurrentRAM = s.myCurrentRAM ∧
    (installSegment1 s system).myStartBank = s.myStartBank ∧
    (installSegment1 s system).myCurrentSlice = store s.myCurrentSlice 1 s.myFixedSlice := by
  simp only [installSegment1, and_self]

theorem installSegment1_programmed (s : CartridgeMNetwork) (system : System)
    (hsh : system.PAGE_SHIFT ≤ 8) : ProgrammedFrom 0x1A00 (installSegment1 s system) := by
  obtain ⟨fsh, ftab⟩ := installSegment1_system s system hsh
  obtain ⟨hfix, -, -, -, -, -, hsl⟩ := installSegment1_frame s system
  have hsz : (installSegment1 s system).mySystem.PAGE_SIZE = system.PAGE_SIZE := by
    simp only [System.PAGE_SIZE, fsh]
  refine ⟨fsh ▸ hsh, by rw [hsl, hfix]; simp [store], fun page h1 h2 => ?_⟩
  rw [hsz] at h1 h2 ⊢
  have h3 : ¬ page * system.PAGE_SIZE < 0x1800 := by omega
  have h4 : ¬ page * system.PAGE_SIZE < 0x1A00 := by omega
  rw [ftab page, if_pos ⟨h1, h2⟩]
  simp only [windowAccess, h3, h4, if_false, hotspotPage_congr _ _ fsh, hfix]

theorem Programmed.of_install (s : CartridgeMNetwork) (system : System)
    (hu : s.myBankLocked = false) (hsh : system.PAGE_SHIFT ≤ 8) :
    Programmed (install s system) := by
  rw [install_eq]
  have h1 := installSegment1_programmed s system hsh
  have hu1 : (installSegment1 s system).myBankLocked = false := by
    rw [(installSegment1_frame s system).2.1]; exact hu
  have h2 : ProgrammedFrom 0x1800 (bankRAM (installSegment1 s system) 0) :=
    ProgrammedFrom.bankRAM_unlocked 0x1800 _ 0 hu1 (by decide) h1 (fun page h1 h2 => by omega)
  exact ProgrammedFrom.bank_unlocked _ _ (by rw [(bankRAM_frame _ 0).2.1]; exact hu1) h2

theorem Reachable.programmed (sch : Scheme) (s : CartridgeMNetwork) (h : Reachable sch s) :
    Programmed s := by
  induction h with
  | install s system hu hsh => exact Programmed.of_install s system hu hsh
  | bank s k _ ih => exact Programmed.of_bank s k ih
  | bankRAM s b _ ih => exact Programmed.of_bankRAM s b ih
  | peek s v a _ ih => exact Programmed.of_peek sch s v a ih
  | poke s a v _ ih => exact Programmed.of_poke sch s a v ih
  | patch s a v _ ih => exact Programmed.of_patch s a v ih
  | lockBank s _ ih => exact Programmed.congr _ _ ih rfl rfl rfl rfl
  | unlockBank s _ ih => exact Programmed.congr _ _ ih rfl rfl rfl rfl

/-! ## Bank selection: lock, range and the switchable segment -/

theorem checkSwitchBank_none (sch : Scheme) (s : CartridgeMNetwork) (a : Nat)
    (h : sch.checkSwitchBank a = none) : checkSwitchBank sch s a = s := by
  simp [checkSwitchBank, h]

theorem checkSwitchBank_locked (sch : Scheme) (s : CartridgeMNetwork) (a : Nat)
    (h : s.myBankLocked = true) : checkSwitchBank sch s a = s := by
  unfold checkSwitchBank
  cases hc : sch.checkSwitchBank a with
  | none => rfl
  | some act =>
    cases act with
    | bank k => simp [bank, bankLocked, h]
    | bankRAM b => simp [bankRAM, bankLocked, h]

/-- C1: while the bank lock is set, `bank(k)` returns false for every slice index `k` and
leaves the whole cartridge state (slice indices, RAM bank, RAM and ROM bytes, bank-changed
flag, page table) exactly as it was. -/
theorem bank_locked_noop (s : CartridgeMNetwork) (k : Nat) (h : s.bankLocked = true) :
    (bank s k).1 = false ∧ (bank s k).2 = s ∧ (bank s k).2.getBank = s.getBank := by
  simp [bank, h]

theorem bank_locked_noop_witness :
    (lockBank demoCart).bankLocked = true ∧
    ((bank (lockBank demoCart) 3).1 = false ∧ (bank (lockBank demoCart) 3).2 = lockBank demoCart ∧
      (bank (lockBank demoCart) 3).2.getBank = (lockBank demoCart).getBank) :=
  ⟨rfl, bank_locked_noop (lockBank demoCart) 3 rfl⟩

/-- C2: on an unlocked cartridge with `N = bankCount()` slices, `bank(k)` for `k < N`
returns true, makes `getBank()` equal to `k` and sets the bank-changed flag. -/
theorem bank_unlocked_selects (sch : Scheme) (s : CartridgeMNetwork) (k : Nat)
    (hu : s.bankLocked = false) (_hk : k < sch.bankCount) :
    (bank s k).1 = true ∧ (bank s k).2.getBank = k ∧ (bank s k).2.myBankChanged = true := by
  simp [bank, hu, getBank, store]

theorem bank_unlocked_selects_witness :
    demoCart.bankLocked = false ∧ 3 < e7Scheme.bankCount ∧
    ((bank demoCart 3).1 = true ∧ (bank demoCart 3).2.getBank = 3 ∧
      (bank demoCart 3).2.myBankChanged = true) :=
  ⟨by decide, by decide, bank_unlocked_selects e7Scheme demoCart 3 (by decide) (by decide)⟩

/-- C3 (counterexample): on the unlocked eight-slice cartridge `bank(9)` succeeds but
stores 9 unclamped, so `getBank()` is not below 8 and the ROM offset
`(getBank() << 11) + (0 & 0x7FF)` is not below `8 * 2048`. -/
theorem bank_not_clamped :
    demoCart.bankLocked = false ∧ e7Scheme.bankCount = 8 ∧ (bank demoCart 9).1 = true ∧
    (bank demoCart 9).2.getBank = 9 ∧ ¬ (bank demoCart 9).2.getBank < e7Scheme.bankCount ∧
    ¬ (((bank demoCart 9).2.getBank <<< 11) + (0 &&& 0x7FF) < e7Scheme.bankCount * 2048) := by
  decide

/-- C3 (amended): on an unlocked cartridge with `N` slices `bank(k)` never fails and
stores the requested index as it is, `getBank() == k`, for every `k`; the ROM offsets
`(getBank() << 11) + (a & 0x7FF)` are below `N * 2048` exactly when `k < N`. -/
theorem bank_stores_unclamped (sch : Scheme) (s : CartridgeMNetwork) (k : Nat)
    (hu : s.bankLocked = false) :
    (bank s k).1 = true ∧ (bank s k).2.getBank = k ∧
    ∀ a, (((bank s k).2.getBank <<< 11) + (a &&& 0x7FF) < sch.bankCount * 2048
      ↔ k < sch.bankCount) := by
  have hg : (bank s k).2.getBank = k := by simp [bank, hu, getBank, store]
  refine ⟨by simp [bank, hu], hg, fun a => ?_⟩
  rw [hg, shl_11, and_07FF]
  omega

theorem bank_stores_unclamped_witness :
    demoCart.bankLocked = false ∧
    ((bank demoCart 9).1 = true ∧ (bank demoCart 9).2.getBank = 9 ∧
    ∀ a, (((bank demoCart 9).2.getBank <<< 11) + (a &&& 0x7FF) < e7Scheme.bankCount * 2048
      ↔ 9 < e7Scheme.bankCount)) :=
  ⟨by decide, bank_stores_unclamped e7Scheme demoCart 9 (by decide)⟩

theorem peek_rom (sch : Scheme) (s : CartridgeMNetwork) (v addr : Nat)
    (hhot : sch.checkSwitchBank (addr &&& 0x0FFF) = none)
    (h1 : ¬ (s.myCurrentSlice 0 = s.myFixedSlice ∧ addr &&& 0x0FFF < 0x0400))
    (h2 : ¬ (0x0800 ≤ addr &&& 0x0FFF ∧ addr &&& 0x0FFF ≤ 0x08FF)) :
    peek sch s v addr =
      (s.myImage ((s.myCurrentSlice ((addr &&& 0x0FFF) >>> 11) <<< 11) +
        ((addr &&& 0x0FFF) &&& (BANK_SIZE - 1))), s) := by
  unfold peek
  simp only [checkSwitchBank_none sch _ _ hhot]
  rw [if_neg h1, if_neg h2]

theorem peek_port1K (sch : Scheme) (s : CartridgeMNetwork) (v addr : Nat)
    (hcs : checkSwitchBank sch s (addr &&& 0x0FFF) = s)
    (h1 : s.myCurrentSlice 0 = s.myFixedSlice) (h2 : addr &&& 0x0FFF < 0x0400) :
    peek sch s v addr =
      if s.bankLocked = true then (v, s)
      else (v, { s with myReadFromWritePort := addr :: s.myReadFromWritePort
                        myRAM := store s.myRAM ((addr &&& 0x0FFF) &&& 0x03FF) v }) := by
  unfold peek
  simp only [hcs]
  rw [if_pos ⟨h1, h2⟩]

theorem peek_port256 (sch : Scheme) (s : CartridgeMNetwork) (v addr : Nat)
    (hcs : checkSwitchBank sch s (addr &&& 0x0FFF) = s)
    (h1 : 0x0800 ≤ addr &&& 0x0FFF) (h2 : addr &&& 0x0FFF ≤ 0x08FF) :
    peek sch s v addr =
      if s.bankLocked = true then (v, s)
      else (v, { s with myReadFromWritePort := addr :: s.myReadFromWritePort
                        myRAM := store s.myRAM
                          (1024 + (s.myCurrentRAM <<< 8) + ((addr &&& 0x0FFF) &&& 0x00FF)) v }) := by
  have h3 : ¬ (s.myCurrentSlice 0 = s.myFixedSlice ∧ addr &&& 0x0FFF < 0x0400) := by omega
  unfold peek
  simp only [hcs]
  rw [if_neg h3, if_pos ⟨h1, h2⟩]

/-- C4 (counterexample): with the fixed slice 7 of the eight-slice cartridge selected,
`peek(0x1000)` returns the bus value `0x55`, not the image byte `7` of slice 7. -/
theorem peek_fixed_slice_not_image :
    demoCart.bankLocked = false ∧ 7 < e7Scheme.bankCount ∧
    (peek e7Scheme (bank demoCart 7).2 0x55 0x1000).1 = 0x55 ∧
    demoCart.myImage (7 * 2048 + (0x1000 &&& 0x7FF)) = 7 := by
  decide

/-- C4 (amended): on an unlocked cartridge with `N` slices, for every `i < N` and every
address of the switchable segment (window offset below `0x800`) that is no hotspot,
`bank(i); peek(addr)` returns `image[i * 2048 + (addr & 0x7FF)]`, except when `i` is the
fixed slice `N - 1` and the window offset is below `0x400` (the 1K RAM write port). -/
theorem bank_peek_image (sch : Scheme) (s : CartridgeMNetwork) (i addr v : Nat)
    (hu : s.bankLocked = false) (hN : s.myFixedSlice = sch.bankCount - 1)
    (_hi : i < sch.bankCount) (hseg : addr &&& 0x0FFF < 0x0800)
    (hhot : sch.checkSwitchBank (addr &&& 0x0FFF) = none)
    (hex : i = sch.bankCount - 1 → 0x0400 ≤ addr &&& 0x0FFF) :
    (peek sch (bank s i).2 v addr).1 = s.myImage (i * 2048 + (addr &&& 0x7FF)) := by
  obtain ⟨hfix, -, himg, -, -, -, -⟩ := bank_frame s i
  have hsl := bank_slice s i hu
  have h1 : ¬ ((bank s i).2.myCurrentSlice 0 = (bank s i).2.myFixedSlice ∧
      addr &&& 0x0FFF < 0x0400) := by
    rw [hsl, hfix, hN]
    rintro ⟨h, h'⟩
    have := hex h
    omega
  have h2 : ¬ (0x0800 ≤ addr &&& 0x0FFF ∧ addr &&& 0x0FFF ≤ 0x08FF) := by omega
  have h3 : (addr &&& 0x0FFF) >>> 11 = 0 := by rw [shr_11]; omega
  rw [peek_rom sch _ v addr hhot h1 h2, h3, hsl, himg]
  show s.myImage _ = s.myImage _
  congr 1
  rw [shl_11, and_bankMask, and_07FF]
  rw [and_0FFF] at *
  omega

theorem bank_peek_image_witness :
    demoCart.bankLocked = false ∧ demoCart.myFixedSlice = e7Scheme.bankCount - 1 ∧
    (peek e7Scheme (bank demoCart 3).2 0x55 0x1234).1 =
      demoCart.myImage (3 * 2048 + (0x1234 &&& 0x7FF)) :=
  ⟨by decide, by decide,
    bank_peek_image e7Scheme demoCart 3 0x1234 0x55 (by decide) (by decide) (by decide)
      (by decide) (by decide) (by decide)⟩

/-! ## Write ports and patching -/

theorem store_same (mem : Nat → Nat) (i v : Nat) : store mem i v i = v := by
  simp [store]

theorem store_other (mem : Nat → Nat) (i v j : Nat) (h : j ≠ i) : store mem i v j = mem j := by
  simp [store, h]

/-- C5: on an unlocked cartridge a `peek` at a write-port address that is no hotspot
returns the bus value `v` and commits it into RAM: for the 1K write port (window offset
`a < 0x400` while segment 0 holds the fixed slice) `RAM[a & 0x3FF]` becomes `v`, for the
256-byte write port (`0x800 ≤ a ≤ 0x8FF`) `RAM[1024 + 256 * currentRAMBank + (a & 0xFF)]`
becomes `v`; no other RAM byte changes. -/
theorem peek_write_port_commits (sch : Scheme) (s : CartridgeMNetwork) (v addr : Nat)
    (hu : s.bankLocked = false) (hhot : sch.checkSwitchBank (addr &&& 0x0FFF) = none) :
    (s.myCurrentSlice 0 = s.myFixedSlice → addr &&& 0x0FFF < 0x0400 →
      (peek sch s v addr).1 = v ∧
      (peek sch s v addr).2.myRAM ((addr &&& 0x0FFF) &&& 0x03FF) = v ∧
      ∀ j, j ≠ (addr &&& 0x0FFF) &&& 0x03FF → (peek sch s v addr).2.myRAM j = s.myRAM j) ∧
    (0x0800 ≤ addr &&& 0x0FFF → addr &&& 0x0FFF ≤ 0x08FF →
      (peek sch s v addr).1 = v ∧
      (peek sch s v addr).2.myRAM
        (1024 + 256 * s.myCurrentRAM + ((addr &&& 0x0FFF) &&& 0x00FF)) = v ∧
      ∀ j, j ≠ 1024 + 256 * s.myCurrentRAM + ((addr &&& 0x0FFF) &&& 0x00FF) →
        (peek sch s v addr).2.myRAM j = s.myRAM j) := by
  have hcs := checkSwitchBank_none sch s _ hhot
  have hu' : ¬ s.bankLocked = true := by simp [hu]
  constructor
  · intro h1 h2
    rw [peek_port1K sch s v addr hcs h1 h2, if_neg hu']
    exact ⟨rfl, store_same _ _ _, fun j hj => store_other _ _ _ _ hj⟩
  · intro h1 h2
    have hidx : 1024 + 256 * s.myCurrentRAM + ((addr &&& 0x0FFF) &&& 0x00FF) =
        1024 + (s.myCurrentRAM <<< 8) + ((addr &&& 0x0FFF) &&& 0x00FF) := by
      rw [shl_8]; omega
    rw [peek_port256 sch s v addr hcs h1 h2, if_neg hu', hidx]
    exact ⟨rfl, store_same _ _ _, fun j hj => store_other _ _ _ _ hj⟩

theorem peek_write_port_commits_witness :
    (bank demoCart 7).2.bankLocked = false ∧ e7Scheme.checkSwitchBank (0x1005 &&& 0x0FFF) = none ∧
    (peek e7Scheme (bank demoCart 7).2 0x55 0x1005).2.myRAM ((0x1005 &&& 0x0FFF) &&& 0x03FF)
      = 0x55 :=
  ⟨by decide, by decide,
    ((peek_write_port_commits e7Scheme (bank demoCart 7).2 0x55 0x1005 (by decide)
      (by decide)).1 (by decide) (by decide)).2.1⟩

/-- C6: on a locked cartridge a `peek` at a write-port address (1K port: window offset
below `0x400` with the fixed slice in segment 0; 256-byte port: `0x800..0x8FF`) returns
the bus value `v` and leaves every RAM byte as it was. -/
theorem peek_write_port_locked (sch : Scheme) (s : CartridgeMNetwork) (v addr : Nat)
    (hl : s.bankLocked = true) :
    (s.myCurrentSlice 0 = s.myFixedSlice → addr &&& 0x0FFF < 0x0400 →
      (peek sch s v addr).1 = v ∧ ∀ j, (peek sch s v addr).2.myRAM j = s.myRAM j) ∧
    (0x0800 ≤ addr &&& 0x0FFF → addr &&& 0x0FFF ≤ 0x08FF →
      (peek sch s v addr).1 = v ∧ ∀ j, (peek sch s v addr).2.myRAM j = s.myRAM j) := by
  have hcs := checkSwitchBank_locked sch s (addr &&& 0x0FFF) hl
  constructor
  · intro h1 h2
    rw [peek_port1K sch s v addr hcs h1 h2, if_pos hl]
    exact ⟨rfl, fun _ => rfl⟩
  · intro h1 h2
    rw [peek_port256 sch s v addr hcs h1 h2, if_pos hl]
    exact ⟨rfl, fun _ => rfl⟩

theorem peek_write_port_locked_witness :
    (lockBank demoCart).bankLocked = true ∧
    (peek e7Scheme (lockBank demoCart) 0x55 0x1805).1 = 0x55 ∧
    ∀ j, (peek e7Scheme (lockBank demoCart) 0x55 0x1805).2.myRAM j = (lockBank demoCart).myRAM j :=
  ⟨rfl, (peek_write_port_locked e7Scheme (lockBank demoCart) 0x55 0x1805 rfl).2
    (by decide) (by decide)⟩

theorem patch_segment0_rom (s : CartridgeMNetwork) (addr v : Nat)
    (h1 : addr &&& 0x0FFF < 0x0800) (h2 : s.myCurrentSlice 0 ≠ s.myFixedSlice) :
    patch s addr v =
      (true, { s with
        myImage := store s.myImage
          ((s.myCurrentSlice 0 <<< 11) + ((addr &&& 0x0FFF) &&& (BANK_SIZE - 1))) v
        myBankChanged := true }) := by
  unfold patch
  simp only
  rw [if_pos h1, if_neg h2]

/-- C9: on an unlocked cartridge with `N` slices, for every slice `sl < N - 1`, every
address of the switchable segment (window offset below `0x800`, no hotspot) and every
byte `v`, the sequence `bank(sl); patch(a, v)` returns true from `patch`, sets
`image[sl * 2048 + (a & 0x7FF)]` to `v`, and a following `peek(a)` returns `v`. -/
theorem bank_patch_peek (sch : Scheme) (s : CartridgeMNetwork) (sl a v bus : Nat)
    (hu : s.bankLocked = false) (hN : s.myFixedSlice = sch.bankCount - 1)
    (hsl : sl + 1 < sch.bankCount) (hseg : a &&& 0x0FFF < 0x0800)
    (hhot : sch.checkSwitchBank (a &&& 0x0FFF) = none) :
    (patch (bank s sl).2 a v).1 = true ∧
    (patch (bank s sl).2 a v).2.myImage (sl * 2048 + (a &&& 0x7FF)) = v ∧
    (peek sch (patch (bank s sl).2 a v).2 bus a).1 = v := by
  obtain ⟨hfix, -, -, -, -, -, -⟩ := bank_frame s sl
  have hs0 := bank_slice s sl hu
  have hne : (bank s sl).2.myCurrentSlice 0 ≠ (bank s sl).2.myFixedSlice := by
    rw [hs0, hfix, hN]; omega
  have hidx : ((bank s sl).2.myCurrentSlice 0 <<< 11) + ((a &&& 0x0FFF) &&& (BANK_SIZE - 1)) =
      sl * 2048 + (a &&& 0x7FF) := by
    rw [hs0, shl_11, and_bankMask, and_07FF, and_0FFF]; omega
  have h3 : (a &&& 0x0FFF) >>> 11 = 0 := by rw [shr_11]; omega
  generalize (bank s sl).2 = s1 at hne hidx
  rw [patch_segment0_rom s1 a v hseg hne, hidx]
  refine ⟨rfl, store_same _ _ _, ?_⟩
  have hp := peek_rom sch
    ({ s1 with myImage := store s1.myImage (sl * 2048 + (a &&& 0x7FF)) v
               myBankChanged := true } : CartridgeMNetwork) bus a hhot
    (fun h => hne h.1) (by omega)
  show (peek sch ({ s1 with myImage := store s1.myImage (sl * 2048 + (a &&& 0x7FF)) v
                            myBankChanged := true } : CartridgeMNetwork) bus a).1 = v
  rw [hp, h3]
  show store s1.myImage _ v ((s1.myCurrentSlice 0 <<< 11) +
    ((a &&& 0x0FFF) &&& (BANK_SIZE - 1))) = v
  rw [hidx]
  exact store_same _ _ _

theorem bank_patch_peek_witness :
    demoCart.bankLocked = false ∧ demoCart.myFixedSlice = e7Scheme.bankCount - 1 ∧
    ((patch (bank demoCart 3).2 0x1000 0xAA).1 = true ∧
    (patch (bank demoCart 3).2 0x1000 0xAA).2.myImage (3 * 2048 + (0x1000 &&& 0x7FF)) = 0xAA ∧
    (peek e7Scheme (patch (bank demoCart 3).2 0x1000 0xAA).2 0x55 0x1000).1 = 0xAA) :=
  ⟨by decide, by decide,
    bank_patch_peek e7Scheme demoCart 3 0x1000 0xAA 0x55 (by decide) (by decide) (by decide)
      (by decide) (by decide)⟩

/-! ## Reads through the page table -/

theorem page_split (sh a : Nat) (hsh : sh ≤ 8) :
    (a >>> sh) * 2 ^ sh / 256 = a / 256 ∧
    (a >>> sh) * 2 ^ sh % 256 + (a &&& (2 ^ sh - 1)) = a % 256 := by
  rw [Nat.and_pow_two_sub_one_eq_mod, Nat.shiftRight_eq_div_pow]
  interval_cases sh <;> norm_num <;> omega

theorem Programmed.getPageAccess_eq (s : CartridgeMNetwork) (h : Programmed s) (a : Nat)
    (h1 : 0x1000 ≤ a) (h2 : a < 0x2000) :
    s.mySystem.getPageAccess a =
      windowAccess s ((a >>> s.mySystem.PAGE_SHIFT) * s.mySystem.PAGE_SIZE) := by
  obtain ⟨f1, -⟩ := page_split s.mySystem.PAGE_SHIFT a h.shift
  unfold System.getPageAccess
  apply h.table
  · unfold System.PAGE_SIZE; omega
  · unfold System.PAGE_SIZE; omega

theorem demoCart_reachable : Reachable e7Scheme demoCart :=
  Reachable.install _ system64 rfl (by decide)

/-- C8 (counterexample): on the installed eight-slice cartridge the descriptor of the
256-byte RAM read port `0x1900` exposes the direct-read pointer `&myRAM[1024]`, which
resolves to the RAM byte 0, while `peek(0x1900)` computes the ROM byte 7 of the fixed
slice.  And on a 64-slice cartridge after `bank(32)` the 16-bit `offset` has wrapped to
0: the pointer of page `0x1000` resolves to `image[0] = 0` while `peek(0x1000)` computes
`image[32 * 2048] = 32`. -/
theorem read_port_pointer_differs_from_peek :
    (Reachable e7Scheme demoCart ∧
      (demoCart.mySystem.getPageAccess 0x1900).directPeekBase = some (Ptr.ram 1024) ∧
      demoCart.myRAM (1024 + (0x1900 &&& demoCart.mySystem.PAGE_MASK)) = 0 ∧
      (peek e7Scheme demoCart 0x55 0x1900).1 = 7) ∧
    (Reachable wideScheme (bank wideCart 32).2 ∧
      ((bank wideCart 32).2.mySystem.getPageAccess 0x1000).directPeekBase
        = some (Ptr.image 0) ∧
      (bank wideCart 32).2.myImage (0 + (0x1000 &&& wideCart.mySystem.PAGE_MASK)) = 0 ∧
      (peek wideScheme (bank wideCart 32).2 0x55 0x1000).1 = 32) :=
  ⟨⟨demoCart_reachable, by decide, by decide, by decide⟩,
    ⟨Reachable.bank _ 32 (Reachable.install _ system64 rfl (by decide)), by decide, by decide,
      by decide⟩⟩

/-- C8 (amended): in every state reachable after `install`, for every address `a` of the
window `0x1000..0x1FFF` that is no hotspot and whose installed descriptor exposes a
direct-read pointer into the ROM image (the ROM pages of segment 0 and the fixed
segment), the byte that pointer resolves to for `a` equals the byte `peek(a)` computes,
provided the selected slice index is below 32 (its byte offset fits the 16-bit `offset`
of `bank`).  The RAM read ports are left out. -/
theorem rom_pointer_agrees_with_peek (sch : Scheme) (s : CartridgeMNetwork) (a i v : Nat)
    (hr : Reachable sch s) (h1 : 0x1000 ≤ a) (h2 : a < 0x2000)
    (hptr : (s.mySystem.getPageAccess a).directPeekBase = some (Ptr.image i))
    (hb : s.getBank < 32) (hhot : sch.checkSwitchBank (a &&& 0x0FFF) = none) :
    s.myImage (i + (a &&& s.mySystem.PAGE_MASK)) = (peek sch s v a).1 := by
  have hp := Reachable.programmed sch s hr
  obtain ⟨f1, f2⟩ := page_split s.mySystem.PAGE_SHIFT a hp.shift
  have ha := and_0FFF a
  rw [Programmed.getPageAccess_eq s hp a h1 h2] at hptr
  unfold getBank at hb
  unfold windowAccess at hptr
  by_cases c1 : (a >>> s.mySystem.PAGE_SHIFT) * s.mySystem.PAGE_SIZE < 0x1800
  · rw [if_pos c1] at hptr
    unfold segmentAccess at hptr
    by_cases c2 : s.myCurrentSlice 0 = s.myFixedSlice
    · exfalso
      simp only [c2, ne_eq, not_true_eq_false, if_false] at hptr
      split_ifs at hptr
      all_goals simp at hptr
    · simp only [ne_eq, c2, not_false_eq_true, if_true, Option.some.injEq, Ptr.image.injEq]
        at hptr
      have h3 : (a &&& 0x0FFF) >>> 11 = 0 := by
        rw [shr_11]; unfold System.PAGE_SIZE at c1; omega
      rw [peek_rom sch s v a hhot (fun h => c2 h.1)
        (by unfold System.PAGE_SIZE at c1; omega), h3]
      show s.myImage _ = s.myImage _
      congr 1
      rw [and_bankMask] at hptr
      rw [shl_11, and_bankMask]
      unfold System.PAGE_MASK
      unfold System.PAGE_SIZE at hptr ⊢
      omega
  · rw [if_neg c1] at hptr
    by_cases c3 : (a >>> s.mySystem.PAGE_SHIFT) * s.mySystem.PAGE_SIZE < 0x1A00
    · exfalso
      rw [if_pos c3] at hptr
      unfold ramPortAccess at hptr
      split_ifs at hptr
      all_goals simp at hptr
    · rw [if_neg c3] at hptr
      by_cases c4 : (a >>> s.mySystem.PAGE_SHIFT) * s.mySystem.PAGE_SIZE
          < hotspotPage s.mySystem
      · rw [if_pos c4] at hptr
        simp only [fixedAccess, Option.some.injEq, Ptr.image.injEq] at hptr
        have h3 : (a &&& 0x0FFF) >>> 11 = 1 := by
          rw [shr_11]; unfold System.PAGE_SIZE at c3; omega
        rw [peek_rom sch s v a hhot
          (by unfold System.PAGE_SIZE at c3; omega)
          (by unfold System.PAGE_SIZE at c3; omega), h3, hp.fixed]
        show s.myImage _ = s.myImage _
        congr 1
        rw [and_bankMask] at hptr
        rw [shl_11, and_bankMask]
        unfold System.PAGE_MASK
        unfold System.PAGE_SIZE at hptr ⊢
        unfold BANK_SIZE at hptr
        omega
      · exfalso
        rw [if_neg c4] at hptr
        simp [hotspotAccess] at hptr

theorem rom_pointer_agrees_with_peek_witness :
    Reachable e7Scheme demoCart ∧
    (demoCart.mySystem.getPageAccess 0x1234).directPeekBase = some (Ptr.image 512) ∧
    demoCart.myImage (512 + (0x1234 &&& demoCart.mySystem.PAGE_MASK))
      = (peek e7Scheme demoCart 0x55 0x1234).1 :=
  ⟨demoCart_reachable, by decide,
    rom_pointer_agrees_with_peek e7Scheme demoCart 0x1234 512 0x55 demoCart_reachable
      (by decide) (by decide) (by decide) (by decide) (by decide)⟩

/-- C10 (code evaluated at the failing input): on the installed eight-slice cartridge
`patch(0x1900, 0xAA)` returns true but writes the ROM byte `image[7 * 2048 + 0x100]`;
the direct-read pointer `&myRAM[1024]` of the RAM read port `0x1900` still resolves to
the old byte 0, not to `0xAA`. -/
theorem patch_read_port256_misses_ram :
    Reachable e7Scheme demoCart ∧
    (demoCart.mySystem.getPageAccess 0x1900).directPeekBase = some (Ptr.ram 1024) ∧
    (patch demoCart 0x1900 0xAA).1 = true ∧
    ((patch demoCart 0x1900 0xAA).2.mySystem.getPageAccess 0x1900).directPeekBase
      = some (Ptr.ram 1024) ∧
    (patch demoCart 0x1900 0xAA).2.myRAM (1024 + (0x1900 &&& demoCart.mySystem.PAGE_MASK)) = 0 ∧
    demoCart.myImage (7 * 2048 + 0x100) = 7 ∧
    (patch demoCart 0x1900 0xAA).2.myImage (7 * 2048 + 0x100) = 0xAA :=
  ⟨demoCart_reachable, by decide, by decide, by decide, by decide, by decide, by decide⟩

/-! ## Save and load -/

theorem getBytesFrom_written (arr : Nat → Nat) (rest : List Item) :
    ∀ (n i : Nat) (array : Nat → Nat),
      Serializer.getBytesFrom n i ((List.range' i n).map (fun j => Item.byte (arr j)) ++ rest) array =
        (fun j => if i ≤ j ∧ j < i + n then arr j else array j, rest, true) := by
  intro n
  induction n with
  | zero =>
    intro i array
    have : (fun j => if i ≤ j ∧ j < i + 0 then arr j else array j) = array := by
      funext j
      have : ¬ (i ≤ j ∧ j < i + 0) := by omega
      simp only [this, if_false]
    rw [this]
    simp [Serializer.getBytesFrom]
  | succ n ih =>
    intro i array
    have hstep := ih (i + 1) (fun j => if j = i then arr i else array j)
    simp only [List.range'_succ, List.map_cons, List.cons_append, Serializer.getBytesFrom]
    refine Eq.trans hstep ?_
    congr 1
    funext j
    by_cases h1 : j = i
    · subst h1; simp
    · by_cases h2 : i + 1 ≤ j ∧ j < i + 1 + n
      · have h3 : i ≤ j ∧ j < i + (n + 1) := by omega
        simp [h2, h3]
      · have h3 : ¬ (i ≤ j ∧ j < i + (n + 1)) := by omega
        simp [h2, h3, h1]

theorem getShortsFrom_written (arr : Nat → Nat) (rest : List Item) :
    ∀ (n i : Nat) (array : Nat → Nat),
      Serializer.getShortsFrom n i ((List.range' i n).map (fun j => Item.short (arr j)) ++ rest) array =
        (fun j => if i ≤ j ∧ j < i + n then arr j else array j, rest, true) := by
  intro n
  induction n with
  | zero =>
    intro i array
    have : (fun j => if i ≤ j ∧ j < i + 0 then arr j else array j) = array := by
      funext j
      have : ¬ (i ≤ j ∧ j < i + 0) := by omega
      simp only [this, if_false]
    rw [this]
    simp [Serializer.getShortsFrom]
  | succ n ih =>
    intro i array
    have hstep := ih (i + 1) (fun j => if j = i then arr i else array j)
    simp only [List.range'_succ, List.map_cons, List.cons_append, Serializer.getShortsFrom]
    refine Eq.trans hstep ?_
    congr 1
    funext j
    by_cases h1 : j = i
    · subst h1; simp
    · by_cases h2 : i + 1 ≤ j ∧ j < i + 1 + n
      · have h3 : i ≤ j ∧ j < i + (n + 1) := by omega
        simp [h2, h3]
      · have h3 : ¬ (i ≤ j ∧ j < i + (n + 1)) := by omega
        simp [h2, h3, h1]

theorem save_items (name : String) (s : CartridgeMNetwork) :
    (save name s ⟨[]⟩).2.items =
      Item.string name :: Item.short (s.myCurrentSlice 0) :: Item.short (s.myCurrentSlice 1) ::
        Item.short s.myCurrentRAM ::
        (List.range' 0 RAM_SIZE).map (fun i => Item.byte (s.myRAM i)) := by
  simp only [save, Serializer.putString, Serializer.putShortArray, Serializer.putShort,
    Serializer.putByteArray, List.range_eq_range']
  rfl

theorem load_complete (name : String) (tgt : CartridgeMNetwork) (a b r : Nat)
    (items rest : List Item) (ram : Nat → Nat)
    (hb : Serializer.getBytesFrom RAM_SIZE 0 items tgt.myRAM = (ram, rest, true)) :
    load name tgt ⟨Item.string name :: Item.short a :: Item.short b :: Item.short r :: items⟩ =
      (true,
        (bank (bankRAM { tgt with
            myCurrentSlice := fun i => if i = 1 then b else if i = 0 then a
              else tgt.myCurrentSlice i
            myCurrentRAM := r
            myRAM := ram } r)
          ((bankRAM { tgt with
            myCurrentSlice := fun i => if i = 1 then b else if i = 0 then a
              else tgt.myCurrentSlice i
            myCurrentRAM := r
            myRAM := ram } r).myCurrentSlice 0)).2,
        ⟨rest⟩) := by
  simp only [load, Serializer.getString, Serializer.getShortArray, Serializer.getShortsFrom,
    Serializer.getShort, Serializer.getByteArray, ne_eq, not_true_eq_false, if_false,
    Bool.true_eq_false, hb, zero_add]

theorem load_save (name : String) (src tgt : CartridgeMNetwork) (rest : List Item) :
    load name tgt ⟨(save name src ⟨[]⟩).2.items ++ rest⟩ = (true, loaded src tgt, ⟨rest⟩) := by
  have hb := getBytesFrom_written src.myRAM rest RAM_SIZE 0 tgt.myRAM
  rw [save_items, List.cons_append, List.cons_append, List.cons_append, List.cons_append,
    load_complete name tgt _ _ _ _ rest _ hb]
  have h1 : (fun i => if i = 1 then src.myCurrentSlice 1 else if i = 0 then src.myCurrentSlice 0
      else tgt.myCurrentSlice i) =
      (fun i => if i < 2 then src.myCurrentSlice i else tgt.myCurrentSlice i) := by
    funext i
    by_cases c1 : i = 1
    · subst c1; simp
    · by_cases c0 : i = 0
      · subst c0; simp
      · have : ¬ i < 2 := by omega
        simp [c1, c0, this]
  have h2 : (fun j => if 0 ≤ j ∧ j < 0 + RAM_SIZE then src.myRAM j else tgt.myRAM j) =
      (fun i => if i < RAM_SIZE then src.myRAM i else tgt.myRAM i) := by
    funext i
    simp
  rw [h1, h2]
  rfl

theorem load_save_all (name : String) (src tgt : CartridgeMNetwork) :
    load name tgt (save name src ⟨[]⟩).2 = (true, loaded src tgt, ⟨[]⟩) := by
  have h := load_save name src tgt []
  rw [List.append_nil] at h
  exact h

theorem bank_current (s : CartridgeMNetwork) :
    (bank s (s.myCurrentSlice 0)).2.myCurrentSlice 0 = s.myCurrentSlice 0 := by
  by_cases hl : s.myBankLocked = true
  · simp [bank, bankLocked, hl]
  · exact bank_slice s _ (by simpa using hl)

theorem bankRAM_current (s : CartridgeMNetwork) :
    (bankRAM s s.myCurrentRAM).myCurrentRAM = s.myCurrentRAM := by
  by_cases hl : s.myBankLocked = true
  · simp [bankRAM, bankLocked, hl]
  · exact bankRAM_bank s _ (by simpa using hl)

theorem loaded_fields (src tgt : CartridgeMNetwork) :
    (loaded src tgt).myCurrentSlice 0 = src.myCurrentSlice 0 ∧
    (loaded src tgt).myCurrentSlice 1 = src.myCurrentSlice 1 ∧
    (loaded src tgt).myCurrentRAM = src.myCurrentRAM ∧
    (∀ i, i < RAM_SIZE → (loaded src tgt).myRAM i = src.myRAM i) ∧
    (loaded src tgt).myImage = tgt.myImage ∧
    (loaded src tgt).myFixedSlice = tgt.myFixedSlice ∧
    (loaded src tgt).myBankLocked = tgt.myBankLocked := by
  unfold loaded
  simp only
  obtain ⟨bfix, block, bimg, bram, bcr, -, bs1⟩ := bank_frame
    (bankRAM { tgt with
      myCurrentSlice := fun i => if i < 2 then src.myCurrentSlice i else tgt.myCurrentSlice i
      myCurrentRAM := src.myCurrentRAM
      myRAM := fun i => if i < RAM_SIZE then src.myRAM i else tgt.myRAM i } src.myCurrentRAM)
    ((bankRAM { tgt with
      myCurrentSlice := fun i => if i < 2 then src.myCurrentSlice i else tgt.myCurrentSlice i
      myCurrentRAM := src.myCurrentRAM
      myRAM := fun i => if i < RAM_SIZE then src.myRAM i else tgt.myRAM i }
      src.myCurrentRAM).myCurrentSlice 0)
  obtain ⟨rfix, rlock, rimg, rram, rsl, -⟩ := bankRAM_frame
    { tgt with
      myCurrentSlice := fun i => if i < 2 then src.myCurrentSlice i else tgt.myCurrentSlice i
      myCurrentRAM := src.myCurrentRAM
      myRAM := fun i => if i < RAM_SIZE then src.myRAM i else tgt.myRAM i } src.myCurrentRAM
  have rcur := bankRAM_current
    { tgt with
      myCurrentSlice := fun i => if i < 2 then src.myCurrentSlice i else tgt.myCurrentSlice i
      myCurrentRAM := src.myCurrentRAM
      myRAM := fun i => if i < RAM_SIZE then src.myRAM i else tgt.myRAM i }
  refine ⟨?_, ?_, ?_, ?_, ?_, ?_, ?_⟩
  · rw [bank_current, rsl]; simp
  · rw [bs1, rsl]; simp
  · rw [bcr]; exact rcur
  · intro i hi
    rw [bram, rram]; simp [hi]
  · rw [bimg, rimg]
  · rw [bfix, rfix]
  · rw [block, rlock]

/-- C11 (counterexample): in the scenario of the eight-slice cartridge, `bank(3)` gives
`peek(0x1000) == 3` and `patch(0x1000, 0xAA)` gives `peek(0x1000) == 0xAA`, but after
`save()` and `load()` of that record into the freshly installed cartridge built from the
same image, `load` has returned true and `peek(0x1000)` is 3, not `0xAA`. -/
theorem saved_patch_not_restored :
    (peek e7Scheme (bank demoCart 3).2 0x55 0x1000).1 = 3 ∧
    (peek e7Scheme patchedCart 0x55 0x1000).1 = 0xAA ∧
    (load "CartridgeE7" demoCart (save "CartridgeE7" patchedCart ⟨[]⟩).2).1 = true ∧
    (peek e7Scheme (load "CartridgeE7" demoCart (save "CartridgeE7" patchedCart ⟨[]⟩).2).2.1
      0x55 0x1000).1 = 3 ∧
    (peek e7Scheme (load "CartridgeE7" demoCart (save "CartridgeE7" patchedCart ⟨[]⟩).2).2.1
      0x55 0x1000).1 ≠ 0xAA := by
  rw [load_save_all]
  decide

/-- C11 (amended): for the eight-slice cartridge in which every byte of slice `i` equals
`i`, after `bank(3)` `peek(0x1000) == 3`; after `patch(0x1000, 0xAA)`
`peek(0x1000) == 0xAA`; `save()` writes the name, the slice indices 3 and 7, the RAM bank
and the RAM bytes but no ROM byte; `load()` of that record into a freshly installed
instance built from the same image returns true, selects slice 3 and gives
`peek(0x1000) == 3`, the byte of the original image, whatever the bus value. -/
theorem save_load_scenario (v : Nat) :
    (peek e7Scheme (bank demoCart 3).2 v 0x1000).1 = 3 ∧
    (peek e7Scheme patchedCart v 0x1000).1 = 0xAA ∧
    (save "CartridgeE7" patchedCart ⟨[]⟩).2.items.take 4 =
      [Item.string "CartridgeE7", Item.short 3, Item.short 7, Item.short 0] ∧
    (load "CartridgeE7" demoCart (save "CartridgeE7" patchedCart ⟨[]⟩).2).1 = true ∧
    (load "CartridgeE7" demoCart (save "CartridgeE7" patchedCart ⟨[]⟩).2).2.1.getBank = 3 ∧
    (peek e7Scheme (load "CartridgeE7" demoCart (save "CartridgeE7" patchedCart ⟨[]⟩).2).2.1
      v 0x1000).1 = 3 := by
  rw [load_save_all, save_items]
  refine ⟨?_, ?_, by decide, rfl, by decide, ?_⟩
  · rw [peek_rom e7Scheme _ v 0x1000 (by decide) (by decide) (by decide)]
    decide
  · rw [peek_rom e7Scheme _ v 0x1000 (by decide) (by decide) (by decide)]
    decide
  · rw [peek_rom e7Scheme _ v 0x1000 (by decide) (by decide) (by decide)]
    decide

/-- C12: for every source state and every target cartridge of the same scheme name
(locked or not), `save` returns true and writes, in this order, the scheme name, the two
slice indices, the RAM bank index and the `RAM_SIZE` RAM bytes; `load` applied to that
record returns true, has read the whole record, and leaves the target with the source's
`myCurrentSlice[0]`, `myCurrentSlice[1]`, `myCurrentRAM` and `RAM_SIZE` RAM bytes. -/
theorem save_load_round_trip (sname tname : String) (src tgt : CartridgeMNetwork)
    (hname : tname = sname) :
    (save sname src ⟨[]⟩).1 = true ∧
    (save sname src ⟨[]⟩).2.items =
      Item.string sname :: Item.short (src.myCurrentSlice 0) ::
        Item.short (src.myCurrentSlice 1) :: Item.short src.myCurrentRAM ::
        (List.range RAM_SIZE).map (fun i => Item.byte (src.myRAM i)) ∧
    (load tname tgt (save sname src ⟨[]⟩).2).1 = true ∧
    (load tname tgt (save sname src ⟨[]⟩).2).2.2 = ⟨[]⟩ ∧
    (load tname tgt (save sname src ⟨[]⟩).2).2.1.myCurrentSlice 0 = src.myCurrentSlice 0 ∧
    (load tname tgt (save sname src ⟨[]⟩).2).2.1.myCurrentSlice 1 = src.myCurrentSlice 1 ∧
    (load tname tgt (save sname src ⟨[]⟩).2).2.1.myCurrentRAM = src.myCurrentRAM ∧
    ∀ i, i < RAM_SIZE →
      (load tname tgt (save sname src ⟨[]⟩).2).2.1.myRAM i = src.myRAM i := by
  subst hname
  obtain ⟨h0, h1, hr, hram, -, -, -⟩ := loaded_fields src tgt
  rw [load_save_all]
  refine ⟨rfl, ?_, rfl, rfl, h0, h1, hr, hram⟩
  rw [save_items, List.range_eq_range']

theorem save_load_round_trip_witness :
    "CartridgeE7" = "CartridgeE7" ∧
    (load "CartridgeE7" demoCart (save "CartridgeE7" patchedCart ⟨[]⟩).2).2.1.myCurrentSlice 0
      = patchedCart.myCurrentSlice 0 :=
  ⟨rfl, (save_load_round_trip "CartridgeE7" "CartridgeE7" patchedCart demoCart rfl).2.2.2.2.1⟩

/-- C13: when the leading name string of the record differs from the cartridge's own
name, `load` returns false, has read nothing after the name, and leaves the cartridge
exactly as it was (all members and the page table, hence every `peek` result). -/
theorem load_name_mismatch (name str : String) (s : CartridgeMNetwork) (rest : List Item)
    (h : str ≠ name) :
    (load name s ⟨Item.string str :: rest⟩).1 = false ∧
    (load name s ⟨Item.string str :: rest⟩).2.1 = s ∧
    (load name s ⟨Item.string str :: rest⟩).2.2 = ⟨rest⟩ := by
  simp [load, Serializer.getString, h]

theorem load_name_mismatch_witness :
    "CartridgeE0" ≠ "CartridgeE7" ∧
    (load "CartridgeE7" demoCart ⟨[Item.string "CartridgeE0", Item.short 5]⟩).2.1 = demoCart :=
  ⟨by decide,
    (load_name_mismatch "CartridgeE7" "CartridgeE0" demoCart [Item.short 5] (by decide)).2.1⟩

theorem load_frame_on_failure (name : String) (s : CartridgeMNetwork) (inp : Serializer)
    (hfail : (load name s inp).1 = false) :
    (load name s inp).2.1.myImage = s.myImage ∧
    (load name s inp).2.1.mySystem = s.mySystem ∧
    (load name s inp).2.1.myBankLocked = s.myBankLocked ∧
    (load name s inp).2.1.myBankChanged = s.myBankChanged ∧
    (load name s inp).2.1.myFixedSlice = s.myFixedSlice := by
  cases h1 : inp.getString with
  | none => simp [load, h1]
  | some p =>
    obtain ⟨str, inp1⟩ := p
    by_cases hn : str = name
    · by_cases h2 : (inp1.getShortArray s.myCurrentSlice 2).2.2 = false
      · simp [load, h1, hn, h2]
      · cases h3 : (inp1.getShortArray s.myCurrentSlice 2).2.1.getShort with
        | none => simp [load, h1, hn, h2, h3]
        | some q =>
          obtain ⟨ramBank, inp2⟩ := q
          by_cases h4 : (inp2.getByteArray s.myRAM RAM_SIZE).2.2 = false
          · simp [load, h1, hn, h2, h3, h4]
          · simp [load, h1, hn, h2, h3, h4] at hfail
    · simp [load, h1, hn]

/-- C14 (counterexample): a record with the right name that ends after the slice indices
makes `load` return false, but the eight-slice cartridge, which had slices 0 and 7
selected, now has `myCurrentSlice[0] == 5` and `myCurrentSlice[1] == 6`. -/
theorem load_truncated_not_atomic :
    (load "CartridgeE7" demoCart
      ⟨[Item.string "CartridgeE7", Item.short 5, Item.short 6]⟩).1 = false ∧
    demoCart.myCurrentSlice 0 = 0 ∧ demoCart.myCurrentSlice 1 = 7 ∧
    (load "CartridgeE7" demoCart
      ⟨[Item.string "CartridgeE7", Item.short 5, Item.short 6]⟩).2.1.myCurrentSlice 0 = 5 ∧
    (load "CartridgeE7" demoCart
      ⟨[Item.string "CartridgeE7", Item.short 5, Item.short 6]⟩).2.1.myCurrentSlice 1 = 6 := by
  decide

theorem load_success_shape (name : String) (s : CartridgeMNetwork) (inp : Serializer)
    (hok : (load name s inp).1 = true) :
    ∃ s3 : CartridgeMNetwork, s3.mySystem = s.mySystem ∧ s3.myFixedSlice = s.myFixedSlice ∧
      s3.myBankLocked = s.myBankLocked ∧
      (load name s inp).2.1 =
        (bank (bankRAM s3 s3.myCurrentRAM) ((bankRAM s3 s3.myCurrentRAM).myCurrentSlice 0)).2 := by
  cases h1 : inp.getString with
  | none => simp [load, h1] at hok
  | some p =>
    obtain ⟨str, inp1⟩ := p
    by_cases hn : str = name
    · by_cases h2 : (inp1.getShortArray s.myCurrentSlice 2).2.2 = false
      · simp [load, h1, hn, h2] at hok
      · cases h3 : (inp1.getShortArray s.myCurrentSlice 2).2.1.getShort with
        | none => simp [load, h1, hn, h2, h3] at hok
        | some q =>
          obtain ⟨ramBank, inp2⟩ := q
          by_cases h4 : (inp2.getByteArray s.myRAM RAM_SIZE).2.2 = false
          · simp [load, h1, hn, h2, h3, h4] at hok
          · refine ⟨{ s with
              myCurrentSlice := (inp1.getShortArray s.myCurrentSlice 2).1
              myCurrentRAM := ramBank
              myRAM := (inp2.getByteArray s.myRAM RAM_SIZE).1 }, rfl, rfl, rfl, ?_⟩
            simp [load, h1, hn, h2, h3, h4]
    · simp [load, h1, hn] at hok

/-- C15 (counterexample): `load` on the locked eight-slice cartridge (slice 0 mapped) of
a record saved with slice 3 selected returns true and sets `getBank() == 3`, but
`bankRAM` and `bank` return at their lock check: page `0x1000` still has the direct-read
pointer `&myImage[0]` of slice 0, where `bank(3)` programs `&myImage[3 * 2048]`. -/
theorem load_locked_keeps_stale_table :
    (lockBank demoCart).bankLocked = true ∧
    (load "CartridgeE7" (lockBank demoCart)
      (save "CartridgeE7" (bank demoCart 3).2 ⟨[]⟩).2).1 = true ∧
    (load "CartridgeE7" (lockBank demoCart)
      (save "CartridgeE7" (bank demoCart 3).2 ⟨[]⟩).2).2.1.getBank = 3 ∧
    ((load "CartridgeE7" (lockBank demoCart)
      (save "CartridgeE7" (bank demoCart 3).2 ⟨[]⟩).2).2.1.mySystem.getPageAccess
        0x1000).directPeekBase = some (Ptr.image 0) ∧
    ((bank demoCart 3).2.mySystem.getPageAccess 0x1000).directPeekBase
      = some (Ptr.image 6144) := by
  rw [load_save_all]
  decide

/-- C15 (amended): after every call of `load` on an unlocked cartridge (page size a power
of two dividing `0x100`) that returns true, every page of the switchable segment
`0x1000..0x17FF` carries the descriptor `bank` programs for the restored
`myCurrentSlice[0]`, and every page of the RAM ports `0x1800..0x19FF` the descriptor
`bankRAM` programs for the restored `myCurrentRAM`. -/
theorem load_rederives_table (name : String) (s : CartridgeMNetwork) (inp : Serializer)
    (hu : s.bankLocked = false) (hsh : s.mySystem.PAGE_SHIFT ≤ 8)
    (hok : (load name s inp).1 = true) :
    ∀ page,
      (0x1000 ≤ page * s.mySystem.PAGE_SIZE → page * s.mySystem.PAGE_SIZE < 0x1800 →
        (load name s inp).2.1.mySystem.myPageAccessTable page =
          segmentAccess (load name s inp).2.1.myFixedSlice
            ((load name s inp).2.1.myCurrentSlice 0) (page * s.mySystem.PAGE_SIZE)) ∧
      (0x1800 ≤ page * s.mySystem.PAGE_SIZE → page * s.mySystem.PAGE_SIZE < 0x1A00 →
        (load name s inp).2.1.mySystem.myPageAccessTable page =
          ramPortAccess (load name s inp).2.1.myCurrentRAM (page * s.mySystem.PAGE_SIZE)) := by
  obtain ⟨s3, hsys, hfix, hlock, heq⟩ := load_success_shape name s inp hok
  have hu3 : s3.myBankLocked = false := by rw [hlock]; exact hu
  have hsh3 : s3.mySystem.PAGE_SHIFT ≤ 8 := by rw [hsys]; exact hsh
  obtain ⟨rsh, rtab⟩ := bankRAM_system s3 s3.myCurrentRAM hu3 hsh3
  obtain ⟨rfix, rlock, -, -, -, -⟩ := bankRAM_frame s3 s3.myCurrentRAM
  have rram := bankRAM_bank s3 s3.myCurrentRAM hu3
  have hur : (bankRAM s3 s3.myCurrentRAM).myBankLocked = false := by rw [rlock]; exact hu3
  obtain ⟨bsh, btab⟩ := bank_system (bankRAM s3 s3.myCurrentRAM)
    ((bankRAM s3 s3.myCurrentRAM).myCurrentSlice 0) hur (by rw [rsh]; exact hsh3)
  obtain ⟨bfix, -, -, -, bram, -, -⟩ := bank_frame (bankRAM s3 s3.myCurrentRAM)
    ((bankRAM s3 s3.myCurrentRAM).myCurrentSlice 0)
  have bsl := bank_slice (bankRAM s3 s3.myCurrentRAM)
    ((bankRAM s3 s3.myCurrentRAM).myCurrentSlice 0) hur
  have hsz3 : s3.mySystem.PAGE_SIZE = s.mySystem.PAGE_SIZE := by rw [hsys]
  have hszr : (bankRAM s3 s3.myCurrentRAM).mySystem.PAGE_SIZE = s.mySystem.PAGE_SIZE := by
    rw [← hsz3]; simp only [System.PAGE_SIZE, rsh]
  rw [hszr] at btab
  rw [hsz3] at rtab
  intro page
  rw [heq, btab page, bfix, rfix, bsl, bram, rram]
  constructor
  · intro h1 h2
    rw [if_pos ⟨h1, h2⟩]
  · intro h1 h2
    have h3 : ¬ (0x1000 ≤ page * s.mySystem.PAGE_SIZE ∧ page * s.mySystem.PAGE_SIZE < 0x1800) := by
      omega
    rw [if_neg h3, rtab page, if_pos ⟨h1, h2⟩]

theorem load_rederives_table_witness :
    demoCart.bankLocked = false ∧ demoCart.mySystem.PAGE_SHIFT ≤ 8 ∧
    (load "CartridgeE7" demoCart (save "CartridgeE7" patchedCart ⟨[]⟩).2).1 = true ∧
    (load "CartridgeE7" demoCart (save "CartridgeE7" patchedCart ⟨[]⟩).2).2.1.mySystem.myPageAccessTable
        64 =
      segmentAccess
        (load "CartridgeE7" demoCart (save "CartridgeE7" patchedCart ⟨[]⟩).2).2.1.myFixedSlice
        ((load "CartridgeE7" demoCart (save "CartridgeE7" patchedCart ⟨[]⟩).2).2.1.myCurrentSlice 0)
        (64 * demoCart.mySystem.PAGE_SIZE) :=
  ⟨by decide, by decide, by rw [load_save_all],
    ((load_rederives_table "CartridgeE7" demoCart (save "CartridgeE7" patchedCart ⟨[]⟩).2
      (by decide) (by decide) (by rw [load_save_all])) 64).1 (by decide) (by decide)⟩

/-! ## Install, lock, poke and construction -/

theorem install_fields (s : CartridgeMNetwork) (system : System)
    (hu : s.myBankLocked = false) (hsh : system.PAGE_SHIFT ≤ 8) :
    (install s system).myCurrentSlice 0 = s.myStartBank ∧
    (install s system).myCurrentSlice 1 = s.myFixedSlice ∧
    (install s system).myCurrentRAM = 0 ∧
    (install s system).myFixedSlice = s.myFixedSlice ∧
    (install s system).myStartBank = s.myStartBank ∧
    (install s system).myImage = s.myImage ∧
    (install s system).mySystem.PAGE_SHIFT = system.PAGE_SHIFT := by
  rw [install_eq]
  obtain ⟨ifix, ilock, iimg, -, -, istart, isl⟩ := installSegment1_frame s system
  obtain ⟨ish, -⟩ := installSegment1_system s system hsh
  have hu1 : (installSegment1 s system).myBankLocked = false := by rw [ilock]; exact hu
  obtain ⟨rfix, rlock, rimg, -, rsl, rstart⟩ := bankRAM_frame (installSegment1 s system) 0
  have rram := bankRAM_bank (installSegment1 s system) 0 hu1
  obtain ⟨rsh, -⟩ := bankRAM_system (installSegment1 s system) 0 hu1 (by rw [ish]; exact hsh)
  have hur : (bankRAM (installSegment1 s system) 0).myBankLocked = false := by
    rw [rlock]; exact hu1
  obtain ⟨bfix, -, bimg, -, bram, bstart, bs1⟩ := bank_frame (bankRAM (installSegment1 s system) 0)
    (bankRAM (installSegment1 s system) 0).myStartBank
  have bsl := bank_slice (bankRAM (installSegment1 s system) 0)
    (bankRAM (installSegment1 s system) 0).myStartBank hur
  obtain ⟨bsh, -⟩ := bank_system (bankRAM (installSegment1 s system) 0)
    (bankRAM (installSegment1 s system) 0).myStartBank hur (by rw [rsh, ish]; exact hsh)
  refine ⟨?_, ?_, ?_, ?_, ?_, ?_, ?_⟩
  · rw [bsl, rstart, istart]
  · rw [bs1, rsl, isl]; simp [store]
  · rw [bram, rram]
  · rw [bfix, rfix, ifix]
  · rw [bstart, rstart, istart]
  · rw [bimg, rimg, iimg]
  · rw [bsh, rsh, ish]

theorem aligned_page_base (sh p : Nat) (h : p % 2 ^ sh = 0) : (p >>> sh) * 2 ^ sh = p := by
  rw [Nat.shiftRight_eq_div_pow]
  exact Nat.div_mul_cancel (Nat.dvd_of_mod_eq_zero h)

theorem windowAccess_device (s : CartridgeMNetwork) (base : Nat) :
    (windowAccess s base).device = Device.cartridge := by
  unfold windowAccess segmentAccess ramPortAccess fixedAccess hotspotAccess
  split_ifs <;> rfl

/-- C16: for a page size that is a power of two dividing `0x100`, after `install` on an
unlocked cartridge every address of the window `0x1000..0x1FFF` lies in a page whose
descriptor is owned by the cartridge, whatever the table held before, and every
page-aligned address `p` of the window carries the descriptor of its region: segment 0
(`0x1000..0x17FF`) that of `bank(myStartBank)`, the RAM ports (`0x1800..0x19FF`) that of
`bankRAM(0)`, the fixed segment from `0x1A00` up to the hot-spot boundary the last slice,
and the pages from `0x1FE0 & ~PAGE_MASK` to `0x1FFF` the hot-spot descriptor. -/
theorem install_programs_window (s : CartridgeMNetwork) (system : System)
    (hu : s.bankLocked = false) (hsh : system.PAGE_SHIFT ≤ 8) :
    (∀ a, 0x1000 ≤ a → a < 0x2000 →
      ((install s system).mySystem.getPageAccess a).device = Device.cartridge) ∧
    (∀ p, 0x1000 ≤ p → p < 0x2000 → p % system.PAGE_SIZE = 0 →
      (install s system).mySystem.getPageAccess p =
        if p < 0x1800 then segmentAccess s.myFixedSlice s.myStartBank p
        else if p < 0x1A00 then ramPortAccess 0 p
        else if p < hotspotPage system then fixedAccess s.myFixedSlice p
        else hotspotAccess) := by
  have hp := Programmed.of_install s system hu hsh
  obtain ⟨f0, -, fram, ffix, -, -, fsh⟩ := install_fields s system hu hsh
  constructor
  · intro a h1 h2
    rw [Programmed.getPageAccess_eq _ hp a h1 h2]
    exact windowAccess_device _ _
  · intro p h1 h2 h3
    rw [Programmed.getPageAccess_eq _ hp p h1 h2]
    have hbase : (p >>> (install s system).mySystem.PAGE_SHIFT) *
        (install s system).mySystem.PAGE_SIZE = p := by
      unfold System.PAGE_SIZE
      rw [fsh]
      exact aligned_page_base _ p h3
    rw [hbase]
    unfold windowAccess
    rw [f0, fram, ffix, hotspotPage_congr _ _ fsh]

theorem install_programs_window_witness :
    blankCart.bankLocked = false ∧ system64.PAGE_SHIFT ≤ 8 ∧
    ((install blankCart system64).mySystem.getPageAccess 0x1234).device = Device.cartridge :=
  ⟨by decide, by decide,
    (install_programs_window blankCart system64 (by decide) (by decide)).1 0x1234
      (by decide) (by decide)⟩

/-- C17: while the lock is set, `peek(address)` and `poke(address, value)` leave the
whole cartridge state as it was, for every scheme, address and value: the hotspot check
can only call `bank` and `bankRAM`, which return at their lock check, so
`myCurrentSlice[0]`, `myCurrentSlice[1]`, `myCurrentRAM` and every page-table entry are
unchanged, and both calls return a value. -/
theorem lock_suppresses_hotspots (sch : Scheme) (s : CartridgeMNetwork) (address value bus : Nat)
    (hl : s.bankLocked = true) :
    (peek sch s bus address).2 = s ∧ (poke sch s address value).2 = s ∧
    (peek sch s bus address).2.myCurrentSlice = s.myCurrentSlice ∧
    (peek sch s bus address).2.myCurrentRAM = s.myCurrentRAM ∧
    (peek sch s bus address).2.mySystem = s.mySystem ∧
    (poke sch s address value).2.myCurrentSlice = s.myCurrentSlice ∧
    (poke sch s address value).2.myCurrentRAM = s.myCurrentRAM ∧
    (poke sch s address value).2.mySystem = s.mySystem := by
  have hcs := checkSwitchBank_locked sch s (address &&& 0x0FFF) hl
  have hpeek : (peek sch s bus address).2 = s := by
    unfold peek
    simp only [hcs, hl, if_true]
    split_ifs <;> rfl
  have hpoke : (poke sch s address value).2 = s := by
    unfold poke
    exact hcs
  rw [hpeek, hpoke]
  exact ⟨rfl, rfl, rfl, rfl, rfl, rfl, rfl, rfl⟩

theorem lock_suppresses_hotspots_witness :
    (lockBank demoCart).bankLocked = true ∧
    e7Scheme.checkSwitchBank (0x1FE3 &&& 0x0FFF) = some (HotspotAction.bank 3) ∧
    (peek e7Scheme (lockBank demoCart) 0x55 0x1FE3).2 = lockBank demoCart :=
  ⟨rfl, by decide, (lock_suppresses_hotspots e7Scheme (lockBank demoCart) 0x1FE3 0 0x55 rfl).1⟩

/-- C18 (counterexample): on the installed eight-slice cartridge, address `0x1A00` is a
ROM address of the fixed segment (no direct-write pointer, no hotspot), and
`poke(0x1A00, 0x12)` returns false, not true. -/
theorem poke_rom_returns_false :
    e7Scheme.checkSwitchBank (0x1A00 &&& 0x0FFF) = none ∧
    (demoCart.mySystem.getPageAccess 0x1A00).directPokeBase = none ∧
    (demoCart.mySystem.getPageAccess 0x1A00).directPeekBase = some (Ptr.image 14848) ∧
    (poke e7Scheme demoCart 0x1A00 0x12).1 = false := by
  decide

/-- C18 (amended): for every cartridge state, every address that is no hotspot and every
value, `poke(address, value)` returns false (no byte was changed) and leaves the whole
state as it was: ROM image, RAM bytes and bank selection are unchanged. -/
theorem poke_is_noop (sch : Scheme) (s : CartridgeMNetwork) (address value : Nat)
    (hhot : sch.checkSwitchBank (address &&& 0x0FFF) = none) :
    (poke sch s address value).1 = false ∧ (poke sch s address value).2 = s ∧
    (poke sch s address value).2.myImage = s.myImage ∧
    (poke sch s address value).2.myRAM = s.myRAM ∧
    (poke sch s address value).2.myCurrentSlice = s.myCurrentSlice ∧
    (poke sch s address value).2.myCurrentRAM = s.myCurrentRAM := by
  have h : (poke sch s address value).2 = s := by
    unfold poke
    exact checkSwitchBank_none sch s _ hhot
  rw [h]
  exact ⟨rfl, rfl, rfl, rfl, rfl, rfl⟩

theorem poke_is_noop_witness :
    e7Scheme.checkSwitchBank (0x1A00 &&& 0x0FFF) = none ∧
    (poke e7Scheme demoCart 0x1A00 0x12).1 = false ∧
    (poke e7Scheme demoCart 0x1A00 0x12).2 = demoCart :=
  ⟨by decide, (poke_is_noop e7Scheme demoCart 0x1A00 0x12 (by decide)).1,
    (poke_is_noop e7Scheme demoCart 0x1A00 0x12 (by decide)).2.1⟩

/-- C19 (counterexample): `initialize` with an image of 100 bytes for a scheme of eight
slices (`8 * 2048 = 16384` bytes expected) does not fail: it copies the 100 bytes, leaves
byte 100 of `myImage` as it was, and sets start bank 0 and fixed slice 7. -/
theorem initialise_accepts_short_image :
    100 ≠ e7Scheme.bankCount * BANK_SIZE ∧
    (initialise e7Scheme blankCart (fun _ => 0xFF) 100).myImage 99 = 0xFF ∧
    (initialise e7Scheme blankCart (fun _ => 0xFF) 100).myImage 100 = blankCart.myImage 100 ∧
    (initialise e7Scheme blankCart (fun _ => 0xFF) 100).myStartBank = 0 ∧
    (initialise e7Scheme blankCart (fun _ => 0xFF) 100).myFixedSlice = 7 := by
  decide

/-- C19 (amended): `initialize(image, size)` never fails, whatever `size` is: it copies
the first `min(bankCount() * BANK_SIZE, size)` bytes of the image into `myImage`, leaves
every later byte of `myImage` as it was, sizes the code-access buffer to
`bankCount() * BANK_SIZE + RAM_SIZE`, and sets start bank 0 and fixed slice
`bankCount() - 1`. -/
theorem initialise_copies_leading_bytes (sch : Scheme) (s : CartridgeMNetwork) (image : Nat → Nat)
    (size : Nat) :
    (∀ i, i < size → i < sch.bankCount * BANK_SIZE →
      (initialise sch s image size).myImage i = image i) ∧
    (∀ i, size ≤ i → (initialise sch s image size).myImage i = s.myImage i) ∧
    (∀ i, sch.bankCount * BANK_SIZE ≤ i → (initialise sch s image size).myImage i = s.myImage i) ∧
    (initialise sch s image size).myCodeAccessSize = sch.bankCount * BANK_SIZE + RAM_SIZE ∧
    (initialise sch s image size).myStartBank = 0 ∧
    (initialise sch s image size).myFixedSlice = sch.bankCount - 1 := by
  refine ⟨fun i h1 h2 => ?_, fun i h => ?_, fun i h => ?_, rfl, rfl, rfl⟩
  · have : i < min (sch.bankCount * BANK_SIZE) size := by
      rw [Nat.lt_min]; exact ⟨h2, h1⟩
    simp only [initialise, this, if_true]
  · have : ¬ i < min (sch.bankCount * BANK_SIZE) size := by
      rw [Nat.lt_min]; omega
    simp only [initialise, this, if_false]
  · have : ¬ i < min (sch.bankCount * BANK_SIZE) size := by
      rw [Nat.lt_min]; omega
    simp only [initialise, this, if_false]

theorem initialise_copies_leading_bytes_witness :
    (initialise e7Scheme blankCart (fun _ => 0xFF) 100).myImage 99 = 0xFF :=
  (initialise_copies_leading_bytes e7Scheme blankCart (fun _ => 0xFF) 100).1 99 (by decide) (by decide)

/-! ## A bank switch rebuilds the segment -/

/-- C20 (counterexample): on the unlocked eight-slice cartridge with 64-byte pages
`bank(32)` computes the 16-bit `offset` as `(32 << 11) mod 2^16 = 0`, so page `0x1000`
gets the direct-read pointer `&myImage[0]`, not `&myImage[(32 << 11) + (0x1000 & 0x7FF)]`;
the same happens on a cartridge with 64 slices, where 32 is a slice of the image. -/
theorem bank_offset_wraps :
    demoCart.bankLocked = false ∧ demoCart.mySystem.PAGE_SHIFT ≤ 8 ∧
    32 ≠ demoCart.myFixedSlice ∧
    ((bank demoCart 32).2.mySystem.getPageAccess 0x1000).directPeekBase
      = some (Ptr.image 0) ∧
    (32 <<< 11) + (0x1000 &&& 0x7FF) = 65536 ∧
    wideCart.bankLocked = false ∧ 32 < wideScheme.bankCount ∧ 32 ≠ wideCart.myFixedSlice ∧
    ((bank wideCart 32).2.mySystem.getPageAccess 0x1000).directPeekBase
      = some (Ptr.image 0) := by
  decide

/-- C20 (amended): for a page size that is a power of two dividing `0x100`, on an
unlocked cartridge the descriptor `bank(sl)` leaves on every page `p` of `0x1000..0x17FF`
depends on `sl` (and the fixed slice) alone: for a slice other than the fixed slice the
direct-read pointer is `&myImage[((sl << 11) mod 2^16) + (p & 0x7FF)]`, which for
`sl < 32` is `&myImage[(sl << 11) + (p & 0x7FF)]`, with no direct-write pointer; for the
fixed slice a page of `0x1000..0x13FF` has the direct-write pointer `&myRAM[p & 0x3FF]`
and no direct-read pointer, a page of `0x1400..0x17FF` the direct-read pointer
`&myRAM[p & 0x3FF]` and no direct-write pointer.  And `bank(s1); bank(sl)` yields the
same page table as `bank(sl)`, for all `s1` and `sl`. -/
theorem bank_rebuilds_segment (s : CartridgeMNetwork) (sl : Nat)
    (hu : s.bankLocked = false) (hsh : s.mySystem.PAGE_SHIFT ≤ 8) :
    (∀ p, 0x1000 ≤ p → p < 0x1800 → p % s.mySystem.PAGE_SIZE = 0 →
      (sl ≠ s.myFixedSlice →
        ((bank s sl).2.mySystem.getPageAccess p).directPeekBase
          = some (Ptr.image ((sl <<< 11) % 65536 + (p &&& 0x7FF))) ∧
        ((bank s sl).2.mySystem.getPageAccess p).directPokeBase = none) ∧
      (sl ≠ s.myFixedSlice → sl < 32 →
        ((bank s sl).2.mySystem.getPageAccess p).directPeekBase
          = some (Ptr.image ((sl <<< 11) + (p &&& 0x7FF))) ∧
        ((bank s sl).2.mySystem.getPageAccess p).directPokeBase = none) ∧
      (sl = s.myFixedSlice → p < 0x1400 →
        ((bank s sl).2.mySystem.getPageAccess p).directPokeBase
          = some (Ptr.ram (p &&& 0x3FF)) ∧
        ((bank s sl).2.mySystem.getPageAccess p).directPeekBase = none) ∧
      (sl = s.myFixedSlice → 0x1400 ≤ p →
        ((bank s sl).2.mySystem.getPageAccess p).directPeekBase
          = some (Ptr.ram (p &&& 0x3FF)) ∧
        ((bank s sl).2.mySystem.getPageAccess p).directPokeBase = none)) ∧
    (∀ s1, (bank (bank s s1).2 sl).2.mySystem = (bank s sl).2.mySystem) := by
  obtain ⟨bsh, btab⟩ := bank_system s sl hu hsh
  constructor
  · intro p h1 h2 h3
    have hbase : (p >>> (bank s sl).2.mySystem.PAGE_SHIFT) * s.mySystem.PAGE_SIZE = p := by
      rw [bsh]
      exact aligned_page_base _ p h3
    have hacc : (bank s sl).2.mySystem.getPageAccess p = segmentAccess s.myFixedSlice sl p := by
      unfold System.getPageAccess
      rw [btab, hbase, if_pos ⟨h1, h2⟩]
    rw [hacc]
    refine ⟨fun hne => ?_, fun hne hlt => ?_, fun heq hp => ?_, fun heq hp => ?_⟩
    · simp only [segmentAccess, ne_eq, hne, not_false_eq_true, if_true, and_bankMask,
        and_07FF, and_self]
    · have hoff : (sl <<< 11) % 65536 = sl <<< 11 := by
        rw [shl_11]; omega
      simp only [segmentAccess, ne_eq, hne, not_false_eq_true, if_true, hoff, and_bankMask,
        and_07FF, and_self]
    · have hp' : p < 0x1400 := hp
      simp only [segmentAccess, heq, ne_eq, not_true_eq_false, if_false, hp', if_true, and_self]
    · have hp' : ¬ p < 0x1400 := by omega
      simp only [segmentAccess, heq, ne_eq, not_true_eq_false, if_false, hp', and_self]
  · intro s1
    obtain ⟨b1sh, b1tab⟩ := bank_system s s1 hu hsh
    obtain ⟨b1fix, b1lock, -, -, -, -, -⟩ := bank_frame s s1
    have hu1 : (bank s s1).2.myBankLocked = false := by rw [b1lock]; exact hu
    obtain ⟨b2sh, b2tab⟩ := bank_system (bank s s1).2 sl hu1 (by rw [b1sh]; exact hsh)
    have hsz : (bank s s1).2.mySystem.PAGE_SIZE = s.mySystem.PAGE_SIZE := by
      simp only [System.PAGE_SIZE, b1sh]
    rw [hsz, b1fix] at b2tab
    have hshift : (bank (bank s s1).2 sl).2.mySystem.PAGE_SHIFT
        = (bank s sl).2.mySystem.PAGE_SHIFT := by
      rw [b2sh, b1sh, bsh]
    have htab : (bank (bank s s1).2 sl).2.mySystem.myPageAccessTable
        = (bank s sl).2.mySystem.myPageAccessTable := by
      funext page
      rw [b2tab page, btab page, b1tab page]
      by_cases hin : 0x1000 ≤ page * s.mySystem.PAGE_SIZE ∧ page * s.mySystem.PAGE_SIZE < 0x1800
      · rw [if_pos hin, if_pos hin]
      · rw [if_neg hin, if_neg hin, if_neg hin]
    cases hA : (bank (bank s s1).2 sl).2.mySystem with
    | mk shA tabA =>
      cases hB : (bank s sl).2.mySystem with
      | mk shB tabB =>
        rw [hA, hB] at hshift htab
        simp only at hshift htab
        rw [hshift, htab]

theorem bank_rebuilds_segment_witness :
    demoCart.bankLocked = false ∧ demoCart.mySystem.PAGE_SHIFT ≤ 8 ∧
    ((bank demoCart 3).2.mySystem.getPageAccess 0x1240).directPeekBase
      = some (Ptr.image ((3 <<< 11) + (0x1240 &&& 0x7FF))) ∧
    (bank (bank demoCart 5).2 3).2.mySystem = (bank demoCart 3).2.mySystem :=
  ⟨by decide, by decide,
    (((bank_rebuilds_segment demoCart 3 (by decide) (by decide)).1 0x1240 (by decide)
      (by decide) (by decide)).2.1 (by decide) (by decide)).1,
    (bank_rebuilds_segment demoCart 3 (by decide) (by decide)).2 5⟩

/-! ## RAM ports and intercepted pages -/

/-- C21 (amended): for a page size that is a power of two dividing `0x100`, on an
unlocked cartridge `bankRAM(b)` makes `myCurrentRAM == b` for every index `b` and gives
every page `p` of `0x1800..0x18FF` the direct-write pointer
`&myRAM[1024 + ((b << 8) mod 2^16) + (p & 0xFF)]` and no direct-read pointer, and every
page `p` of `0x1900..0x19FF` the same index as direct-read pointer and no direct-write
pointer; for `b < 256` (the four banks 0..3 among them) that index is
`1024 + (b << 8) + (p & 0xFF)`.  While locked, `bankRAM(b)` changes nothing. -/
theorem bankRAM_programs_ports (s : CartridgeMNetwork) (b : Nat)
    (hsh : s.mySystem.PAGE_SHIFT ≤ 8) :
    (s.bankLocked = false →
      (bankRAM s b).myCurrentRAM = b ∧
      ∀ p, p % s.mySystem.PAGE_SIZE = 0 →
        (0x1800 ≤ p → p < 0x1900 →
          ((bankRAM s b).mySystem.getPageAccess p).directPokeBase
            = some (Ptr.ram (1024 + (b <<< 8) % 65536 + (p &&& 0xFF))) ∧
          ((bankRAM s b).mySystem.getPageAccess p).directPeekBase = none ∧
          (b < 256 → ((bankRAM s b).mySystem.getPageAccess p).directPokeBase
            = some (Ptr.ram (1024 + (b <<< 8) + (p &&& 0xFF))))) ∧
        (0x1900 ≤ p → p < 0x1A00 →
          ((bankRAM s b).mySystem.getPageAccess p).directPeekBase
            = some (Ptr.ram (1024 + (b <<< 8) % 65536 + (p &&& 0xFF))) ∧
          ((bankRAM s b).mySystem.getPageAccess p).directPokeBase = none ∧
          (b < 256 → ((bankRAM s b).mySystem.getPageAccess p).directPeekBase
            = some (Ptr.ram (1024 + (b <<< 8) + (p &&& 0xFF)))))) ∧
    (s.bankLocked = true → bankRAM s b = s) := by
  constructor
  · intro hu
    obtain ⟨rsh, rtab⟩ := bankRAM_system s b hu hsh
    refine ⟨bankRAM_bank s b hu, fun p h3 => ?_⟩
    have hbase : (p >>> (bankRAM s b).mySystem.PAGE_SHIFT) * s.mySystem.PAGE_SIZE = p := by
      rw [rsh]
      exact aligned_page_base _ p h3
    have hoff : b < 256 → (b <<< 8) % 65536 = b <<< 8 := by
      intro hb; rw [shl_8]; omega
    constructor
    · intro h1 h2
      have hacc : (bankRAM s b).mySystem.getPageAccess p = ramPortAccess b p := by
        unfold System.getPageAccess
        rw [rtab, hbase, if_pos ⟨h1, by omega⟩]
      rw [hacc]
      have hp' : p < 0x1900 := h2
      refine ⟨?_, ?_, fun hb => ?_⟩
      · simp only [ramPortAccess, hp', if_true]
      · simp only [ramPortAccess, hp', if_true]
      · simp only [ramPortAccess, hp', if_true, hoff hb]
    · intro h1 h2
      have hacc : (bankRAM s b).mySystem.getPageAccess p = ramPortAccess b p := by
        unfold System.getPageAccess
        rw [rtab, hbase, if_pos ⟨by omega, h2⟩]
      rw [hacc]
      have hp' : ¬ p < 0x1900 := by omega
      refine ⟨?_, ?_, fun hb => ?_⟩
      · simp only [ramPortAccess, hp', if_false]
      · simp only [ramPortAccess, hp', if_false]
      · simp only [ramPortAccess, hp', if_false, hoff hb]
  · intro hl
    simp [bankRAM, hl]

theorem bankRAM_programs_ports_witness :
    demoCart.mySystem.PAGE_SHIFT ≤ 8 ∧ demoCart.bankLocked = false ∧
    (bankRAM demoCart 2).myCurrentRAM = 2 ∧
    ((bankRAM demoCart 2).mySystem.getPageAccess 0x1940).directPeekBase
      = some (Ptr.ram (1024 + (2 <<< 8) + (0x1940 &&& 0xFF))) :=
  ⟨by decide, by decide,
    ((bankRAM_programs_ports demoCart 2 (by decide)).1 (by decide)).1,
    ((((bankRAM_programs_ports demoCart 2 (by decide)).1 (by decide)).2 0x1940 (by decide)).2
      (by decide) (by decide)).2.2 (by decide)⟩

theorem hotspotPage_bounds (sys : System) (hsh : sys.PAGE_SHIFT ≤ 8) :
    0x1A00 ≤ hotspotPage sys ∧ hotspotPage sys < 0x2000 := by
  unfold hotspotPage System.PAGE_MASK System.PAGE_SIZE
  generalize sys.PAGE_SHIFT = sh at hsh
  interval_cases sh <;> decide

theorem base_lt_of_lt_hotspotPage (sys : System) (a : Nat)
    (h : a < hotspotPage sys) : (a >>> sys.PAGE_SHIFT) * sys.PAGE_SIZE < hotspotPage sys := by
  have hP : 0 < sys.PAGE_SIZE := Nat.pow_pos (by decide)
  rw [Nat.shiftRight_eq_div_pow]
  exact Nat.lt_of_le_of_lt (Nat.div_mul_le_self a _) h

/-! ## Initial state and the F4 bank widget -/

theorem install_fixed_pages (s : CartridgeMNetwork) (system : System)
    (hu : s.myBankLocked = false) (hsh : system.PAGE_SHIFT ≤ 8) (p : Nat)
    (h1 : 0x1A00 ≤ p) (h2 : p < hotspotPage system) (h3 : p % system.PAGE_SIZE = 0) :
    (install s system).mySystem.getPageAccess p = fixedAccess s.myFixedSlice p := by
  have hp := Programmed.of_install s system hu hsh
  obtain ⟨-, -, -, ffix, -, -, fsh⟩ := install_fields s system hu hsh
  obtain ⟨-, hb2⟩ := hotspotPage_bounds system hsh
  rw [Programmed.getPageAccess_eq _ hp p (by omega) (by omega)]
  have hbase : (p >>> (install s system).mySystem.PAGE_SHIFT) *
      (install s system).mySystem.PAGE_SIZE = p := by
    unfold System.PAGE_SIZE
    rw [fsh]
    exact aligned_page_base _ p h3
  have c1 : ¬ p < 0x1800 := by omega
  have c2 : ¬ p < 0x1A00 := by omega
  rw [hbase]
  simp only [windowAccess, c1, c2, if_false, hotspotPage_congr _ _ fsh, h2, if_true, ffix]

/-- C23: after `initialize(image, size)` followed by `install(system)` on an unlocked
cartridge with `bankCount() = N ≥ 1` (page size a power of two dividing `0x100`), the
switchable segment holds the startup bank (`getBank() == myStartBank == 0`), the second
segment holds the last slice (`myCurrentSlice[1] == myFixedSlice == N - 1`), the RAM bank
is 0, and every page `p` from `0x1A00` up to the hot-spot page has the direct-read
pointer `&myImage[(N - 1) * BANK_SIZE + (p & (BANK_SIZE - 1))]`. -/
theorem initial_state (sch : Scheme) (pre : CartridgeMNetwork) (image : Nat → Nat)
    (size : Nat) (system : System) (hu : pre.bankLocked = false) (_hN : 1 ≤ sch.bankCount)
    (hsh : system.PAGE_SHIFT ≤ 8) :
    (install (initialise sch pre image size) system).getBank
      = (install (initialise sch pre image size) system).myStartBank ∧
    (install (initialise sch pre image size) system).myStartBank = 0 ∧
    (install (initialise sch pre image size) system).myCurrentSlice 1
      = (install (initialise sch pre image size) system).myFixedSlice ∧
    (install (initialise sch pre image size) system).myFixedSlice = sch.bankCount - 1 ∧
    (install (initialise sch pre image size) system).myCurrentRAM = 0 ∧
    ∀ p, 0x1A00 ≤ p → p < hotspotPage system → p % system.PAGE_SIZE = 0 →
      ((install (initialise sch pre image size) system).mySystem.getPageAccess p).directPeekBase
        = some (Ptr.image ((sch.bankCount - 1) * BANK_SIZE + (p &&& (BANK_SIZE - 1)))) := by
  have hu' : (initialise sch pre image size).myBankLocked = false := hu
  obtain ⟨f0, f1, fram, ffix, fstart, -, -⟩ :=
    install_fields (initialise sch pre image size) system hu' hsh
  have hfix : (initialise sch pre image size).myFixedSlice = sch.bankCount - 1 := rfl
  have hstart : (initialise sch pre image size).myStartBank = 0 := rfl
  refine ⟨?_, ?_, ?_, ?_, fram, fun p h1 h2 h3 => ?_⟩
  · unfold getBank; rw [f0, fstart]
  · rw [fstart, hstart]
  · rw [f1, ffix]
  · rw [ffix, hfix]
  · rw [install_fixed_pages _ system hu' hsh p h1 h2 h3, hfix]
    rfl

theorem initial_state_witness :
    blankCart.bankLocked = false ∧ 1 ≤ e7Scheme.bankCount ∧ system64.PAGE_SHIFT ≤ 8 ∧
    demoCart.myFixedSlice = e7Scheme.bankCount - 1 ∧ demoCart.myCurrentRAM = 0 :=
  ⟨by decide, by decide, by decide,
    (initial_state e7Scheme blankCart (fun i => i / 2048) 16384 system64 (by decide)
      (by decide) (by decide)).2.2.2.1,
    (initial_state e7Scheme blankCart (fun i => i / 2048) 16384 system64 (by decide)
      (by decide) (by decide)).2.2.2.2.1⟩

/-- C24: `CartridgeF4Widget::handleCommand` with `cmd == kBankChanged` performs
`unlockBank(); bank(k); lockBank()` for the selected entry `k`: whatever the lock state
was, the bank switch is carried out (`myCurrentBank` becomes `k` for each of the eight
banks, the bank-changed flag is set) and the cartridge is locked when the handler
returns; for any other `cmd` the widget and its cartridge are unchanged. -/
theorem handleCommand_forces_bank (kBankChanged cmd : Int) (w : CartridgeF4Widget) :
    (cmd = kBankChanged →
      (CartridgeF4Widget.handleCommand kBankChanged w cmd).myCart
        = ((w.myCart.unlockBank).bank w.myBankSelected).2.lockBank ∧
      ((w.myCart.unlockBank).bank w.myBankSelected).1 = true ∧
      (CartridgeF4Widget.handleCommand kBankChanged w cmd).myCart.myCurrentBank
        = min w.myBankSelected 7 ∧
      (w.myBankSelected < 8 →
        (CartridgeF4Widget.handleCommand kBankChanged w cmd).myCart.myCurrentBank
          = w.myBankSelected) ∧
      (CartridgeF4Widget.handleCommand kBankChanged w cmd).myCart.myBankChanged = true ∧
      (CartridgeF4Widget.handleCommand kBankChanged w cmd).myCart.myBankLocked = true) ∧
    (cmd ≠ kBankChanged → CartridgeF4Widget.handleCommand kBankChanged w cmd = w) := by
  constructor
  · intro h
    simp only [CartridgeF4Widget.handleCommand, h, if_true, CartridgeF4.unlockBank,
      CartridgeF4.bank, CartridgeF4.lockBank, Bool.false_eq_true, if_false, and_self, true_and]
    exact ⟨fun hk => by omega, trivial⟩
  · intro h
    simp [CartridgeF4Widget.handleCommand, h]

theorem handleCommand_forces_bank_witness :
    (CartridgeF4Widget.handleCommand 1
      { myCart := { myCurrentBank := 0, myBankLocked := true, myBankChanged := false },
        myBankSelected := 5 } 1).myCart
      = { myCurrentBank := 5, myBankLocked := true, myBankChanged := true } ∧
    CartridgeF4Widget.handleCommand 1
      { myCart := { myCurrentBank := 0, myBankLocked := false, myBankChanged := false },
        myBankSelected := 5 } 2
      = { myCart := { myCurrentBank := 0, myBankLocked := false, myBankChanged := false },
          myBankSelected := 5 } :=
  ⟨((handleCommand_forces_bank 1 1
      { myCart := { myCurrentBank := 0, myBankLocked := true, myBankChanged := false },
        myBankSelected := 5 }).1 rfl).1,
    (handleCommand_forces_bank 1 2
      { myCart := { myCurrentBank := 0, myBankLocked := false, myBankChanged := false },
        myBankSelected := 5 }).2 (by decide)⟩

/-! ## The fixed-segment invariant -/

theorem bank_outside (s : CartridgeMNetwork) (k : Nat) (hsh : s.mySystem.PAGE_SHIFT ≤ 8) :
    (bank s k).2.mySystem.PAGE_SHIFT = s.mySystem.PAGE_SHIFT ∧
    ∀ page, ¬ (0x1000 ≤ page * s.mySystem.PAGE_SIZE ∧ page * s.mySystem.PAGE_SIZE < 0x1800) →
      (bank s k).2.mySystem.myPageAccessTable page = s.mySystem.myPageAccessTable page := by
  by_cases hl : s.myBankLocked = true
  · have : (bank s k).2 = s := by simp [bank, bankLocked, hl]
    rw [this]
    exact ⟨rfl, fun _ _ => rfl⟩
  · obtain ⟨h1, h2⟩ := bank_system s k (by simpa using hl) hsh
    refine ⟨h1, fun page hp => ?_⟩
    rw [h2 page, if_neg hp]

theorem bankRAM_outside (s : CartridgeMNetwork) (b : Nat) (hsh : s.mySystem.PAGE_SHIFT ≤ 8) :
    (bankRAM s b).mySystem.PAGE_SHIFT = s.mySystem.PAGE_SHIFT ∧
    ∀ page, ¬ (0x1800 ≤ page * s.mySystem.PAGE_SIZE ∧ page * s.mySystem.PAGE_SIZE < 0x1A00) →
      (bankRAM s b).mySystem.myPageAccessTable page = s.mySystem.myPageAccessTable page := by
  by_cases hl : s.myBankLocked = true
  · have : bankRAM s b = s := by simp [bankRAM, bankLocked, hl]
    rw [this]
    exact ⟨rfl, fun _ _ => rfl⟩
  · obtain ⟨h1, h2⟩ := bankRAM_system s b (by simpa using hl) hsh
    refine ⟨h1, fun page hp => ?_⟩
    rw [h2 page, if_neg hp]

theorem fixedKept_congr (N : Nat) (s0 s s' : CartridgeMNetwork) (h : FixedKept N s0 s)
    (hsys : s'.mySystem = s.mySystem) (hsl : s'.myCurrentSlice = s.myCurrentSlice)
    (hfix : s'.myFixedSlice = s.myFixedSlice) : FixedKept N s0 s' :=
  ⟨hsys ▸ h.shift, by rw [hsl, hfix]; exact h.slice, hfix ▸ h.fixed,
    fun page hp => by rw [hsys]; exact h.table page hp⟩

theorem fixedKept_of_bank (N : Nat) (s0 s : CartridgeMNetwork) (k : Nat)
    (hsh : s0.mySystem.PAGE_SHIFT ≤ 8) (h : FixedKept N s0 s) : FixedKept N s0 (bank s k).2 := by
  obtain ⟨h1, h2⟩ := bank_outside s k (h.shift ▸ hsh)
  obtain ⟨hfix, -, -, -, -, -, hs1⟩ := bank_frame s k
  have hsz : s.mySystem.PAGE_SIZE = s0.mySystem.PAGE_SIZE := by
    simp only [System.PAGE_SIZE, h.shift]
  refine ⟨h1.trans h.shift, by rw [hs1, hfix]; exact h.slice, hfix.trans h.fixed,
    fun page hp => ?_⟩
  rw [h2 page (by rw [hsz]; omega)]
  exact h.table page hp

theorem fixedKept_of_bankRAM (N : Nat) (s0 s : CartridgeMNetwork) (b : Nat)
    (hsh : s0.mySystem.PAGE_SHIFT ≤ 8) (h : FixedKept N s0 s) : FixedKept N s0 (bankRAM s b) := by
  obtain ⟨h1, h2⟩ := bankRAM_outside s b (h.shift ▸ hsh)
  obtain ⟨hfix, -, -, -, hsl, -⟩ := bankRAM_frame s b
  have hsz : s.mySystem.PAGE_SIZE = s0.mySystem.PAGE_SIZE := by
    simp only [System.PAGE_SIZE, h.shift]
  refine ⟨h1.trans h.shift, by rw [hsl, hfix]; exact h.slice, hfix.trans h.fixed,
    fun page hp => ?_⟩
  rw [h2 page (by rw [hsz]; omega)]
  exact h.table page hp

theorem fixedKept_of_checkSwitchBank (N : Nat) (sch : Scheme) (s0 s : CartridgeMNetwork)
    (a : Nat) (hsh : s0.mySystem.PAGE_SHIFT ≤ 8) (h : FixedKept N s0 s) :
    FixedKept N s0 (checkSwitchBank sch s a) := by
  unfold checkSwitchBank
  cases hc : sch.checkSwitchBank a with
  | none => exact h
  | some act =>
    cases act with
    | bank k => exact fixedKept_of_bank N s0 s k hsh h
    | bankRAM b => exact fixedKept_of_bankRAM N s0 s b hsh h

theorem fixedKept_of_peek (N : Nat) (sch : Scheme) (s0 s : CartridgeMNetwork) (v a : Nat)
    (hsh : s0.mySystem.PAGE_SHIFT ≤ 8) (h : FixedKept N s0 s) :
    FixedKept N s0 (peek sch s v a).2 := by
  have hc := fixedKept_of_checkSwitchBank N sch s0 s (a &&& 0x0FFF) hsh h
  unfold peek
  simp only
  split_ifs
  all_goals first
    | exact hc
    | exact fixedKept_congr N s0 _ _ hc rfl rfl rfl

theorem fixedKept_of_patch (N : Nat) (s0 s : CartridgeMNetwork) (a v : Nat)
    (h : FixedKept N s0 s) : FixedKept N s0 (patch s a v).2 := by
  unfold patch
  simp only
  split_ifs
  all_goals exact fixedKept_congr N s0 _ _ h rfl rfl rfl

theorem fixedKept_of_reset (N : Nat) (s0 s : CartridgeMNetwork) (ramInit : Nat → Nat)
    (hsh : s0.mySystem.PAGE_SHIFT ≤ 8) (h : FixedKept N s0 s) :
    FixedKept N s0 (reset s ramInit) := by
  have h1 : FixedKept N s0
      { s with myRAM := fun i => if i < RAM_SIZE then ramInit i else s.myRAM i } :=
    fixedKept_congr N s0 s _ h rfl rfl rfl
  have h2 := fixedKept_of_bankRAM N s0 _ 0 hsh h1
  have h3 := fixedKept_of_bank N s0 _
    (bankRAM { s with myRAM := fun i => if i < RAM_SIZE then ramInit i else s.myRAM i }
      0).myStartBank hsh h2
  exact fixedKept_congr N s0 _ _ h3 rfl rfl rfl

theorem fixedKept_of_install (s : CartridgeMNetwork) (system : System)
    (hsh : system.PAGE_SHIFT ≤ 8) :
    (install s system).mySystem.PAGE_SHIFT = system.PAGE_SHIFT ∧
    FixedKept (s.myFixedSlice + 1) (install s system) (install s system) := by
  obtain ⟨ifix, -, -, -, -, -, isl⟩ := installSegment1_frame s system
  obtain ⟨ish, -⟩ := installSegment1_system s system hsh
  obtain ⟨rsh, -⟩ := bankRAM_outside (installSegment1 s system) 0 (by rw [ish]; exact hsh)
  obtain ⟨rfix, -, -, -, rsl, -⟩ := bankRAM_frame (installSegment1 s system) 0
  obtain ⟨bsh, -⟩ := bank_outside (bankRAM (installSegment1 s system) 0)
    (bankRAM (installSegment1 s system) 0).myStartBank (by rw [rsh, ish]; exact hsh)
  obtain ⟨bfix, -, -, -, -, -, bsl⟩ := bank_frame (bankRAM (installSegment1 s system) 0)
    (bankRAM (installSegment1 s system) 0).myStartBank
  rw [install_eq]
  refine ⟨by rw [bsh, rsh, ish], rfl, ?_, ?_, fun _ _ => rfl⟩
  · rw [bsl, rsl, isl, bfix, rfix, ifix, store_same]
  · rw [bfix, rfix, ifix]; rfl

theorem Operated_fixedKept (N : Nat) (sch : Scheme) (s0 s : CartridgeMNetwork)
    (hsh : s0.mySystem.PAGE_SHIFT ≤ 8) (h0 : FixedKept N s0 s0) (h : Operated sch s0 s) :
    FixedKept N s0 s := by
  induction h with
  | start => exact h0
  | reset s ramInit _ ih => exact fixedKept_of_reset N s0 s ramInit hsh ih
  | bank s k _ ih => exact fixedKept_of_bank N s0 s k hsh ih
  | bankRAM s b _ ih => exact fixedKept_of_bankRAM N s0 s b hsh ih
  | peek s v a _ ih => exact fixedKept_of_peek N sch s0 s v a hsh ih
  | poke s a v _ ih => exact fixedKept_of_checkSwitchBank N sch s0 s (a &&& 0x0FFF) hsh ih
  | patch s a v _ ih => exact fixedKept_of_patch N s0 s a v ih
  | lockBank s _ ih => exact fixedKept_congr N s0 s _ ih rfl rfl rfl
  | unlockBank s _ ih => exact fixedKept_congr N s0 s _ ih rfl rfl rfl

/-- C25: starting from the state after `initialize` and `install` (page size a power of
two dividing `0x100`, any lock state, bank count at least 1), every sequence of `reset`,
`bank`, `bankRAM`, `peek`, `poke`, `patch`, `lockBank` and `unlockBank` calls with
arbitrary arguments (the hot-spot check acting only through `bank`/`bankRAM`) keeps
`myCurrentSlice[1] == myFixedSlice == bankCount() - 1` and leaves every page-table entry
of `0x1A00..0x1FFF` as `install` programmed it. -/
theorem fixed_segment_invariant (sch : Scheme) (pre : CartridgeMNetwork) (image : Nat → Nat)
    (size : Nat) (system : System) (s : CartridgeMNetwork) (hN : 1 ≤ sch.bankCount)
    (hsh : system.PAGE_SHIFT ≤ 8)
    (hop : Operated sch (install (initialise sch pre image size) system) s) :
    s.myCurrentSlice 1 = s.myFixedSlice ∧ s.myFixedSlice = sch.bankCount - 1 ∧
    s.mySystem.PAGE_SHIFT = system.PAGE_SHIFT ∧
    ∀ page, 0x1A00 ≤ page * system.PAGE_SIZE → page * system.PAGE_SIZE < 0x2000 →
      s.mySystem.myPageAccessTable page
        = (install (initialise sch pre image size) system).mySystem.myPageAccessTable page := by
  obtain ⟨ish, h0⟩ := fixedKept_of_install (initialise sch pre image size) system hsh
  have hfix : (initialise sch pre image size).myFixedSlice + 1 = sch.bankCount := by
    show sch.bankCount - 1 + 1 = sch.bankCount
    omega
  rw [hfix] at h0
  have hk := Operated_fixedKept sch.bankCount sch _ s (by rw [ish]; exact hsh) h0 hop
  have hsz : (install (initialise sch pre image size) system).mySystem.PAGE_SIZE
      = system.PAGE_SIZE := by
    simp only [System.PAGE_SIZE, ish]
  refine ⟨hk.slice, hk.fixed, hk.shift.trans ish, fun page hp _ => ?_⟩
  exact hk.table page (by rw [hsz]; exact hp)

theorem fixed_segment_invariant_witness :
    1 ≤ e7Scheme.bankCount ∧ system64.PAGE_SHIFT ≤ 8 ∧
    Operated e7Scheme demoCart (reset (patch (bank demoCart 3).2 0x1A00 9).2 (fun _ => 0)) ∧
    (reset (patch (bank demoCart 3).2 0x1A00 9).2 (fun _ => 0)).myCurrentSlice 1 = 7 :=
  ⟨by decide, by decide,
    Operated.reset _ _ (Operated.patch _ _ _ (Operated.bank _ _ Operated.start)),
    ((fixed_segment_invariant e7Scheme blankCart (fun i => i / 2048) 16384 system64
      (reset (patch (bank demoCart 3).2 0x1A00 9).2 (fun _ => 0)) (by decide) (by decide)
      (Operated.reset _ _ (Operated.patch _ _ _ (Operated.bank _ _ Operated.start)))).1.trans
     (fixed_segment_invariant e7Scheme blankCart (fun i => i / 2048) 16384 system64
      (reset (patch (bank demoCart 3).2 0x1A00 9).2 (fun _ => 0)) (by decide) (by decide)
      (Operated.reset _ _ (Operated.patch _ _ _ (Operated.bank _ _ Operated.start)))).2.1)⟩

/-! ## Load and the fixed segment -/

theorem getString_items (inp inp1 : Serializer) (str : String)
    (h : inp.getString = some (str, inp1)) : inp.items = Item.string str :: inp1.items := by
  obtain ⟨items⟩ := inp
  rcases items with _ | ⟨x, l⟩
  · simp [Serializer.getString] at h
  · cases x with
    | string t =>
      simp only [Serializer.getString, Option.some.injEq, Prod.mk.injEq] at h
      obtain ⟨h1, h2⟩ := h
      subst h1; subst h2; rfl
    | short _ => simp [Serializer.getString] at h
    | byte _ => simp [Serializer.getString] at h

theorem getShortsFrom_two (items : List Item) (arr : Nat → Nat)
    (h : (Serializer.getShortsFrom 2 0 items arr).2.2 = true) :
    ∃ a b rest, items = Item.short a :: Item.short b :: rest ∧
      (Serializer.getShortsFrom 2 0 items arr).1 0 = a ∧
      (Serializer.getShortsFrom 2 0 items arr).1 1 = b := by
  rcases items with _ | ⟨x, l⟩
  · simp [Serializer.getShortsFrom] at h
  · cases x with
    | string _ => simp [Serializer.getShortsFrom] at h
    | byte _ => simp [Serializer.getShortsFrom] at h
    | short a =>
      rcases l with _ | ⟨y, l1⟩
      · simp [Serializer.getShortsFrom] at h
      · cases y with
        | string _ => simp [Serializer.getShortsFrom] at h
        | byte _ => simp [Serializer.getShortsFrom] at h
        | short b =>
          exact ⟨a, b, l1, rfl, by simp [Serializer.getShortsFrom],
            by simp [Serializer.getShortsFrom]⟩

theorem load_success_slices (name : String) (s : CartridgeMNetwork) (inp : Serializer)
    (hok : (load name s inp).1 = true) :
    ∃ a b rest, inp.items = Item.string name :: Item.short a :: Item.short b :: rest ∧
      (load name s inp).2.1.myCurrentSlice 0 = a ∧
      (load name s inp).2.1.myCurrentSlice 1 = b ∧
      (load name s inp).2.1.myFixedSlice = s.myFixedSlice ∧
      (load name s inp).2.1.myImage = s.myImage := by
  cases h1 : inp.getString with
  | none => simp [load, h1] at hok
  | some p =>
    obtain ⟨str, inp1⟩ := p
    have hitems := getString_items inp inp1 str h1
    by_cases hn : str = name
    · by_cases h2 : (inp1.getShortArray s.myCurrentSlice 2).2.2 = false
      · simp [load, h1, hn, h2] at hok
      · cases h3 : (inp1.getShortArray s.myCurrentSlice 2).2.1.getShort with
        | none => simp [load, h1, hn, h2, h3] at hok
        | some q =>
          obtain ⟨ramBank, inp2⟩ := q
          by_cases h4 : (inp2.getByteArray s.myRAM RAM_SIZE).2.2 = false
          · simp [load, h1, hn, h2, h3, h4] at hok
          · obtain ⟨a, b, rest, hl, ha, hb⟩ := getShortsFrom_two inp1.items s.myCurrentSlice
              (by simpa [Serializer.getShortArray] using h2)
            have hs : (load name s inp).2.1 =
                (bank (bankRAM { s with
                    myCurrentSlice := (inp1.getShortArray s.myCurrentSlice 2).1
                    myCurrentRAM := ramBank
                    myRAM := (inp2.getByteArray s.myRAM RAM_SIZE).1 } ramBank)
                  ((bankRAM { s with
                    myCurrentSlice := (inp1.getShortArray s.myCurrentSlice 2).1
                    myCurrentRAM := ramBank
                    myRAM := (inp2.getByteArray s.myRAM RAM_SIZE).1 } ramBank).myCurrentSlice
                      0)).2 := by
              simp [load, h1, hn, h2, h3, h4]
            generalize hs3 : ({ s with
                    myCurrentSlice := (inp1.getShortArray s.myCurrentSlice 2).1
                    myCurrentRAM := ramBank
                    myRAM := (inp2.getByteArray s.myRAM RAM_SIZE).1 } : CartridgeMNetwork)
              = s3 at hs
            have e0 : s3.myCurrentSlice = (inp1.getShortArray s.myCurrentSlice 2).1 := by
              rw [← hs3]
            have e1 : s3.myFixedSlice = s.myFixedSlice := by rw [← hs3]
            have e2 : s3.myImage = s.myImage := by rw [← hs3]
            obtain ⟨rfix, -, rimg, -, rsl, -⟩ := bankRAM_frame s3 ramBank
            obtain ⟨bfix, -, bimg, -, -, -, bs1⟩ :=
              bank_frame (bankRAM s3 ramBank) ((bankRAM s3 ramBank).myCurrentSlice 0)
            have bs0 := bank_current (bankRAM s3 ramBank)
            refine ⟨a, b, rest, by rw [hitems, hl, hn], ?_, ?_, ?_, ?_⟩
            · rw [hs, bs0, rsl, e0]; exact ha
            · rw [hs, bs1, rsl, e0]; exact hb
            · rw [hs, bfix, rfix, e1]
            · rw [hs, bimg, rimg, e2]
    · simp [load, h1, hn] at hok

theorem peek_fixed_segment (sch : Scheme) (s : CartridgeMNetwork) (v a : Nat)
    (hseg : 0x0A00 ≤ a &&& 0x0FFF) (hhot : sch.checkSwitchBank (a &&& 0x0FFF) = none) :
    peek sch s v a = (s.myImage (s.myCurrentSlice 1 * 2048 + (a &&& 0x07FF)), s) := by
  rw [peek_rom sch s v a hhot (by omega) (by omega)]
  have hlt : a &&& 0x0FFF < 4096 := by rw [and_0FFF]; omega
  have h1 : (a &&& 0x0FFF) >>> 11 = 1 := by rw [shr_11]; omega
  have h2 : (a &&& 0x0FFF) &&& (BANK_SIZE - 1) = a &&& 0x07FF := by
    rw [and_bankMask, and_0FFF, and_07FF]; omega
  rw [h1, h2, shl_11]

/-- C26 (counterexample): on the installed eight-slice cartridge, `load` of a complete
record under the matching name whose second slice index is 5 returns true and stores
`myCurrentSlice[1] = 5` while `myFixedSlice` stays 7; `peek(0x1A00)` then returns the
byte 5 of slice 5, not the byte `image[7 * 2048 + 0x200] = 7` that the direct-read
pointer programmed by `install` resolves to. -/
theorem load_moves_fixed_slice :
    Reachable e7Scheme demoCart ∧
    (load "CartridgeE7" demoCart strayRecord).1 = true ∧
    (load "CartridgeE7" demoCart strayRecord).2.1.myCurrentSlice 1 = 5 ∧
    (load "CartridgeE7" demoCart strayRecord).2.1.myFixedSlice = 7 ∧
    e7Scheme.checkSwitchBank (0x1A00 &&& 0x0FFF) = none ∧
    (peek e7Scheme (load "CartridgeE7" demoCart strayRecord).2.1 0 0x1A00).1 = 5 ∧
    ((load "CartridgeE7" demoCart strayRecord).2.1.mySystem.getPageAccess 0x1A00).directPeekBase
      = some (Ptr.image (7 * 2048 + 0x200)) ∧
    (load "CartridgeE7" demoCart strayRecord).2.1.myImage (7 * 2048 + (0x1A00 &&& 0x07FF)) = 7 := by
  have hb := getBytesFrom_written (fun _ => 0) [] RAM_SIZE 0 demoCart.myRAM
  rw [List.append_nil] at hb
  have hl := load_complete "CartridgeE7" demoCart 3 5 0 _ _ _ hb
  have hr : strayRecord = ⟨Item.string "CartridgeE7" :: Item.short 3 :: Item.short 5 ::
      Item.short 0 :: (List.range' 0 RAM_SIZE).map (fun j => Item.byte ((fun _ => 0) j))⟩ := rfl
  rw [hr, hl]
  refine ⟨demoCart_reachable, rfl, ?_, ?_, ?_, ?_, ?_, ?_⟩
  · decide
  · decide
  · decide
  · rw [peek_fixed_segment _ _ _ _ (by decide) (by decide)]
    decide
  · decide
  · decide

/-- C26 (amended): for every cartridge and every record on which `load` returns true,
the record starts with the matching name and two slice indices `a`, `b`, and afterwards
`myCurrentSlice[0] == a` and `myCurrentSlice[1] == b`, with `myFixedSlice` and the ROM
image unchanged; when `b` is `myFixedSlice` (as in every record saved from a state
obeying the fixed-segment invariant), `peek(addr)` for `addr` in the fixed segment
(window offset `>= 0xA00`, no hot spot) returns
`image[myFixedSlice * 2048 + (addr & 0x7FF)]`. -/
theorem load_fixed_segment (sch : Scheme) (name : String) (s : CartridgeMNetwork)
    (inp : Serializer) (hok : (load name s inp).1 = true) :
    ∃ a b rest, inp.items = Item.string name :: Item.short a :: Item.short b :: rest ∧
      (load name s inp).2.1.myCurrentSlice 0 = a ∧
      (load name s inp).2.1.myCurrentSlice 1 = b ∧
      (load name s inp).2.1.myFixedSlice = s.myFixedSlice ∧
      (load name s inp).2.1.myImage = s.myImage ∧
      (b = s.myFixedSlice → ∀ v addr, 0x0A00 ≤ addr &&& 0x0FFF →
        sch.checkSwitchBank (addr &&& 0x0FFF) = none →
        (peek sch (load name s inp).2.1 v addr).1
          = s.myImage (s.myFixedSlice * 2048 + (addr &&& 0x07FF))) := by
  obtain ⟨a, b, rest, hitems, h0, h1, hfix, himg⟩ := load_success_slices name s inp hok
  refine ⟨a, b, rest, hitems, h0, h1, hfix, himg, fun hb v addr hseg hhot => ?_⟩
  rw [peek_fixed_segment sch _ v addr hseg hhot]
  show (load name s inp).2.1.myImage _ = _
  rw [himg, h1, hb]

theorem load_fixed_segment_witness :
    (load "CartridgeE7" demoCart (save "CartridgeE7" (bank demoCart 3).2 ⟨[]⟩).2).1 = true ∧
    ∃ a b rest, (save "CartridgeE7" (bank demoCart 3).2 ⟨[]⟩).2.items
        = Item.string "CartridgeE7" :: Item.short a :: Item.short b :: rest ∧
      (load "CartridgeE7" demoCart
        (save "CartridgeE7" (bank demoCart 3).2 ⟨[]⟩).2).2.1.myCurrentSlice 1 = b :=
  ⟨by rw [load_save_all],
    (load_fixed_segment e7Scheme "CartridgeE7" demoCart
      (save "CartridgeE7" (bank demoCart 3).2 ⟨[]⟩).2 (by rw [load_save_all])).elim
      (fun a h => h.elim (fun b h => h.elim (fun rest h => ⟨a, b, rest, h.1, h.2.2.1⟩)))⟩

/-! ## Buffer indices -/

theorem bank_getPageAccess (s : CartridgeMNetwork) (k a : Nat) (hu : s.myBankLocked = false)
    (hsh : s.mySystem.PAGE_SHIFT ≤ 8) (h1 : 0x1000 ≤ a) (h2 : a < 0x1800) :
    (bank s k).2.mySystem.getPageAccess a =
      segmentAccess s.myFixedSlice k ((a >>> s.mySystem.PAGE_SHIFT) * s.mySystem.PAGE_SIZE) := by
  obtain ⟨hs, ht⟩ := bank_system s k hu hsh
  obtain ⟨f1, -⟩ := page_split s.mySystem.PAGE_SHIFT a hsh
  unfold System.getPageAccess
  rw [hs, ht, if_pos]
  unfold System.PAGE_SIZE
  omega

theorem bankRAM_getPageAccess (s : CartridgeMNetwork) (b a : Nat) (hu : s.myBankLocked = false)
    (hsh : s.mySystem.PAGE_SHIFT ≤ 8) (h1 : 0x1800 ≤ a) (h2 : a < 0x1A00) :
    (bankRAM s b).mySystem.getPageAccess a =
      ramPortAccess b ((a >>> s.mySystem.PAGE_SHIFT) * s.mySystem.PAGE_SIZE) := by
  obtain ⟨hs, ht⟩ := bankRAM_system s b hu hsh
  obtain ⟨f1, -⟩ := page_split s.mySystem.PAGE_SHIFT a hsh
  unfold System.getPageAccess
  rw [hs, ht, if_pos]
  unfold System.PAGE_SIZE
  omega

theorem patch_cases (s : CartridgeMNetwork) (a v : Nat) :
    (a &&& 0x0FFF < 0x0800 → s.myCurrentSlice 0 = s.myFixedSlice →
      patch s a v = (true, { s with
        myRAM := store s.myRAM ((a &&& 0x0FFF) &&& 0x03FF) v, myBankChanged := true })) ∧
    (a &&& 0x0FFF < 0x0800 → s.myCurrentSlice 0 ≠ s.myFixedSlice →
      patch s a v = (true, { s with
        myImage := store s.myImage
          ((s.myCurrentSlice 0 <<< 11) + ((a &&& 0x0FFF) &&& (BANK_SIZE - 1))) v,
        myBankChanged := true })) ∧
    (0x0800 ≤ a &&& 0x0FFF → a &&& 0x0FFF < 0x0900 →
      patch s a v = (true, { s with
        myRAM := store s.myRAM (1024 + (s.myCurrentRAM <<< 8) + ((a &&& 0x0FFF) &&& 0x00FF)) v,
        myBankChanged := true })) ∧
    (0x0900 ≤ a &&& 0x0FFF →
      patch s a v = (true, { s with
        myImage := store s.myImage
          ((s.myCurrentSlice ((a &&& 0x0FFF) >>> 11) <<< 11) +
            ((a &&& 0x0FFF) &&& (BANK_SIZE - 1))) v,
        myBankChanged := true })) := by
  refine ⟨fun h1 h2 => ?_, fun h1 h2 => ?_, fun h1 h2 => ?_, fun h1 => ?_⟩
  · unfold patch
    simp only [h1, h2, if_true]
  · unfold patch
    simp only [h1, h2, if_true, if_false]
  · have h3 : ¬ a &&& 0x0FFF < 0x0800 := by omega
    unfold patch
    simp only [h3, h2, if_true, if_false]
  · have h3 : ¬ a &&& 0x0FFF < 0x0800 := by omega
    have h4 : ¬ a &&& 0x0FFF < 0x0900 := by omega
    unfold patch
    simp only [h3, h4, if_false]

theorem rom_index_lt (sl : Nat → Nat) (N a : Nat) (h0 : sl 0 < N) (h1 : sl 1 < N) :
    (sl ((a &&& 0x0FFF) >>> 11) <<< 11) + ((a &&& 0x0FFF) &&& (BANK_SIZE - 1)) < N * BANK_SIZE ∧
    (sl 0 <<< 11) + ((a &&& 0x0FFF) &&& (BANK_SIZE - 1)) < N * BANK_SIZE := by
  have hlt : a &&& 0x0FFF < 4096 := by rw [and_0FFF]; omega
  rw [and_bankMask, shl_11, shl_11, shr_11]
  show _ < N * 2048 ∧ _ < N * 2048
  have hc : (a &&& 0x0FFF) / 2048 = 0 ∨ (a &&& 0x0FFF) / 2048 = 1 := by omega
  rcases hc with hc | hc
  · rw [hc]; omega
  · rw [hc]; omega

theorem ram_index_bounds (r a : Nat) (hr : r < 4) :
    (a &&& 0x0FFF) &&& 0x03FF < 1024 ∧
    1024 ≤ 1024 + (r <<< 8) + ((a &&& 0x0FFF) &&& 0x00FF) ∧
    1024 + (r <<< 8) + ((a &&& 0x0FFF) &&& 0x00FF) < RAM_SIZE := by
  rw [and_03FF, and_00FF, shl_8]
  show _ ∧ _ ∧ _ < 2048
  omega

theorem peek_cases (sch : Scheme) (s : CartridgeMNetwork) (v a : Nat) :
    (peek sch s v a).2.myImage = (checkSwitchBank sch s (a &&& 0x0FFF)).myImage ∧
    ((checkSwitchBank sch s (a &&& 0x0FFF)).myCurrentSlice 0
        = (checkSwitchBank sch s (a &&& 0x0FFF)).myFixedSlice ∧ a &&& 0x0FFF < 0x0400 →
      ∀ i, i ≠ (a &&& 0x0FFF) &&& 0x03FF →
        (peek sch s v a).2.myRAM i = (checkSwitchBank sch s (a &&& 0x0FFF)).myRAM i) ∧
    (¬ ((checkSwitchBank sch s (a &&& 0x0FFF)).myCurrentSlice 0
        = (checkSwitchBank sch s (a &&& 0x0FFF)).myFixedSlice ∧ a &&& 0x0FFF < 0x0400) →
      0x0800 ≤ a &&& 0x0FFF ∧ a &&& 0x0FFF ≤ 0x08FF →
      ∀ i, i ≠ 1024 + ((checkSwitchBank sch s (a &&& 0x0FFF)).myCurrentRAM <<< 8)
          + ((a &&& 0x0FFF) &&& 0x00FF) →
        (peek sch s v a).2.myRAM i = (checkSwitchBank sch s (a &&& 0x0FFF)).myRAM i) ∧
    (¬ ((checkSwitchBank sch s (a &&& 0x0FFF)).myCurrentSlice 0
        = (checkSwitchBank sch s (a &&& 0x0FFF)).myFixedSlice ∧ a &&& 0x0FFF < 0x0400) →
      ¬ (0x0800 ≤ a &&& 0x0FFF ∧ a &&& 0x0FFF ≤ 0x08FF) →
      peek sch s v a =
        ((checkSwitchBank sch s (a &&& 0x0FFF)).myImage
          (((checkSwitchBank sch s (a &&& 0x0FFF)).myCurrentSlice ((a &&& 0x0FFF) >>> 11) <<< 11)
            + ((a &&& 0x0FFF) &&& (BANK_SIZE - 1))),
         checkSwitchBank sch s (a &&& 0x0FFF))) := by
  unfold peek
  simp only
  generalize checkSwitchBank sch s (a &&& 0x0FFF) = t
  refine ⟨?_, fun h1 i hi => ?_, fun h1 h2 i hi => ?_, fun h1 h2 => ?_⟩
  · split_ifs <;> rfl
  · rw [if_pos h1]
    split_ifs
    · rfl
    · exact store_other _ _ _ _ hi
  · rw [if_neg h1, if_pos h2]
    split_ifs
    · rfl
    · exact store_other _ _ _ _ hi
  · rw [if_neg h1, if_neg h2]

theorem bank_indices (s : CartridgeMNetwork) (N k a : Nat) (hu : s.myBankLocked = false)
    (hsh : s.mySystem.PAGE_SHIFT ≤ 8) (hk : k < N) (h1 : 0x1000 ≤ a) (h2 : a < 0x1800) :
    (k ≠ s.myFixedSlice →
      ∃ i, ((bank s k).2.mySystem.getPageAccess a).directPeekBase = some (Ptr.image i) ∧
        ((bank s k).2.mySystem.getPageAccess a).directPokeBase = none ∧
        i + (a &&& s.mySystem.PAGE_MASK) < N * BANK_SIZE ∧
        (k < 32 → i + (a &&& s.mySystem.PAGE_MASK) = (k <<< 11) + (a &&& 0x07FF))) ∧
    (k = s.myFixedSlice → a < 0x1400 →
      ∃ i, ((bank s k).2.mySystem.getPageAccess a).directPokeBase = some (Ptr.ram i) ∧
        ((bank s k).2.mySystem.getPageAccess a).directPeekBase = none ∧
        i + (a &&& s.mySystem.PAGE_MASK) = a &&& 0x03FF ∧
        i + (a &&& s.mySystem.PAGE_MASK) < 1024) ∧
    (k = s.myFixedSlice → 0x1400 ≤ a →
      ∃ i, ((bank s k).2.mySystem.getPageAccess a).directPeekBase = some (Ptr.ram i) ∧
        ((bank s k).2.mySystem.getPageAccess a).directPokeBase = none ∧
        i + (a &&& s.mySystem.PAGE_MASK) = a &&& 0x03FF ∧
        i + (a &&& s.mySystem.PAGE_MASK) < 1024) := by
  obtain ⟨f1, f2⟩ := page_split s.mySystem.PAGE_SHIFT a hsh
  rw [bank_getPageAccess s k a hu hsh h1 h2]
  refine ⟨fun hne => ?_, fun he hlt => ?_, fun he hge => ?_⟩
  · refine ⟨(k <<< 11) % 65536 +
      ((a >>> s.mySystem.PAGE_SHIFT) * s.mySystem.PAGE_SIZE &&& (BANK_SIZE - 1)), ?_, ?_, ?_, ?_⟩
    · simp only [segmentAccess, hne, ne_eq, not_false_eq_true, if_true]
    · simp only [segmentAccess, hne, ne_eq, not_false_eq_true, if_true]
    · rw [and_bankMask, shl_11]
      show _ < N * 2048
      unfold System.PAGE_MASK System.PAGE_SIZE
      omega
    · intro hk32
      rw [and_bankMask, shl_11, and_07FF]
      unfold System.PAGE_MASK System.PAGE_SIZE
      omega
  · have hb : (a >>> s.mySystem.PAGE_SHIFT) * s.mySystem.PAGE_SIZE < 0x1400 := by
      unfold System.PAGE_SIZE; omega
    refine ⟨(a >>> s.mySystem.PAGE_SHIFT) * s.mySystem.PAGE_SIZE &&& 0x03FF, ?_, ?_, ?_, ?_⟩
    · simp only [segmentAccess, he, ne_eq, not_true_eq_false, if_false, hb, if_true]
    · simp only [segmentAccess, he, ne_eq, not_true_eq_false, if_false, hb, if_true]
    · rw [and_03FF, and_03FF]
      unfold System.PAGE_MASK System.PAGE_SIZE
      omega
    · rw [and_03FF]
      unfold System.PAGE_MASK System.PAGE_SIZE
      omega
  · have hb : ¬ (a >>> s.mySystem.PAGE_SHIFT) * s.mySystem.PAGE_SIZE < 0x1400 := by
      unfold System.PAGE_SIZE; omega
    refine ⟨(a >>> s.mySystem.PAGE_SHIFT) * s.mySystem.PAGE_SIZE &&& 0x03FF, ?_, ?_, ?_, ?_⟩
    · simp only [segmentAccess, he, ne_eq, not_true_eq_false, if_false, hb]
    · simp only [segmentAccess, he, ne_eq, not_true_eq_false, if_false, hb]
    · rw [and_03FF, and_03FF]
      unfold System.PAGE_MASK System.PAGE_SIZE
      omega
    · rw [and_03FF]
      unfold System.PAGE_MASK System.PAGE_SIZE
      omega

theorem bankRAM_indices (s : CartridgeMNetwork) (b a : Nat) (hu : s.myBankLocked = false)
    (hsh : s.mySystem.PAGE_SHIFT ≤ 8) (hb : b < 4) (h1 : 0x1800 ≤ a) (h2 : a < 0x1A00) :
    (a < 0x1900 →
      ∃ i, ((bankRAM s b).mySystem.getPageAccess a).directPokeBase = some (Ptr.ram i) ∧
        ((bankRAM s b).mySystem.getPageAccess a).directPeekBase = none ∧
        i + (a &&& s.mySystem.PAGE_MASK) = 1024 + (b <<< 8) + (a &&& 0x00FF) ∧
        1024 ≤ i + (a &&& s.mySystem.PAGE_MASK) ∧
        i + (a &&& s.mySystem.PAGE_MASK) < RAM_SIZE) ∧
    (0x1900 ≤ a →
      ∃ i, ((bankRAM s b).mySystem.getPageAccess a).directPeekBase = some (Ptr.ram i) ∧
        ((bankRAM s b).mySystem.getPageAccess a).directPokeBase = none ∧
        i + (a &&& s.mySystem.PAGE_MASK) = 1024 + (b <<< 8) + (a &&& 0x00FF) ∧
        1024 ≤ i + (a &&& s.mySystem.PAGE_MASK) ∧
        i + (a &&& s.mySystem.PAGE_MASK) < RAM_SIZE) := by
  obtain ⟨f1, f2⟩ := page_split s.mySystem.PAGE_SHIFT a hsh
  rw [bankRAM_getPageAccess s b a hu hsh h1 h2]
  refine ⟨fun hlt => ?_, fun hge => ?_⟩
  · have hp : (a >>> s.mySystem.PAGE_SHIFT) * s.mySystem.PAGE_SIZE < 0x1900 := by
      unfold System.PAGE_SIZE; omega
    refine ⟨1024 + (b <<< 8) % 65536 +
      ((a >>> s.mySystem.PAGE_SHIFT) * s.mySystem.PAGE_SIZE &&& 0x00FF), ?_, ?_, ?_, ?_, ?_⟩
    · simp only [ramPortAccess, hp, if_true]
    · simp only [ramPortAccess, hp, if_true]
    · rw [and_00FF, and_00FF, shl_8]
      unfold System.PAGE_MASK System.PAGE_SIZE
      omega
    · omega
    · rw [and_00FF, shl_8]
      show _ < 2048
      unfold System.PAGE_MASK System.PAGE_SIZE
      omega
  · have hp : ¬ (a >>> s.mySystem.PAGE_SHIFT) * s.mySystem.PAGE_SIZE < 0x1900 := by
      unfold System.PAGE_SIZE; omega
    refine ⟨1024 + (b <<< 8) % 65536 +
      ((a >>> s.mySystem.PAGE_SHIFT) * s.mySystem.PAGE_SIZE &&& 0x00FF), ?_, ?_, ?_, ?_, ?_⟩
    · simp only [ramPortAccess, hp, if_false]
    · simp only [ramPortAccess, hp, if_false]
    · rw [and_00FF, and_00FF, shl_8]
      unfold System.PAGE_MASK System.PAGE_SIZE
      omega
    · omega
    · rw [and_00FF, shl_8]
      show _ < 2048
      unfold System.PAGE_MASK System.PAGE_SIZE
      omega

/-- C27: with `N` slices, whenever both slice indices are below `N` and the RAM bank index
is below 4, every buffer index used at a 16-bit address `a` is in range.  `peek` (on the
state `t` left by the hot-spot check) and `patch` touch the 1K RAM area only at
`a & 0x3FF < 1024`, a 256-byte bank only at `1024 + (myCurrentRAM << 8) + (a & 0xFF)`
in `[1024, 2048)`, and the ROM image only at `(slice << 11) + (a & 0x7FF) < N * 2048`;
the pointers that `bank(k)` (`k < N`) and `bankRAM(b)` (`b < 4`) install resolve, for
every address of their pages, to indices in the same ranges.  So an access to the 1K area
never touches a byte of a 256-byte bank and vice versa, and all RAM indices are below
2048. -/
theorem indices_in_bounds (sch : Scheme) (N : Nat) (s : CartridgeMNetwork) (v a k b : Nat) :
    (∀ t, t = checkSwitchBank sch s (a &&& 0x0FFF) →
      t.myCurrentSlice 0 < N → t.myCurrentSlice 1 < N → t.myCurrentRAM < 4 →
      (peek sch s v a).2.myImage = t.myImage ∧
      (t.myCurrentSlice 0 = t.myFixedSlice ∧ a &&& 0x0FFF < 0x0400 →
        (a &&& 0x0FFF) &&& 0x03FF < 1024 ∧
        ∀ i, i ≠ (a &&& 0x0FFF) &&& 0x03FF → (peek sch s v a).2.myRAM i = t.myRAM i) ∧
      (¬ (t.myCurrentSlice 0 = t.myFixedSlice ∧ a &&& 0x0FFF < 0x0400) →
        0x0800 ≤ a &&& 0x0FFF ∧ a &&& 0x0FFF ≤ 0x08FF →
        1024 ≤ 1024 + (t.myCurrentRAM <<< 8) + ((a &&& 0x0FFF) &&& 0x00FF) ∧
        1024 + (t.myCurrentRAM <<< 8) + ((a &&& 0x0FFF) &&& 0x00FF) < RAM_SIZE ∧
        ∀ i, i ≠ 1024 + (t.myCurrentRAM <<< 8) + ((a &&& 0x0FFF) &&& 0x00FF) →
          (peek sch s v a).2.myRAM i = t.myRAM i) ∧
      (¬ (t.myCurrentSlice 0 = t.myFixedSlice ∧ a &&& 0x0FFF < 0x0400) →
        ¬ (0x0800 ≤ a &&& 0x0FFF ∧ a &&& 0x0FFF ≤ 0x08FF) →
        peek sch s v a =
          (t.myImage ((t.myCurrentSlice ((a &&& 0x0FFF) >>> 11) <<< 11)
            + ((a &&& 0x0FFF) &&& (BANK_SIZE - 1))), t) ∧
        (t.myCurrentSlice ((a &&& 0x0FFF) >>> 11) <<< 11)
          + ((a &&& 0x0FFF) &&& (BANK_SIZE - 1)) < N * BANK_SIZE)) ∧
    (s.myCurrentSlice 0 < N → s.myCurrentSlice 1 < N → s.myCurrentRAM < 4 →
      (a &&& 0x0FFF < 0x0800 → s.myCurrentSlice 0 = s.myFixedSlice →
        (patch s a v).2.myRAM = store s.myRAM ((a &&& 0x0FFF) &&& 0x03FF) v ∧
        (patch s a v).2.myImage = s.myImage ∧ (a &&& 0x0FFF) &&& 0x03FF < 1024) ∧
      (a &&& 0x0FFF < 0x0800 → s.myCurrentSlice 0 ≠ s.myFixedSlice →
        (patch s a v).2.myImage = store s.myImage
          ((s.myCurrentSlice 0 <<< 11) + ((a &&& 0x0FFF) &&& (BANK_SIZE - 1))) v ∧
        (patch s a v).2.myRAM = s.myRAM ∧
        (s.myCurrentSlice 0 <<< 11) + ((a &&& 0x0FFF) &&& (BANK_SIZE - 1)) < N * BANK_SIZE) ∧
      (0x0800 ≤ a &&& 0x0FFF → a &&& 0x0FFF < 0x0900 →
        (patch s a v).2.myRAM = store s.myRAM
          (1024 + (s.myCurrentRAM <<< 8) + ((a &&& 0x0FFF) &&& 0x00FF)) v ∧
        (patch s a v).2.myImage = s.myImage ∧
        1024 ≤ 1024 + (s.myCurrentRAM <<< 8) + ((a &&& 0x0FFF) &&& 0x00FF) ∧
        1024 + (s.myCurrentRAM <<< 8) + ((a &&& 0x0FFF) &&& 0x00FF) < RAM_SIZE) ∧
      (0x0900 ≤ a &&& 0x0FFF →
        (patch s a v).2.myImage = store s.myImage
          ((s.myCurrentSlice ((a &&& 0x0FFF) >>> 11) <<< 11)
            + ((a &&& 0x0FFF) &&& (BANK_SIZE - 1))) v ∧
        (patch s a v).2.myRAM = s.myRAM ∧
        (s.myCurrentSlice ((a &&& 0x0FFF) >>> 11) <<< 11)
          + ((a &&& 0x0FFF) &&& (BANK_SIZE - 1)) < N * BANK_SIZE)) ∧
    (s.bankLocked = false → s.mySystem.PAGE_SHIFT ≤ 8 → k < N → 0x1000 ≤ a → a < 0x1800 →
      (k ≠ s.myFixedSlice →
        ∃ i, ((bank s k).2.mySystem.getPageAccess a).directPeekBase = some (Ptr.image i) ∧
          ((bank s k).2.mySystem.getPageAccess a).directPokeBase = none ∧
          i + (a &&& s.mySystem.PAGE_MASK) < N * BANK_SIZE ∧
          (k < 32 → i + (a &&& s.mySystem.PAGE_MASK) = (k <<< 11) + (a &&& 0x07FF))) ∧
      (k = s.myFixedSlice → a < 0x1400 →
        ∃ i, ((bank s k).2.mySystem.getPageAccess a).directPokeBase = some (Ptr.ram i) ∧
          ((bank s k).2.mySystem.getPageAccess a).directPeekBase = none ∧
          i + (a &&& s.mySystem.PAGE_MASK) = a &&& 0x03FF ∧
          i + (a &&& s.mySystem.PAGE_MASK) < 1024) ∧
      (k = s.myFixedSlice → 0x1400 ≤ a →
        ∃ i, ((bank s k).2.mySystem.getPageAccess a).directPeekBase = some (Ptr.ram i) ∧
          ((bank s k).2.mySystem.getPageAccess a).directPokeBase = none ∧
          i + (a &&& s.mySystem.PAGE_MASK) = a &&& 0x03FF ∧
          i + (a &&& s.mySystem.PAGE_MASK) < 1024)) ∧
    (s.bankLocked = false → s.mySystem.PAGE_SHIFT ≤ 8 → b < 4 → 0x1800 ≤ a → a < 0x1A00 →
      (a < 0x1900 →
        ∃ i, ((bankRAM s b).mySystem.getPageAccess a).directPokeBase = some (Ptr.ram i) ∧
          ((bankRAM s b).mySystem.getPageAccess a).directPeekBase = none ∧
          i + (a &&& s.mySystem.PAGE_MASK) = 1024 + (b <<< 8) + (a &&& 0x00FF) ∧
          1024 ≤ i + (a &&& s.mySystem.PAGE_MASK) ∧
          i + (a &&& s.mySystem.PAGE_MASK) < RAM_SIZE) ∧
      (0x1900 ≤ a →
        ∃ i, ((bankRAM s b).mySystem.getPageAccess a).directPeekBase = some (Ptr.ram i) ∧
          ((bankRAM s b).mySystem.getPageAccess a).directPokeBase = none ∧
          i + (a &&& s.mySystem.PAGE_MASK) = 1024 + (b <<< 8) + (a &&& 0x00FF) ∧
          1024 ≤ i + (a &&& s.mySystem.PAGE_MASK) ∧
          i + (a &&& s.mySystem.PAGE_MASK) < RAM_SIZE)) := by
  refine ⟨?_, ?_, ?_, ?_⟩
  · intro t ht h0 h1 hr
    obtain ⟨pimg, p1, p2, p3⟩ := peek_cases sch s v a
    rw [← ht] at pimg p1 p2 p3
    obtain ⟨r1, r2, r3⟩ := ram_index_bounds t.myCurrentRAM a hr
    refine ⟨pimg, fun c1 => ⟨r1, p1 c1⟩, fun c1 c2 => ⟨r2, r3, p2 c1 c2⟩,
      fun c1 c2 => ⟨p3 c1 c2, (rom_index_lt t.myCurrentSlice N a h0 h1).1⟩⟩
  · intro h0 h1 hr
    obtain ⟨q1, q2, q3, q4⟩ := patch_cases s a v
    obtain ⟨r1, r2, r3⟩ := ram_index_bounds s.myCurrentRAM a hr
    obtain ⟨i1, i0⟩ := rom_index_lt s.myCurrentSlice N a h0 h1
    refine ⟨fun c1 c2 => ?_, fun c1 c2 => ?_, fun c1 c2 => ?_, fun c1 => ?_⟩
    · rw [q1 c1 c2]; exact ⟨rfl, rfl, r1⟩
    · rw [q2 c1 c2]; exact ⟨rfl, rfl, i0⟩
    · rw [q3 c1 c2]; exact ⟨rfl, rfl, r2, r3⟩
    · rw [q4 c1]; exact ⟨rfl, rfl, i1⟩
  · intro hu hsh hk h1 h2
    exact bank_indices s N k a hu hsh hk h1 h2
  · intro hu hsh hb h1 h2
    exact bankRAM_indices s b a hu hsh hb h1 h2

theorem indices_in_bounds_witness :
    demoCart.myCurrentSlice 0 < 8 ∧ demoCart.myCurrentSlice 1 < 8 ∧ demoCart.myCurrentRAM < 4 ∧
    0x0900 ≤ 0x1A10 &&& 0x0FFF ∧
    (patch demoCart 0x1A10 9).2.myImage = store demoCart.myImage
      ((demoCart.myCurrentSlice ((0x1A10 &&& 0x0FFF) >>> 11) <<< 11)
        + ((0x1A10 &&& 0x0FFF) &&& (BANK_SIZE - 1))) 9 ∧
    (demoCart.myCurrentSlice ((0x1A10 &&& 0x0FFF) >>> 11) <<< 11)
      + ((0x1A10 &&& 0x0FFF) &&& (BANK_SIZE - 1)) < 8 * BANK_SIZE :=
  ⟨by decide, by decide, by decide, by decide,
    (((indices_in_bounds e7Scheme 8 demoCart 9 0x1A10 0 0).2.1 (by decide) (by decide)
      (by decide)).2.2.2 (by decide)).1,
    (((indices_in_bounds e7Scheme 8 demoCart 9 0x1A10 1 1).2.1 (by decide) (by decide)
      (by decide)).2.2.2 (by decide)).2.2⟩

/-! ## Frames of bank, bankRAM and patch -/

theorem bank_record (s : CartridgeMNetwork) (k : Nat) (hu : s.myBankLocked = false) :
    bank s k = (true, { s with
      myCurrentSlice := store s.myCurrentSlice 0 k
      mySystem := (bank s k).2.mySystem
      myBankChanged := true }) := by
  simp only [bank, bankLocked, hu, Bool.false_eq_true, if_false]

theorem bankRAM_record (s : CartridgeMNetwork) (b : Nat) (hu : s.myBankLocked = false) :
    bankRAM s b = { s with
      myCurrentRAM := b
      mySystem := (bankRAM s b).mySystem
      myBankChanged := true } := by
  simp only [bankRAM, bankLocked, hu, Bool.false_eq_true, if_false]

/-- C28: for every unlocked cartridge (page size a power of two dividing `0x100`),
`bank(k)` returns true and changes only `myCurrentSlice[0]` (set to `k`), the
bank-changed flag and the page-table entries of `0x1000..0x17FF`: every other member
(`myCurrentSlice[1]`, `myCurrentRAM`, every ROM and RAM byte, the lock) and every other
page-table entry, those of `0x1800..0x1FFF` included, is unchanged; `bankRAM(b)` changes
only `myCurrentRAM` (set to `b`), the bank-changed flag and the page-table entries of
`0x1800..0x19FF`, leaving both slice indices, every ROM and RAM byte and all other
page-table entries unchanged. -/
theorem bank_operations_frame (s : CartridgeMNetwork) (k b : Nat) (hu : s.bankLocked = false)
    (hsh : s.mySystem.PAGE_SHIFT ≤ 8) :
    (bank s k = (true, { s with
        myCurrentSlice := store s.myCurrentSlice 0 k
        mySystem := (bank s k).2.mySystem
        myBankChanged := true }) ∧
      (bank s k).2.myCurrentSlice 0 = k ∧
      (bank s k).2.myCurrentSlice 1 = s.myCurrentSlice 1 ∧
      (bank s k).2.myCurrentRAM = s.myCurrentRAM ∧
      (bank s k).2.myImage = s.myImage ∧ (bank s k).2.myRAM = s.myRAM ∧
      (bank s k).2.mySystem.PAGE_SHIFT = s.mySystem.PAGE_SHIFT ∧
      ∀ page, ¬ (0x1000 ≤ page * s.mySystem.PAGE_SIZE ∧ page * s.mySystem.PAGE_SIZE < 0x1800) →
        (bank s k).2.mySystem.myPageAccessTable page = s.mySystem.myPageAccessTable page) ∧
    (bankRAM s b = { s with
        myCurrentRAM := b
        mySystem := (bankRAM s b).mySystem
        myBankChanged := true } ∧
      (bankRAM s b).myCurrentRAM = b ∧
      (bankRAM s b).myCurrentSlice = s.myCurrentSlice ∧
      (bankRAM s b).myImage = s.myImage ∧ (bankRAM s b).myRAM = s.myRAM ∧
      (bankRAM s b).mySystem.PAGE_SHIFT = s.mySystem.PAGE_SHIFT ∧
      ∀ page, ¬ (0x1800 ≤ page * s.mySystem.PAGE_SIZE ∧ page * s.mySystem.PAGE_SIZE < 0x1A00) →
        (bankRAM s b).mySystem.myPageAccessTable page = s.mySystem.myPageAccessTable page) := by
  have hu' : s.myBankLocked = false := hu
  obtain ⟨-, -, bimg, bram, bcr, -, bs1⟩ := bank_frame s k
  obtain ⟨-, -, rimg, rram, rsl, -⟩ := bankRAM_frame s b
  obtain ⟨bsh, btab⟩ := bank_outside s k hsh
  obtain ⟨rsh, rtab⟩ := bankRAM_outside s b hsh
  exact ⟨⟨bank_record s k hu', bank_slice s k hu', bs1, bcr, bimg, bram, bsh, btab⟩,
    ⟨bankRAM_record s b hu', bankRAM_bank s b hu', rsl, rimg, rram, rsh, rtab⟩⟩

theorem bank_operations_frame_witness :
    demoCart.bankLocked = false ∧ demoCart.mySystem.PAGE_SHIFT ≤ 8 ∧
    (bank demoCart 3).2.myCurrentSlice 1 = demoCart.myCurrentSlice 1 ∧
    (bankRAM demoCart 2).myCurrentSlice = demoCart.myCurrentSlice :=
  ⟨by decide, by decide,
    (bank_operations_frame demoCart 3 2 (by decide) (by decide)).1.2.2.1,
    (bank_operations_frame demoCart 3 2 (by decide) (by decide)).2.2.2.1⟩

/-- C29: for every cartridge state, locked or unlocked, every address `a` and byte `v`,
`patch(a, v)` returns true, sets the bank-changed flag and stores `v` into exactly one
cell: with `o = a & 0xFFF`, the 1K-area RAM byte `o & 0x3FF` if `o < 0x800` and the fixed
slice is in segment 0, the ROM byte `(myCurrentSlice[0] << 11) + (o & 0x7FF)` if
`o < 0x800` otherwise, the RAM byte `1024 + (myCurrentRAM << 8) + (o & 0xFF)` of the
current 256-byte bank if `0x800 <= o < 0x900`, and the ROM byte
`(myCurrentSlice[o >> 11] << 11) + (o & 0x7FF)` of the slice mapped at `a` in every
other case; every other ROM and RAM byte, both slice indices, the RAM bank index, the
lock and the page table are unchanged, and the lock has no influence: the result on the
locked state is the locked result on the unlocked state. -/
theorem patch_frame (s : CartridgeMNetwork) (a v : Nat) :
    (patch s a v).1 = true ∧ (patch s a v).2.myBankChanged = true ∧
    (patch s a v).2.myCurrentSlice = s.myCurrentSlice ∧
    (patch s a v).2.myCurrentRAM = s.myCurrentRAM ∧
    (patch s a v).2.mySystem = s.mySystem ∧
    (patch s a v).2.myBankLocked = s.myBankLocked ∧
    (patch s a v).2.myFixedSlice = s.myFixedSlice ∧
    (a &&& 0x0FFF < 0x0800 → s.myCurrentSlice 0 = s.myFixedSlice →
      (patch s a v).2.myRAM = store s.myRAM ((a &&& 0x0FFF) &&& 0x03FF) v ∧
      (patch s a v).2.myImage = s.myImage) ∧
    (a &&& 0x0FFF < 0x0800 → s.myCurrentSlice 0 ≠ s.myFixedSlice →
      (patch s a v).2.myImage = store s.myImage
        ((s.myCurrentSlice 0 <<< 11) + ((a &&& 0x0FFF) &&& (BANK_SIZE - 1))) v ∧
      (patch s a v).2.myRAM = s.myRAM) ∧
    (0x0800 ≤ a &&& 0x0FFF → a &&& 0x0FFF < 0x0900 →
      (patch s a v).2.myRAM = store s.myRAM
        (1024 + (s.myCurrentRAM <<< 8) + ((a &&& 0x0FFF) &&& 0x00FF)) v ∧
      (patch s a v).2.myImage = s.myImage) ∧
    (0x0900 ≤ a &&& 0x0FFF →
      (patch s a v).2.myImage = store s.myImage
        ((s.myCurrentSlice ((a &&& 0x0FFF) >>> 11) <<< 11)
          + ((a &&& 0x0FFF) &&& (BANK_SIZE - 1))) v ∧
      (patch s a v).2.myRAM = s.myRAM) ∧
    (patch (lockBank s) a v).1 = (patch (unlockBank s) a v).1 ∧
    (patch (lockBank s) a v).2 = lockBank (patch (unlockBank s) a v).2 := by
  obtain ⟨q1, q2, q3, q4⟩ := patch_cases s a v
  refine ⟨rfl, rfl, ?_, ?_, ?_, ?_, ?_, fun c1 c2 => ?_, fun c1 c2 => ?_, fun c1 c2 => ?_,
    fun c1 => ?_, rfl, ?_⟩
  · unfold patch; simp only; split_ifs <;> rfl
  · unfold patch; simp only; split_ifs <;> rfl
  · unfold patch; simp only; split_ifs <;> rfl
  · unfold patch; simp only; split_ifs <;> rfl
  · unfold patch; simp only; split_ifs <;> rfl
  · rw [q1 c1 c2]; exact ⟨rfl, rfl⟩
  · rw [q2 c1 c2]; exact ⟨rfl, rfl⟩
  · rw [q3 c1 c2]; exact ⟨rfl, rfl⟩
  · rw [q4 c1]; exact ⟨rfl, rfl⟩
  · unfold patch lockBank unlockBank; simp only; split_ifs <;> rfl

theorem patch_frame_witness :
    0x0800 ≤ 0x1810 &&& 0x0FFF ∧ 0x1810 &&& 0x0FFF < 0x0900 ∧
    (patch demoCart 0x1810 9).2.myRAM = store demoCart.myRAM
      (1024 + (demoCart.myCurrentRAM <<< 8) + ((0x1810 &&& 0x0FFF) &&& 0x00FF)) 9 ∧
    (patch demoCart 0x1810 9).2.myImage = demoCart.myImage ∧
    (patch demoCart 0x1810 9).2.mySystem = demoCart.mySystem :=
  ⟨by decide, by decide,
    ((patch_frame demoCart 0x1810 9).2.2.2.2.2.2.2.2.2.1 (by decide) (by decide)).1,
    ((patch_frame demoCart 0x1810 9).2.2.2.2.2.2.2.2.2.1 (by decide) (by decide)).2,
    (patch_frame demoCart 0x1810 9).2.2.2.2.1⟩

/-- C30 (code evaluated at the failing inputs): on the installed eight-slice cartridge
the tracking buffer has `8 * BANK_SIZE + RAM_SIZE` entries, yet `bank(7)` (the fixed
slice, so the 1K RAM write port) gives page `0x1000` the tracking offset `0x2000`, which
is below `8 * BANK_SIZE` and is the very offset `bank(4)` gives the same page for ROM
slice 4; `bankRAM(1)` gives page `0x1800` the offset `0x2000 + 1024 + 256`, again below
`8 * BANK_SIZE`.  On an installed two-slice cartridge the buffer has
`2 * BANK_SIZE + RAM_SIZE = 6144` entries and page `0x1800` gets the offset
`0x2000 + 1024`, outside the buffer. -/
theorem ram_tracking_offset_aliases_rom :
    Reachable e7Scheme demoCart ∧
    demoCart.myCodeAccessSize = 8 * BANK_SIZE + RAM_SIZE ∧
    (bank demoCart 7).2.myCurrentSlice 0 = demoCart.myFixedSlice ∧
    ((bank demoCart 7).2.mySystem.getPageAccess 0x1000).directPokeBase = some (Ptr.ram 0) ∧
    ((bank demoCart 7).2.mySystem.getPageAccess 0x1000).codeAccessBase = some 0x2000 ∧
    ((bank demoCart 4).2.mySystem.getPageAccess 0x1000).directPeekBase
      = some (Ptr.image (4 * BANK_SIZE)) ∧
    ((bank demoCart 4).2.mySystem.getPageAccess 0x1000).codeAccessBase
      = some (4 * BANK_SIZE + (0x1000 &&& (BANK_SIZE - 1))) ∧
    4 * BANK_SIZE + (0x1000 &&& (BANK_SIZE - 1)) = 0x2000 ∧
    0x2000 < 8 * BANK_SIZE ∧
    ((bankRAM demoCart 1).mySystem.getPageAccess 0x1800).directPokeBase
      = some (Ptr.ram (1024 + 256)) ∧
    ((bankRAM demoCart 1).mySystem.getPageAccess 0x1800).codeAccessBase
      = some (0x2000 + 1024 + 256) ∧
    0x2000 + 1024 + 256 < 8 * BANK_SIZE ∧
    Reachable tinyScheme tinyCart ∧
    tinyCart.myCodeAccessSize = 2 * BANK_SIZE + RAM_SIZE ∧
    (tinyCart.mySystem.getPageAccess 0x1800).directPokeBase = some (Ptr.ram 1024) ∧
    (tinyCart.mySystem.getPageAccess 0x1800).codeAccessBase = some (0x2000 + 1024) ∧
    ¬ (0x2000 + 1024 < tinyCart.myCodeAccessSize) :=
  ⟨demoCart_reachable, by decide, by decide, by decide, by decide, by decide, by decide,
    by decide, by decide, by decide, by decide, by decide,
    Reachable.install _ system64 rfl (by decide), by decide, by decide, by decide, by decide⟩

/-! ## Read-back through the read port -/

/-- C21 (counterexample): on the unlocked eight-slice cartridge `bankRAM(256)` sets
`myCurrentRAM == 256`, but the offset `256 << 8` does not fit the 16-bit variable that
holds it: page `0x1800` gets the direct-write pointer `&myRAM[1024]` and page `0x1900`
the direct-read pointer `&myRAM[1024]`, not `&myRAM[1024 + (256 << 8)]`. -/
theorem bankRAM_offset_wraps :
    demoCart.bankLocked = false ∧ demoCart.mySystem.PAGE_SHIFT ≤ 8 ∧
    (bankRAM demoCart 256).myCurrentRAM = 256 ∧
    ((bankRAM demoCart 256).mySystem.getPageAccess 0x1800).directPokeBase
      = some (Ptr.ram 1024) ∧
    ((bankRAM demoCart 256).mySystem.getPageAccess 0x1900).directPeekBase
      = some (Ptr.ram 1024) ∧
    1024 + (256 <<< 8) + (0x1800 &&& 0xFF) = 66560 ∧
    1024 + (256 <<< 8) + (0x1900 &&& 0xFF) = 66560 := by
  decide

theorem getBytesFrom_shape :
    ∀ (n i : Nat) (items : List Item) (arr : Nat → Nat),
      (Serializer.getBytesFrom n i items arr).2.2 = true →
      ∃ bytes : List Nat, bytes.length = n ∧
        items = bytes.map Item.byte ++ (Serializer.getBytesFrom n i items arr).2.1 := by
  intro n
  induction n with
  | zero =>
    intro i items arr _
    exact ⟨[], rfl, by simp [Serializer.getBytesFrom]⟩
  | succ n ih =>
    intro i items arr h
    rcases items with _ | ⟨x, l⟩
    · simp [Serializer.getBytesFrom] at h
    · cases x with
      | string _ => simp [Serializer.getBytesFrom] at h
      | short _ => simp [Serializer.getBytesFrom] at h
      | byte v =>
        simp only [Serializer.getBytesFrom] at h ⊢
        obtain ⟨bytes, hlen, hitems⟩ := ih (i + 1) l _ h
        refine ⟨v :: bytes, by simp [hlen], ?_⟩
        rw [List.map_cons, List.cons_append, ← hitems]

theorem getBytesFrom_of_bytes :
    ∀ (bytes : List Nat) (i : Nat) (tail : List Item) (arr : Nat → Nat),
      (Serializer.getBytesFrom bytes.length i (bytes.map Item.byte ++ tail) arr).2.1 = tail ∧
      (Serializer.getBytesFrom bytes.length i (bytes.map Item.byte ++ tail) arr).2.2 = true := by
  intro bytes
  induction bytes with
  | nil =>
    intro i tail arr
    simp [Serializer.getBytesFrom]
  | cons v bytes ih =>
    intro i tail arr
    simp only [List.length_cons, List.map_cons, List.cons_append, Serializer.getBytesFrom]
    exact ih (i + 1) tail _

theorem load_true_iff (name : String) (s : CartridgeMNetwork) (items : List Item) :
    (load name s ⟨Item.string name :: items⟩).1 = true ↔
      ∃ a b r bytes tail, List.length bytes = RAM_SIZE ∧
        items = Item.short a :: Item.short b :: Item.short r :: (bytes.map Item.byte ++ tail) := by
  constructor
  · intro hok
    obtain ⟨a, b, rest, hitems, -⟩ := load_success_slices name s _ hok
    simp only [List.cons.injEq, true_and] at hitems
    subst hitems
    rcases rest with _ | ⟨y, l⟩
    · simp [load, Serializer.getString, Serializer.getShortArray, Serializer.getShortsFrom,
        Serializer.getShort] at hok
    · cases y with
      | string _ =>
        simp [load, Serializer.getString, Serializer.getShortArray, Serializer.getShortsFrom,
          Serializer.getShort] at hok
      | byte _ =>
        simp [load, Serializer.getString, Serializer.getShortArray, Serializer.getShortsFrom,
          Serializer.getShort] at hok
      | short r =>
        by_cases h4 : (Serializer.getBytesFrom RAM_SIZE 0 l s.myRAM).2.2 = true
        · obtain ⟨bytes, hlen, hl⟩ := getBytesFrom_shape RAM_SIZE 0 l s.myRAM h4
          exact ⟨a, b, r, bytes, _, hlen, by rw [← hl]⟩
        · simp [load, Serializer.getString, Serializer.getShortArray, Serializer.getShortsFrom,
            Serializer.getShort, Serializer.getByteArray, h4] at hok
  · rintro ⟨a, b, r, bytes, tail, hlen, rfl⟩
    obtain ⟨h1, h2⟩ := getBytesFrom_of_bytes bytes 0 tail s.myRAM
    rw [hlen] at h1 h2
    have hb : Serializer.getBytesFrom RAM_SIZE 0 (bytes.map Item.byte ++ tail) s.myRAM =
        ((Serializer.getBytesFrom RAM_SIZE 0 (bytes.map Item.byte ++ tail) s.myRAM).1,
          tail, true) :=
      Prod.ext rfl (Prod.ext h1 h2)
    rw [load_complete name s a b r _ _ _ hb]

/-- C14 (amended): for every cartridge state and every record whose name matches but
whose later fields are not two slice indices, a RAM bank index and `RAM_SIZE` bytes (a
field is malformed or missing), `load` returns false and has not re-derived the page
table: ROM image, page table, lock, bank-changed flag and fixed slice are what they
were.  It is not atomic, the fields read before the failing one are stored in the live
cartridge: if the record holds the two slice indices `a`, `b`, then afterwards
`myCurrentSlice[0] == a` and `myCurrentSlice[1] == b`; if the RAM bank index is missing
or malformed, `myCurrentRAM` and the RAM bytes are what they were; if the record holds
the RAM bank index `r` too, then `myCurrentRAM == r`. -/
theorem load_malformed_fails (name : String) (s : CartridgeMNetwork) (items : List Item)
    (hbad : ¬ ∃ a b r bytes tail, List.length bytes = RAM_SIZE ∧
      items = Item.short a :: Item.short b :: Item.short r :: (bytes.map Item.byte ++ tail)) :
    (load name s ⟨Item.string name :: items⟩).1 = false ∧
    ((load name s ⟨Item.string name :: items⟩).2.1.myImage = s.myImage ∧
      (load name s ⟨Item.string name :: items⟩).2.1.mySystem = s.mySystem ∧
      (load name s ⟨Item.string name :: items⟩).2.1.myBankLocked = s.myBankLocked ∧
      (load name s ⟨Item.string name :: items⟩).2.1.myBankChanged = s.myBankChanged ∧
      (load name s ⟨Item.string name :: items⟩).2.1.myFixedSlice = s.myFixedSlice) ∧
    (∀ a b rest, items = Item.short a :: Item.short b :: rest →
      (load name s ⟨Item.string name :: items⟩).2.1.myCurrentSlice 0 = a ∧
      (load name s ⟨Item.string name :: items⟩).2.1.myCurrentSlice 1 = b) ∧
    (∀ a b rest, items = Item.short a :: Item.short b :: rest →
      (∀ r rest1, rest ≠ Item.short r :: rest1) →
      (load name s ⟨Item.string name :: items⟩).2.1.myCurrentRAM = s.myCurrentRAM ∧
      (load name s ⟨Item.string name :: items⟩).2.1.myRAM = s.myRAM) ∧
    (∀ a b r rest, items = Item.short a :: Item.short b :: Item.short r :: rest →
      (load name s ⟨Item.string name :: items⟩).2.1.myCurrentRAM = r) := by
  have hfail : (load name s ⟨Item.string name :: items⟩).1 = false := by
    cases h : (load name s ⟨Item.string name :: items⟩).1 with
    | false => rfl
    | true => exact absurd ((load_true_iff name s items).1 h) hbad
  refine ⟨hfail, load_frame_on_failure name s _ hfail, ?_, ?_, ?_⟩
  · rintro a b rest rfl
    rcases rest with _ | ⟨y, l⟩
    · simp [load, Serializer.getString, Serializer.getShortArray, Serializer.getShortsFrom,
        Serializer.getShort]
    · cases y with
      | string _ =>
        simp [load, Serializer.getString, Serializer.getShortArray, Serializer.getShortsFrom,
          Serializer.getShort]
      | byte _ =>
        simp [load, Serializer.getString, Serializer.getShortArray, Serializer.getShortsFrom,
          Serializer.getShort]
      | short r =>
        have h4 : (Serializer.getBytesFrom RAM_SIZE 0 l s.myRAM).2.2 = false := by
          cases h : (Serializer.getBytesFrom RAM_SIZE 0 l s.myRAM).2.2 with
          | false => rfl
          | true =>
            obtain ⟨bytes, hlen, hl⟩ := getBytesFrom_shape RAM_SIZE 0 l s.myRAM h
            exact absurd ⟨a, b, r, bytes, _, hlen, by rw [← hl]⟩ hbad
        simp [load, Serializer.getString, Serializer.getShortArray, Serializer.getShortsFrom,
          Serializer.getShort, Serializer.getByteArray, h4]
  · rintro a b rest rfl hno
    rcases rest with _ | ⟨y, l⟩
    · simp [load, Serializer.getString, Serializer.getShortArray, Serializer.getShortsFrom,
        Serializer.getShort]
    · cases y with
      | string _ =>
        simp [load, Serializer.getString, Serializer.getShortArray, Serializer.getShortsFrom,
          Serializer.getShort]
      | byte _ =>
        simp [load, Serializer.getString, Serializer.getShortArray, Serializer.getShortsFrom,
          Serializer.getShort]
      | short r => exact absurd rfl (hno r l)
  · rintro a b r rest rfl
    have h4 : (Serializer.getBytesFrom RAM_SIZE 0 rest s.myRAM).2.2 = false := by
      cases h : (Serializer.getBytesFrom RAM_SIZE 0 rest s.myRAM).2.2 with
      | false => rfl
      | true =>
        obtain ⟨bytes, hlen, hl⟩ := getBytesFrom_shape RAM_SIZE 0 rest s.myRAM h
        exact absurd ⟨a, b, r, bytes, _, hlen, by rw [← hl]⟩ hbad
    simp [load, Serializer.getString, Serializer.getShortArray, Serializer.getShortsFrom,
      Serializer.getShort, Serializer.getByteArray, h4]

theorem load_malformed_fails_witness :
    (¬ ∃ a b r bytes tail, List.length bytes = RAM_SIZE ∧
      [Item.short 5, Item.short 6]
        = Item.short a :: Item.short b :: Item.short r :: (bytes.map Item.byte ++ tail)) ∧
    (load "CartridgeE7" demoCart
      ⟨Item.string "CartridgeE7" :: [Item.short 5, Item.short 6]⟩).1 = false ∧
    (load "CartridgeE7" demoCart
      ⟨Item.string "CartridgeE7" :: [Item.short 5, Item.short 6]⟩).2.1.mySystem
        = demoCart.mySystem ∧
    (load "CartridgeE7" demoCart
      ⟨Item.string "CartridgeE7" :: [Item.short 5, Item.short 6]⟩).2.1.myCurrentSlice 1 = 6 :=
  ⟨by rintro ⟨a, b, r, bytes, tail, -, h⟩; simp at h,
    (load_malformed_fails "CartridgeE7" demoCart [Item.short 5, Item.short 6]
      (by rintro ⟨a, b, r, bytes, tail, -, h⟩; simp at h)).1,
    (load_malformed_fails "CartridgeE7" demoCart [Item.short 5, Item.short 6]
      (by rintro ⟨a, b, r, bytes, tail, -, h⟩; simp at h)).2.1.2.1,
    ((load_malformed_fails "CartridgeE7" demoCart [Item.short 5, Item.short 6]
      (by rintro ⟨a, b, r, bytes, tail, -, h⟩; simp at h)).2.2.1 5 6 [] rfl).2⟩

end Stella
